import Mathlib

/-! # REMB congestion control (`kmsremb.c`): a shallow embedding

The development follows `src/gst-plugins/commons/kmsremb.c`.

* Unsigned machine integers are natural numbers reduced modulo `2 ^ 32`
  (`guint`, `guint32`) or `2 ^ 64` (`guint64`, `GstClockTime`) wherever the C
  code can wrap; a `gint` is an `Int`, and `toSigned32` / `ofInt32` /
  `ofInt64` are the conversions C performs between the two.
* `gfloat` values are finite IEEE-754 binary32 numbers `m * 2 ^ e`; every
  arithmetic operation rounds to nearest, ties to even (`roundFrac`).
* Undefined behaviour of the C code (integer division by zero, conversion of
  an out-of-range or non-finite floating value to an integer) is the result
  `none`.
* Everything the code obtains from GStreamer or from the clock is an explicit
  input (`TickEnv`).  The struct declarations live in `kmsremb.h`; field widths
  follow the local variables and format specifiers used in `kmsremb.c`.
* Floating-point expressions are evaluated in single precision, operation by
  operation.
-/

namespace KmsRemb

/-! ## Machine integers -/

/-- Truncation to a 32-bit unsigned integer (`guint`). -/
def wrap32 (n : Nat) : Nat := n % 2 ^ 32

/-- Truncation to a 64-bit unsigned integer (`guint64`). -/
def wrap64 (n : Nat) : Nat := n % 2 ^ 64

/-- Value of a 32-bit pattern read as a `gint` (two's complement). -/
def toSigned32 (n : Nat) : Int := if n < 2 ^ 31 then (n : Int) else (n : Int) - 2 ^ 32

/-- Conversion of a `gint` to `guint`. -/
def ofInt32 (i : Int) : Nat := (i % 2 ^ 32).toNat

/-- Conversion of a `gint` to `guint64` (sign extension). -/
def ofInt64 (i : Int) : Nat := (i % 2 ^ 64).toNat

/-- Subtraction of 64-bit unsigned integers. -/
def sub64 (a b : Nat) : Nat := wrap64 (wrap64 a + 2 ^ 64 - wrap64 b)

/-- Subtraction of 32-bit unsigned integers. -/
def sub32 (a b : Nat) : Nat := wrap32 (wrap32 a + 2 ^ 32 - wrap32 b)

/-! ## Single-precision floating point -/

/-- Finite binary32 value `m * 2 ^ e`. -/
structure F32 where
  m : Int
  e : Int
deriving DecidableEq, Repr

/-- Number of binary digits of `n`, counting at most `fuel` of them. -/
def bitLenAux : Nat → Nat → Nat
  | 0, _ => 0
  | fuel + 1, n => if n = 0 then 0 else bitLenAux fuel (n / 2) + 1

/-- Number of binary digits of `n` (exact for `n < 2 ^ 512`). -/
def bitLen (n : Nat) : Nat := bitLenAux 512 n

/-- The binary exponent of the positive rational `a / d`: the integer `ex`
with `2 ^ ex ≤ a / d < 2 ^ (ex + 1)` (for operands below `2 ^ 512`). -/
def fracExp (a d : Nat) : Int :=
  let e0 : Int := (bitLen a : Int) - (bitLen d : Int)
  if (if 0 ≤ e0 then d * 2 ^ e0.toNat ≤ a else d ≤ a * 2 ^ (-e0).toNat) then e0 else e0 - 1

/-- The quotient `a / (d * 2 ^ q)` rounded to the nearest integer, ties to
even. -/
def roundQuot (a d : Nat) (q : Int) : Nat :=
  let num : Nat := if q < 0 then a * 2 ^ (-q).toNat else a
  let den : Nat := if q < 0 then d else d * 2 ^ q.toNat
  let k := num / den
  let r := num % den
  if den < 2 * r ∨ (2 * r = den ∧ k % 2 = 1) then k + 1 else k

/-- The positive rational `a / d` (negated when `neg`) rounded to binary32:
nearest value with a 24-bit significand, ties to even, gradual underflow
below `2 ^ (-126)`.  The result is `none` when the quotient is not a number
(`d = 0`) or rounds to an infinity. -/
def roundFrac (neg : Bool) (a d : Nat) : Option F32 :=
  if d = 0 then none
  else if a = 0 then some ⟨0, 0⟩
  else
    let q : Int := max (fracExp a d - 23) (-149)
    let k1 := roundQuot a d q
    if 104 < q ∨ (q = 104 ∧ 2 ^ 24 ≤ k1) then none
    else some ⟨if neg then -(k1 : Int) else (k1 : Int), q⟩

/-- The dyadic number `m * 2 ^ e` rounded to binary32. -/
def roundDyadic (m e : Int) : Option F32 :=
  if 0 ≤ e then roundFrac (decide (m < 0)) (m.natAbs * 2 ^ e.toNat) 1
  else roundFrac (decide (m < 0)) m.natAbs (2 ^ (-e).toNat)

/-- Conversion of an integer to `gfloat`; it rounds, and no 32-bit or 64-bit
integer is large enough to overflow, so the fallback value is never used. -/
def F32.ofInt (i : Int) : F32 := (roundDyadic i 0).getD ⟨0, 0⟩

/-- Sum of two `gfloat`s. -/
def F32.add (a b : F32) : Option F32 :=
  let e := min a.e b.e
  roundDyadic (a.m * 2 ^ (a.e - e).toNat + b.m * 2 ^ (b.e - e).toNat) e

/-- Product of two `gfloat`s. -/
def F32.mul (a b : F32) : Option F32 := roundDyadic (a.m * b.m) (a.e + b.e)

/-- Quotient of two `gfloat`s; `none` when the divisor is zero (the quotient is
then an infinity or a NaN). -/
def F32.div (a b : F32) : Option F32 :=
  if b.m = 0 then none
  else
    let s := a.e - b.e
    let neg := decide (a.m < 0) != decide (b.m < 0)
    if 0 ≤ s then roundFrac neg (a.m.natAbs * 2 ^ s.toNat) b.m.natAbs
    else roundFrac neg a.m.natAbs (b.m.natAbs * 2 ^ (-s).toNat)

/-- Integral part of a `gfloat` (truncation towards zero). -/
def F32.trunc (a : F32) : Int :=
  if 0 ≤ a.e then a.m * 2 ^ a.e.toNat
  else if 0 ≤ a.m then ((a.m.natAbs / 2 ^ (-a.e).toNat : Nat) : Int)
  else -((a.m.natAbs / 2 ^ (-a.e).toNat : Nat) : Int)

/-- Conversion of a `gfloat` to `gint`, as its 32-bit pattern; undefined when
the integral part is not representable. -/
def F32.toInt32 (a : F32) : Option Nat :=
  let t := a.trunc
  if -(2 ^ 31) ≤ t ∧ t < 2 ^ 31 then some (ofInt32 t) else none

/-- Conversion of a `gfloat` to `guint`; undefined when the integral part is
not representable. -/
def F32.toUInt32 (a : F32) : Option Nat :=
  let t := a.trunc
  if 0 ≤ t ∧ t < 2 ^ 32 then some t.toNat else none

/-- The rational number a `gfloat` stands for. -/
def F32.toRat (a : F32) : ℚ := (a.m : ℚ) * (2 : ℚ) ^ a.e

/-! ## Constants -/

/-- Absolute floor of the announced bitrate, `REMB_MIN` (bps). -/
def REMB_MIN : Nat := 30000

/-- Initial estimate, `REMB_MAX` (bps). -/
def REMB_MAX : Nat := 2000000

def DEFAULT_REMB_PACKETS_RECV_INTERVAL_TOP : Int := 100

/-- The constant `0.04` as a `gfloat`. -/
def DEFAULT_REMB_EXPONENTIAL_FACTOR : F32 := ⟨10737418, -28⟩

def DEFAULT_REMB_LINEAL_FACTOR_MIN : Int := 50

/-- The grade `(60 * RTCP_MIN_INTERVAL) / 1000`; `RTCP_MIN_INTERVAL` is defined
in `constants.h` and is a parameter here. -/
def DEFAULT_REMB_LINEAL_FACTOR_GRADE (RTCP_MIN_INTERVAL : Int) : Int :=
  Int.tdiv (60 * RTCP_MIN_INTERVAL) 1000

/-- The constant `0.5` as a `gfloat`. -/
def DEFAULT_REMB_DECREMENT_FACTOR : F32 := ⟨8388608, -24⟩

/-- The constant `0.8` as a `gfloat`. -/
def DEFAULT_REMB_THRESHOLD_FACTOR : F32 := ⟨13421773, -24⟩

def DEFAULT_REMB_UP_LOSSES : Int := 12

def REMB_MAX_FACTOR_INPUT_BR : Nat := 2

/-- Bootstrap ceiling of the relay (bps). -/
def DEFAULT_REMB_ON_CONNECT : Nat := 300000

/-- One second in nanoseconds (`GST_SECOND`). -/
def GST_SECOND : Nat := 1000000000

/-- One millisecond in nanoseconds (`GST_MSECOND`). -/
def GST_MSECOND : Nat := GST_SECOND / 1000

/-! ## Session base and stats cache -/

/-- Modelled from the spec: the declaration of `KmsRembBase` (in `kmsremb.h`)
is not among the sources.  The fields are those `kmsremb.c` uses: the session
link and the table `remb_stats`, the specification's StatsCache (source
identifier to last announced bitrate). -/
structure KmsRembBase where
  rtpsess : Option Nat
  remb_stats : List (Nat × Nat)
deriving DecidableEq, Repr

/-- Insert or overwrite one entry of a stats table. -/
def stats_set : List (Nat × Nat) → Nat → Nat → List (Nat × Nat)
  | [], ssrc, bitrate => [(ssrc, bitrate)]
  | (k, v) :: rest, ssrc, bitrate =>
    if k = ssrc then (k, bitrate) :: rest else (k, v) :: stats_set rest ssrc bitrate

def kms_remb_base_create (rtpsess : Nat) : KmsRembBase :=
  { rtpsess := some rtpsess, remb_stats := [] }

def kms_remb_base_update_stats (self : KmsRembBase) (ssrc bitrate : Nat) : KmsRembBase :=
  { self with remb_stats := stats_set self.remb_stats ssrc bitrate }

/-! ## Remote relay (`KmsRembRemote`) -/

/-- Modelled from the spec: the declaration of `KmsRTCPPSFBAFBREMBPacket` (in
`kmsrtcp.h`) is not among the sources.  It is the specification's
ControlPacket, a bitrate and the ordered target source identifiers; the field
`n_ssrcs` of `kmsremb.c` is the length of `ssrcs`. -/
structure KmsRTCPPSFBAFBREMBPacket where
  bitrate : Nat
  ssrcs : List Nat
deriving DecidableEq, Repr

/-- The upstream rate-limit event built by `kms_utils_remb_event_upstream_new`. -/
structure RembEvent where
  bitrate : Nat
  ssrc : Nat
deriving DecidableEq, Repr

/-- Modelled from the spec: the declaration of `KmsRembRemote` (in
`kmsremb.h`) is not among the sources.  The fields are those `kmsremb.c`
uses, the specification's RelayState, all unsigned 32-bit; `pad_event` tells
whether the output pad is set (non-NULL). -/
structure KmsRembRemote where
  base : KmsRembBase
  local_ssrc : Nat
  min_bw : Nat
  max_bw : Nat
  probed : Bool
  remb : Nat
  remb_on_connect : Nat
  pad_event : Bool
deriving DecidableEq, Repr

/-- The function `send_remb_event`: the events pushed on the output pad. -/
def send_remb_event (rm : KmsRembRemote) (bitrate ssrc : Nat) : List RembEvent :=
  if rm.pad_event = false then []
  else
    let br := bitrate
    let br := if rm.min_bw > 0 then max br (wrap32 (rm.min_bw * 1000)) else br
    let br := if rm.max_bw > 0 then min br (wrap32 (rm.max_bw * 1000)) else br
    [⟨br, ssrc⟩]

/-- The one-shot probe `send_remb_event_probe`, fired on a CAPS event. -/
def send_remb_event_probe (rm : KmsRembRemote) (is_caps : Bool) : List RembEvent :=
  if is_caps = false then [] else send_remb_event rm rm.remb_on_connect rm.local_ssrc

/-- What `kms_remb_remote_update` leaves behind: the relay, the local variable
`br_send` at the call of `send_remb_event` (`none` when the packet is
rejected) and the events pushed. -/
structure RemoteUpdate where
  rm : KmsRembRemote
  br_send : Option Nat
  events : List RembEvent
deriving DecidableEq, Repr

/-- The function `kms_remb_remote_update`. -/
def kms_remb_remote_update (rm : KmsRembRemote) (remb_packet : KmsRTCPPSFBAFBREMBPacket) :
    RemoteUpdate :=
  match remb_packet.ssrcs with
  | [] => { rm := rm, br_send := none, events := [] }
  | ssrc0 :: _ =>
    let br_send := remb_packet.bitrate
    let (rm1, br_send) :=
      if rm.probed = false then
        if remb_packet.bitrate < rm.remb_on_connect ∧ remb_packet.bitrate ≥ rm.remb then
          ({ rm with remb := remb_packet.bitrate }, rm.remb_on_connect)
        else
          ({ rm with probed := true }, br_send)
      else (rm, br_send)
    { rm := { rm1 with remb := remb_packet.bitrate },
      br_send := some br_send,
      events := send_remb_event rm1 br_send ssrc0 }

/-- The function `kms_remb_remote_update_target_ssrcs_stats`. -/
def kms_remb_remote_update_target_ssrcs_stats (rm : KmsRembRemote)
    (remb_packet : KmsRTCPPSFBAFBREMBPacket) : KmsRembRemote :=
  remb_packet.ssrcs.foldl
    (fun r ssrc => { r with base := kms_remb_base_update_stats r.base ssrc remb_packet.bitrate })
    rm

/-- The REMB case of `process_psfb_afb`: the relay after the packet and the
events pushed while handling it. -/
def process_psfb_afb (rm : KmsRembRemote) (remb_packet : KmsRTCPPSFBAFBREMBPacket) :
    KmsRembRemote × List RembEvent :=
  let u := kms_remb_remote_update rm remb_packet
  (kms_remb_remote_update_target_ssrcs_stats u.rm remb_packet, u.events)

/-- The function `kms_remb_remote_create` (the record is zero-filled by
`g_slice_new0` before the assignments). -/
def kms_remb_remote_create (rtpsession local_ssrc min_bw max_bw : Nat) (pad : Bool) :
    KmsRembRemote :=
  { base := kms_remb_base_create rtpsession
    local_ssrc := local_ssrc
    min_bw := min_bw
    max_bw := max_bw
    probed := false
    remb := 0
    remb_on_connect := DEFAULT_REMB_ON_CONNECT
    pad_event := pad }

/-- The function `kms_remb_remote_set_params`; `none` when the structure has no
field `remb-on-connect`. -/
def kms_remb_remote_set_params (rm : KmsRembRemote) (remb_on_connect : Option Int) :
    KmsRembRemote :=
  match remb_on_connect with
  | some auxi => { rm with remb_on_connect := ofInt32 auxi }
  | none => rm

/-! ## Local estimator (`KmsRembLocal`): statistics -/

/-- The `stats` structure of an `RTPSource`; a missing field is `none`. -/
structure RTPSourceStats where
  bitrate : Option Nat
  octets_received : Option Nat
  packets_received : Option Nat
  packets_lost : Option Int
  sent_rb_fractionlost : Option Nat
deriving DecidableEq, Repr

/-- One element of the `sources` array of an `RTPSession`. -/
structure RTPSource where
  ssrc : Nat
  stats : RTPSourceStats
deriving DecidableEq, Repr

/-- The record `KmsRlRemoteSession`; `rtpsess` identifies the session. -/
structure KmsRlRemoteSession where
  rtpsess : Nat
  ssrc : Nat
  last_packets_received_expected : Nat
deriving DecidableEq, Repr

/-- The record `GetRtpSessionsInfo`. -/
structure GetRtpSessionsInfo where
  count : Nat
  bitrate : Nat
  fraction_lost_accumulative : Nat
  packets_received_expected_interval_accumulative : Nat
  octets_received : Nat
  packets_received : Nat
deriving DecidableEq, Repr

def kms_rl_remote_session_create (rtpsess ssrc : Nat) : KmsRlRemoteSession :=
  { rtpsess := rtpsess, ssrc := ssrc, last_packets_received_expected := 0 }

/-- Body of the loop of `kms_rl_remote_session_get_sessions_info` for a source
whose SSRC matches (lines 166 to 205). -/
def sessions_info_match (self : KmsRlRemoteSession) (data : GetRtpSessionsInfo)
    (s : RTPSourceStats) : KmsRlRemoteSession × GetRtpSessionsInfo :=
  let bitrate := s.bitrate.getD 0
  let octets_received := s.octets_received.getD 0
  let packets_received := s.packets_received.getD 0
  let packets_lost := s.packets_lost.getD 0
  let fraction_lost := s.sent_rb_fractionlost.getD 0
  let packets_received_expected := wrap64 (packets_received + ofInt64 packets_lost)
  let packets_received_expected_interval :=
    sub64 packets_received_expected self.last_packets_received_expected
  ({ self with last_packets_received_expected := packets_received_expected },
   { count := wrap32 (data.count + 1)
     bitrate := wrap64 (data.bitrate + bitrate)
     fraction_lost_accumulative :=
       wrap32 (data.fraction_lost_accumulative +
         wrap64 (fraction_lost * packets_received_expected_interval))
     packets_received_expected_interval_accumulative :=
       wrap64 (data.packets_received_expected_interval_accumulative +
         packets_received_expected_interval)
     octets_received := wrap64 (data.octets_received + octets_received)
     packets_received := wrap64 (data.packets_received + packets_received) })

/-- The loop of `kms_rl_remote_session_get_sessions_info` over the array of
sources: sources with another SSRC are skipped, the first match is
accumulated and ends the loop. -/
def sessions_info_loop (self : KmsRlRemoteSession) (data : GetRtpSessionsInfo) :
    List RTPSource → KmsRlRemoteSession × GetRtpSessionsInfo
  | [] => (self, data)
  | rtpsource :: rest =>
    if rtpsource.ssrc ≠ self.ssrc then sessions_info_loop self data rest
    else sessions_info_match self data rtpsource.stats

/-- The function `kms_rl_remote_session_get_sessions_info`; `arr` is the
property `sources` of the session (`none` when the session has no array). -/
def kms_rl_remote_session_get_sessions_info (self : KmsRlRemoteSession)
    (arr : Option (List RTPSource)) (data : GetRtpSessionsInfo) :
    KmsRlRemoteSession × GetRtpSessionsInfo :=
  match arr with
  | none => (self, data)
  | some sources => sessions_info_loop self data sources

/-- The call `g_slist_foreach (self->remote_sessions, ...)` of
`kms_remb_local_get_video_recv_info`; `sources` gives the array of each
session. -/
def remote_sessions_foreach (sources : Nat → Option (List RTPSource)) :
    List KmsRlRemoteSession → GetRtpSessionsInfo →
      List KmsRlRemoteSession × GetRtpSessionsInfo
  | [], data => ([], data)
  | rlrs :: rest, data =>
    let r := kms_rl_remote_session_get_sessions_info rlrs (sources rlrs.rtpsess) data
    let rs := remote_sessions_foreach sources rest r.2
    (r.1 :: rs.1, rs.2)

/-- The GStreamer function `gst_util_uint64_scale (val, num, denom)`, from its
documentation: `val * num / denom` truncated, computed without overflow of the
product, `G_MAXUINT64` when the result does not fit or `denom` is zero. -/
def gst_util_uint64_scale (val num denom : Nat) : Nat :=
  if denom = 0 then 2 ^ 64 - 1
  else if val * num / denom < 2 ^ 64 then val * num / denom else 2 ^ 64 - 1

/-! ## Local estimator (`KmsRembLocal`): state and update -/

/-- Modelled from the spec: the declaration of `KmsRembLocal` (in `kmsremb.h`)
is not among the sources.  The fields are those `kmsremb.c` uses, the
specification's EstimatorState.  Bitrates are unsigned 32-bit (`remb`,
`remb_sent`, `threshold`, `lineal_factor`, `max_br`, `avg_br`, printed with
`G_GUINT32_FORMAT`), the loss record, the clocks and the octet and packet
counters are unsigned 64-bit, the parameters read and written as `G_TYPE_INT`
are `gint` and those written as `G_TYPE_FLOAT` are `gfloat`; `event_manager`
tells whether a local bandwidth manager is attached (non-NULL). -/
structure KmsRembLocal where
  base : KmsRembBase
  remote_sessions : List KmsRlRemoteSession
  min_bw : Nat
  max_bw : Nat
  probed : Bool
  remb : Nat
  remb_sent : Nat
  threshold : Nat
  lineal_factor : Nat
  fraction_lost_record : Nat
  max_br : Nat
  avg_br : Nat
  last_time : Nat
  last_sent_time : Nat
  last_octets_received : Nat
  last_packets_received : Nat
  event_manager : Bool
  packets_recv_interval_top : Int
  exponential_factor : F32
  lineal_factor_min : Int
  lineal_factor_grade : F32
  decrement_factor : F32
  threshold_factor : F32
  up_losses : Int
deriving DecidableEq, Repr

/-- What one invocation of the signal handler reads from its surroundings. -/
structure TickEnv where
  /-- Clock read at the start of `kms_remb_local_on_sending_rtcp`. -/
  time_send : Nat
  /-- Clock read in `kms_remb_local_get_video_recv_info`. -/
  time_sample : Nat
  /-- The property `sources` of each session that has an array of sources, by
  session. -/
  sources : List (Nat × List RTPSource)
  /-- Result of `gst_rtcp_buffer_map`. -/
  can_map : Bool
  /-- Result of `gst_rtcp_buffer_add_packet`. -/
  can_add_packet : Bool
  /-- Result of `kms_utils_remb_event_manager_get_min`. -/
  remb_local_max : Nat
  /-- Result of `kms_rtcp_psfb_afb_remb_marshall_packet`. -/
  can_marshall : Bool
deriving DecidableEq, Repr

/-- The property `sources` of the session `rtpsess`; `none` when the session
has no array of sources. -/
def TickEnv.arr (env : TickEnv) (rtpsess : Nat) : Option (List RTPSource) :=
  env.sources.lookup rtpsess

/-- The three output arguments of `kms_remb_local_get_video_recv_info`. -/
structure RecvInfo where
  bitrate : Nat
  fraction_lost : Nat
  packets_rcv_interval : Nat
deriving DecidableEq, Repr

def GetRtpSessionsInfo.zero : GetRtpSessionsInfo :=
  { count := 0, bitrate := 0, fraction_lost_accumulative := 0,
    packets_received_expected_interval_accumulative := 0,
    octets_received := 0, packets_received := 0 }

/-- The function `kms_remb_local_get_video_recv_info`: the estimator after the
call, and the outputs when it returns TRUE (`none` when it returns FALSE). -/
def kms_remb_local_get_video_recv_info (self : KmsRembLocal) (env : TickEnv) :
    KmsRembLocal × Option RecvInfo :=
  if self.base.rtpsess = none then (self, none)
  else
    let r := remote_sessions_foreach env.arr self.remote_sessions GetRtpSessionsInfo.zero
    let self := { self with remote_sessions := r.1 }
    let data := r.2
    if data.count = 0 then (self, none)
    else if data.packets_received_expected_interval_accumulative = 0 then (self, none)
    else
      let current_time := env.time_sample
      let fraction_lost :=
        wrap32 (data.fraction_lost_accumulative /
          data.packets_received_expected_interval_accumulative)
      let bitrate :=
        if self.last_time ≠ 0 then
          let elapsed := sub64 current_time self.last_time
          let bytes_handled := sub64 data.octets_received self.last_octets_received
          gst_util_uint64_scale bytes_handled (8 * GST_SECOND) elapsed
        else data.bitrate
      let packets_rcv_interval := sub64 data.packets_received self.last_packets_received
      ({ self with
          last_time := current_time
          last_octets_received := data.octets_received
          last_packets_received := data.packets_received },
       some { bitrate := bitrate, fraction_lost := fraction_lost,
              packets_rcv_interval := packets_rcv_interval })

/-- The local variable `packets_rcv_interval_top` of `kms_remb_local_update`
(lines 314 and 315): the 64-bit maximum stored in a `guint`. -/
def packets_rcv_interval_top (self : KmsRembLocal) (packets_rcv_interval : Nat) : Nat :=
  wrap32 (max (ofInt64 self.packets_recv_interval_top) packets_rcv_interval)

/-- The new `fraction_lost_record` (lines 316 to 319); undefined when the
divisor is zero. -/
def update_fraction_lost_record (self : KmsRembLocal) (fraction_lost packets_rcv_interval : Nat) :
    Option Nat :=
  let top := packets_rcv_interval_top self packets_rcv_interval
  if top = 0 then none
  else
    some (wrap64 (self.fraction_lost_record * sub64 top packets_rcv_interval +
      fraction_lost * packets_rcv_interval) / top)

/-- The new `avg_br` (lines 322 to 326). -/
def update_avg_br (self : KmsRembLocal) (bitrate : Nat) : Nat :=
  if self.avg_br = 0 then wrap32 bitrate
  else wrap32 (wrap64 (wrap32 (self.avg_br * 7) + bitrate) / 8)

/-- The product `remb_base * factor` of a `gint` and a `gfloat`, as a
`gfloat`. -/
def scale_f32 (remb_base : Nat) (factor : F32) : Option F32 :=
  F32.mul (F32.ofInt (toSigned32 remb_base)) factor

/-- The conversion to `guint` of the product `remb_base * factor`. -/
def scale_to_uint (remb_base : Nat) (factor : F32) : Option Nat :=
  match scale_f32 remb_base factor with
  | none => none
  | some r => r.toUInt32

/-- The local variable `remb_new` before line 348: the exponential step below
the threshold, the lineal step otherwise (lines 338 to 346); the `gint` locals
are kept as 32-bit patterns. -/
def growth_candidate (self : KmsRembLocal) : Option Nat :=
  let remb_base := max self.remb self.max_br
  if remb_base < self.threshold then
    match F32.add (F32.ofInt 1) self.exponential_factor with
    | none => none
    | some f =>
      match scale_f32 remb_base f with
      | none => none
      | some r => r.toInt32
  else some (wrap32 (remb_base + self.lineal_factor))

/-- The branch `fraction_lost_record == 0` (lines 334 to 349). -/
def update_growth (self : KmsRembLocal) : Option KmsRembLocal :=
  match growth_candidate self with
  | none => none
  | some remb_new =>
    let remb_new := min remb_new (wrap32 (self.max_br * REMB_MAX_FACTOR_INPUT_BR))
    some { self with remb := max self.remb remb_new }

/-- The local variable `lineal_factor_new` (line 355), as a 32-bit pattern. -/
def lineal_factor_new (remb_base threshold : Nat) (lineal_factor_grade : F32) : Option Nat :=
  match F32.div (F32.ofInt (sub32 remb_base threshold)) lineal_factor_grade with
  | none => none
  | some r => r.toInt32

/-- The branch `fraction_lost_record != 0` (lines 351 to 370). -/
def update_losses (self : KmsRembLocal) : Option KmsRembLocal :=
  let remb_base := max self.remb self.avg_br
  match scale_to_uint remb_base self.threshold_factor with
  | none => none
  | some threshold =>
    match lineal_factor_new remb_base threshold self.lineal_factor_grade with
    | none => none
    | some lfn =>
      let lineal_factor := ofInt32 (max self.lineal_factor_min (toSigned32 lfn))
      if self.fraction_lost_record < ofInt64 self.up_losses then
        some { self with
          threshold := threshold, lineal_factor := lineal_factor
          remb := min self.remb self.max_br }
      else
        match scale_to_uint remb_base self.decrement_factor with
        | none => none
        | some remb =>
          some { self with
            threshold := threshold, lineal_factor := lineal_factor
            remb := remb, fraction_lost_record := 0, max_br := 0, avg_br := 0 }

/-- The cap of lines 373 to 375. -/
def update_max_bw (self : KmsRembLocal) : KmsRembLocal :=
  if self.max_bw > 0 then { self with remb := min self.remb (wrap32 (self.max_bw * 1000)) }
  else self

/-- Lines 314 to 375 of `kms_remb_local_update`, on an estimator that is
already probed. -/
def update_estimate (self : KmsRembLocal) (info : RecvInfo) : Option KmsRembLocal :=
  match update_fraction_lost_record self info.fraction_lost info.packets_rcv_interval with
  | none => none
  | some record =>
    let self := { self with
      fraction_lost_record := record
      max_br := wrap32 (max self.max_br info.bitrate)
      avg_br := update_avg_br self info.bitrate }
    match (if self.fraction_lost_record = 0 then update_growth self else update_losses self) with
    | none => none
    | some self => some (update_max_bw self)

/-- Lines 310 and 311 of `kms_remb_local_update`, done when the estimator is
not probed yet: the measured bitrate becomes the estimate. -/
def probe (self : KmsRembLocal) (bitrate : Nat) : KmsRembLocal :=
  if self.probed = false then { self with remb := wrap32 bitrate, probed := true } else self

/-- The function `kms_remb_local_update`: the estimator after the call and the
value returned; `none` when the C code has undefined behaviour. -/
def kms_remb_local_update (self : KmsRembLocal) (env : TickEnv) :
    Option (KmsRembLocal × Bool) :=
  match kms_remb_local_get_video_recv_info self env with
  | (self, none) => some (self, false)
  | (self, some info) =>
    if self.probed = false ∧ info.bitrate = 0 then some (self, false)
    else
      match update_estimate (probe self info.bitrate) info with
      | none => none
      | some self => some (self, true)

/-- The calls of `add_ssrcs` made by `g_slist_foreach`: the stats table after
them. -/
def add_ssrcs (base : KmsRembBase) (bitrate : Nat) : List KmsRlRemoteSession → KmsRembBase
  | [] => base
  | rlrs :: rest => add_ssrcs (kms_remb_base_update_stats base rlrs.ssrc bitrate) bitrate rest

/-- The local variable `new_bitrate` of `kms_remb_local_on_sending_rtcp` after
line 463, for an estimator that has just been updated. -/
def new_bitrate (self : KmsRembLocal) (env : TickEnv) : Nat :=
  let new_bitrate := self.remb
  let new_bitrate :=
    if self.event_manager then
      let remb_local_max := env.remb_local_max
      if remb_local_max > 0 then min new_bitrate remb_local_max else new_bitrate
    else new_bitrate
  let new_bitrate :=
    if self.min_bw > 0 then max new_bitrate (wrap32 (self.min_bw * 1000)) else new_bitrate
  max new_bitrate REMB_MIN

/-- What `kms_remb_local_on_sending_rtcp` leaves behind: the estimator, the
value returned and the REMB packet left in the RTCP buffer. -/
structure SendingRtcp where
  self : KmsRembLocal
  ret : Bool
  remb_packet : Option KmsRTCPPSFBAFBREMBPacket
deriving DecidableEq, Repr

/-- Lines 445 to 484 of `kms_remb_local_on_sending_rtcp`, reached when the
update has succeeded: the value sent is recorded, the packet is built for
every tracked source, the stats table and the send time are updated. -/
def sending_rtcp_emit (self : KmsRembLocal) (env : TickEnv) : SendingRtcp :=
  let old_bitrate := self.remb_sent
  let new_bitrate := new_bitrate self env
  let remb_sent := if old_bitrate ≠ new_bitrate then new_bitrate else self.remb_sent
  { self := { self with
      remb_sent := remb_sent
      base := add_ssrcs self.base new_bitrate self.remote_sessions
      last_sent_time := env.time_send }
    ret := true
    remb_packet :=
      if env.can_marshall then
        some { bitrate := new_bitrate, ssrcs := self.remote_sessions.map (fun rlrs => rlrs.ssrc) }
      else none }

/-- The signal handler `kms_remb_local_on_sending_rtcp`.  The constant
`REMB_MAX_INTERVAL` (milliseconds) is defined outside `kmsremb.c` and is a
parameter.  The result is `none` when the C code has undefined behaviour. -/
def kms_remb_local_on_sending_rtcp (REMB_MAX_INTERVAL : Nat) (self : KmsRembLocal)
    (env : TickEnv) : Option SendingRtcp :=
  let current_time := env.time_send
  let elapsed := sub64 current_time self.last_sent_time
  if self.last_sent_time ≠ 0 ∧ elapsed < wrap64 (REMB_MAX_INTERVAL * GST_MSECOND) then
    some { self := self, ret := false, remb_packet := none }
  else if env.can_map = false then some { self := self, ret := false, remb_packet := none }
  else if env.can_add_packet = false then
    some { self := self, ret := false, remb_packet := none }
  else
    match kms_remb_local_update self env with
    | none => none
    | some (self, false) => some { self := self, ret := false, remb_packet := none }
    | some (self, true) => some (sending_rtcp_emit self env)

/-- The function `kms_remb_local_create` (the record is zero-filled by
`g_slice_new0` before the assignments); `RTCP_MIN_INTERVAL` is defined in
`constants.h` and is a parameter. -/
def kms_remb_local_create (RTCP_MIN_INTERVAL : Int) (rtpsession min_bw max_bw : Nat) :
    KmsRembLocal :=
  { base := kms_remb_base_create rtpsession
    remote_sessions := []
    min_bw := min_bw
    max_bw := max_bw
    probed := false
    remb := REMB_MAX
    remb_sent := REMB_MAX
    threshold := REMB_MAX
    lineal_factor := ofInt32 DEFAULT_REMB_LINEAL_FACTOR_MIN
    fraction_lost_record := 0
    max_br := 0
    avg_br := 0
    last_time := 0
    last_sent_time := 0
    last_octets_received := 0
    last_packets_received := 0
    event_manager := false
    packets_recv_interval_top := DEFAULT_REMB_PACKETS_RECV_INTERVAL_TOP
    exponential_factor := DEFAULT_REMB_EXPONENTIAL_FACTOR
    lineal_factor_min := DEFAULT_REMB_LINEAL_FACTOR_MIN
    lineal_factor_grade := F32.ofInt (DEFAULT_REMB_LINEAL_FACTOR_GRADE RTCP_MIN_INTERVAL)
    decrement_factor := DEFAULT_REMB_DECREMENT_FACTOR
    threshold_factor := DEFAULT_REMB_THRESHOLD_FACTOR
    up_losses := DEFAULT_REMB_UP_LOSSES }

/-- The function `kms_remb_local_add_remote_session`. -/
def kms_remb_local_add_remote_session (rl : KmsRembLocal) (rtpsess ssrc : Nat) : KmsRembLocal :=
  { rl with remote_sessions := rl.remote_sessions ++ [kms_rl_remote_session_create rtpsess ssrc] }

/-- The fields a parameter structure may carry (`none`: field not set). -/
structure LocalParams where
  packets_recv_interval_top : Option Int
  exponential_factor : Option F32
  lineal_factor_min : Option Int
  lineal_factor_grade : Option Int
  decrement_factor : Option F32
  threshold_factor : Option F32
  up_losses : Option Int
deriving DecidableEq, Repr

/-- The function `kms_remb_local_set_params`. -/
def kms_remb_local_set_params (rl : KmsRembLocal) (params : LocalParams) : KmsRembLocal :=
  let rl :=
    match params.packets_recv_interval_top with
    | some auxi =>
      let auxi := if auxi ≤ 0 then 1 else auxi
      { rl with packets_recv_interval_top := auxi }
    | none => rl
  let rl :=
    match params.exponential_factor with
    | some auxf => { rl with exponential_factor := auxf }
    | none => rl
  let rl :=
    match params.lineal_factor_min with
    | some auxi => { rl with lineal_factor_min := auxi }
    | none => rl
  let rl :=
    match params.lineal_factor_grade with
    | some auxi => { rl with lineal_factor_grade := F32.ofInt auxi }
    | none => rl
  let rl :=
    match params.decrement_factor with
    | some auxf => { rl with decrement_factor := auxf }
    | none => rl
  let rl :=
    match params.threshold_factor with
    | some auxf => { rl with threshold_factor := auxf }
    | none => rl
  match params.up_losses with
  | some auxi => { rl with up_losses := auxi }
  | none => rl

/-! ## Concrete inputs used by the closed statements below -/

/-- A relay as created for local SSRC 7 on session 1, without bounds. -/
def relayFresh : KmsRembRemote := kms_remb_remote_create 1 7 0 0 true

/-- A relay configured with `min_bw = 500` and `max_bw = 100` (kbps). -/
def relayMinAboveMax : KmsRembRemote := kms_remb_remote_create 1 7 500 100 true

/-- A relay configured with `min_bw = 100` and `max_bw = 500` (kbps). -/
def relayBounded : KmsRembRemote := kms_remb_remote_create 1 7 100 500 true

/-- The value the estimator sends as the specification words it: the current
estimate clamped down to the manager limit when one is present and positive,
raised to `min_bw * 1000`, lowered to `max_bw * 1000`, raised to `REMB_MIN`. -/
def sent_value_spec (remb : Nat) (manager : Option Nat) (min_bw max_bw : Nat) : Nat :=
  let v := match manager with
    | some remb_local_max => if remb_local_max > 0 then min remb remb_local_max else remb
    | none => remb
  let v := if min_bw > 0 then max v (min_bw * 1000) else v
  let v := if max_bw > 0 then min v (max_bw * 1000) else v
  max v REMB_MIN

/-- The manager limit seen by a tick: `none` when no manager is attached. -/
def manager_limit (self : KmsRembLocal) (env : TickEnv) : Option Nat :=
  if self.event_manager then some env.remb_local_max else none

/-- Successive calls of `kms_remb_local_update`, one per environment. -/
def run_updates : KmsRembLocal → List TickEnv → Option KmsRembLocal
  | self, [] => some self
  | self, env :: rest =>
    match kms_remb_local_update self env with
    | none => none
    | some r => run_updates r.1 rest

/-- Every source reported in `env` has a zero (or missing) fractional loss. -/
def ZeroLoss (env : TickEnv) : Prop :=
  ∀ entry ∈ env.sources, ∀ rtpsource ∈ entry.2,
    rtpsource.stats.sent_rb_fractionlost.getD 0 = 0

instance decidableZeroLoss (env : TickEnv) : Decidable (ZeroLoss env) := by
  unfold ZeroLoss
  infer_instance

/-- No tracked source of `self` is reported by its session in `env`. -/
def NoSourceMatches (self : KmsRembLocal) (env : TickEnv) : Prop :=
  ∀ rlrs ∈ self.remote_sessions, ∀ rtpsource ∈ (env.arr rlrs.rtpsess).getD [],
    rtpsource.ssrc ≠ rlrs.ssrc

instance decidableNoSourceMatches (self : KmsRembLocal) (env : TickEnv) :
    Decidable (NoSourceMatches self env) := by
  unfold NoSourceMatches
  infer_instance

/-- The sample `kms_remb_local_get_video_recv_info` accumulates for `self`. -/
def sample (self : KmsRembLocal) (env : TickEnv) : GetRtpSessionsInfo :=
  (remote_sessions_foreach env.arr self.remote_sessions GetRtpSessionsInfo.zero).2

/-- An environment at clock `time` in which session 1 reports the source 2222
with null statistics and the source 1111 with `stats`; every GStreamer call
succeeds and the manager reports no limit. -/
def envOf (time : Nat) (stats : RTPSourceStats) : TickEnv :=
  { time_send := time
    time_sample := time
    sources := [(1, [⟨2222, ⟨some 0, some 0, some 0, some 0, some 0⟩⟩, ⟨1111, stats⟩])]
    can_map := true
    can_add_packet := true
    remb_local_max := 0
    can_marshall := true }

/-- An estimator as created (with `RTCP_MIN_INTERVAL = 500`, no bounds) that
tracks the source 1111 of session 1. -/
def estimatorFresh : KmsRembLocal :=
  kms_remb_local_add_remote_session (kms_remb_local_create 500 1 0 0) 1 1111

/-- First sample: 100000 bps reported, 12500 octets, 10 packets, no loss. -/
def envFirst : TickEnv := envOf 1000000000 ⟨some 100000, some 12500, some 10, some 0, some 0⟩

/-- The estimator after its first tick. -/
def estimatorProbed : KmsRembLocal :=
  ((kms_remb_local_update estimatorFresh envFirst).map Prod.fst).getD estimatorFresh

/-- One second later: 25000 more octets, 20 more packets, no loss. -/
def envSteady : TickEnv := envOf 2000000000 ⟨some 100000, some 37500, some 30, some 0, some 0⟩

/-- One second later: 125000 more octets, 20 more packets, no loss. -/
def envMegabit : TickEnv := envOf 2000000000 ⟨some 100000, some 137500, some 30, some 0, some 0⟩

/-- One second later, the octet counter one below the previous sample. -/
def envOctetsBack : TickEnv := envOf 2000000000 ⟨some 100000, some 12499, some 30, some 0, some 0⟩

/-- First sample of a source that has received `2 ^ 32` packets. -/
def envManyPackets : TickEnv :=
  envOf 1000000000 ⟨some 100000, some 12500, some 4294967296, some 0, some 0⟩

/-- An estimator created with `min_bw = 500` and `max_bw = 100` (kbps). -/
def estimatorMinAboveMax : KmsRembLocal :=
  kms_remb_local_add_remote_session (kms_remb_local_create 500 1 500 100) 1 1111

/-- An estimator that tracks the source 1111 of session 1 and the source 2222
of session 2. -/
def estimatorTwoSources : KmsRembLocal :=
  kms_remb_local_add_remote_session
    (kms_remb_local_add_remote_session (kms_remb_local_create 500 1 0 0) 1 1111) 2 2222

/-- An environment at clock `time` in which session 1 reports the source 1111
with `received1` packets and session 2 the source 2222 with `received2`
packets, without loss. -/
def envTwo (time received1 received2 : Nat) : TickEnv :=
  { time_send := time
    time_sample := time
    sources :=
      [(1, [⟨1111, ⟨some 100000, some 12500, some received1, some 0, some 0⟩⟩]),
       (2, [⟨2222, ⟨some 100000, some 12500, some received2, some 0, some 0⟩⟩])]
    can_map := true
    can_add_packet := true
    remb_local_max := 0
    can_marshall := true }

/-- The two-source estimator after a first tick in which both sources have
received 10 packets (`REMB_MAX_INTERVAL = 200`). -/
def estimatorTwoProbed : KmsRembLocal :=
  ((kms_remb_local_on_sending_rtcp 200 estimatorTwoSources (envTwo 1000000000 10 10)).map
    (fun r => r.self)).getD estimatorTwoSources

/-- The estimator after its second tick, a loss-free one. -/
def estimatorSteady : KmsRembLocal :=
  ((kms_remb_local_update estimatorProbed envSteady).map Prod.fst).getD estimatorProbed

/-- Successive calls of `kms_remb_remote_update`, one per control packet: the
relay after them. -/
def run_remote : KmsRembRemote → List KmsRTCPPSFBAFBREMBPacket → KmsRembRemote
  | rm, [] => rm
  | rm, pkt :: rest => run_remote (kms_remb_remote_update rm pkt).rm rest

/-- The events pushed by successive calls of `kms_remb_remote_update`, one per
control packet, in the order they are pushed. -/
def run_remote_events : KmsRembRemote → List KmsRTCPPSFBAFBREMBPacket → List RembEvent
  | _, [] => []
  | rm, pkt :: rest =>
    (kms_remb_remote_update rm pkt).events ++
      run_remote_events (kms_remb_remote_update rm pkt).rm rest

/-- The bitrate of the event for the forwarded value `bitrate`, as the
specification words the clamping: raised to `min_bw * 1000` when the min bound
is set, then lowered to `max_bw * 1000` when the max bound is set (products in
32 bits). -/
def event_bitrate_spec (min_bw max_bw bitrate : Nat) : Nat :=
  let v := if 0 < min_bw then max bitrate (min_bw * 1000 % 2 ^ 32) else bitrate
  if 0 < max_bw then min v (max_bw * 1000 % 2 ^ 32) else v

/-- The events the specification expects when the relay forwards `bitrate` for
a packet with the targets `ssrcs`: one event with the clamped bitrate and the
first target; none when the output pad is not set or there is no target. -/
def forwarded_spec (rm : KmsRembRemote) (bitrate : Nat) (ssrcs : List Nat) : List RembEvent :=
  if rm.pad_event = false then []
  else
    match ssrcs with
    | [] => []
    | ssrc0 :: _ => [⟨event_bitrate_spec rm.min_bw rm.max_bw bitrate, ssrc0⟩]

/-- A first sample of a source that has received `2 ^ 32 + 1` packets, two of
them duplicates (`packets-lost` is -2), whose report blocks announce the
fractional loss 1. -/
def envDuplicates : TickEnv :=
  envOf 1000000000 ⟨some 100000, some 12500, some 4294967297, some (-2), some 1⟩

/-- A first sample with 1000 packets, none lost, whose report blocks announce
the fractional loss 5. -/
def envSlightLoss : TickEnv := envOf 1000000000 ⟨some 100000, some 12500, some 1000, some 0, some 5⟩

/-- The estimator after a first tick with slight losses. -/
def estimatorSlightLoss : KmsRembLocal :=
  ((kms_remb_local_update estimatorFresh envSlightLoss).map Prod.fst).getD estimatorFresh

/-- One second after `envSlightLoss`: 25000 more octets, `2 ^ 32 + 1` more
packets, none lost, no loss announced. -/
def envPacketJump : TickEnv :=
  envOf 2000000000 ⟨some 100000, some 37500, some 4294968297, some 0, some 0⟩

/-- Whether the SSRC of the record occurs among the sources its session
reports (a session without an array of sources reports none). -/
def ssrc_occurs (arr : Nat → Option (List RTPSource)) (rlrs : KmsRlRemoteSession) : Bool :=
  match arr rlrs.rtpsess with
  | none => false
  | some sources => sources.any (fun rtpsource => rtpsource.ssrc == rlrs.ssrc)

/-- The statistics of the first source of the record's session that carries
the record's SSRC. -/
def first_match (arr : Nat → Option (List RTPSource)) (rlrs : KmsRlRemoteSession) :
    Option RTPSourceStats :=
  match arr rlrs.rtpsess with
  | none => none
  | some sources =>
    (sources.find? (fun rtpsource => rtpsource.ssrc == rlrs.ssrc)).map (fun rtpsource =>
      rtpsource.stats)

/-- The matching records of a list, each with the statistics of its first
matching source. -/
def matched (arr : Nat → Option (List RTPSource)) (rs : List KmsRlRemoteSession) :
    List (KmsRlRemoteSession × RTPSourceStats) :=
  rs.filterMap (fun rlrs => (first_match arr rlrs).map (fun s => (rlrs, s)))

/-- The expected packet count of a source: received plus lost, 64-bit. -/
def expected_spec (s : RTPSourceStats) : Nat :=
  wrap64 (s.packets_received.getD 0 + ofInt64 (s.packets_lost.getD 0))

/-- The expected interval of a record against a source: the expected count
minus the record's previous one, 64-bit. -/
def expected_interval_spec (x : KmsRlRemoteSession × RTPSourceStats) : Nat :=
  sub64 (expected_spec x.2) x.1.last_packets_received_expected

/-- The records after the aggregation: a matching record stores the expected
count of its first matching source, any other record is unchanged. -/
def counters_spec (arr : Nat → Option (List RTPSource)) (rs : List KmsRlRemoteSession) :
    List KmsRlRemoteSession :=
  rs.map (fun rlrs =>
    match first_match arr rlrs with
    | none => rlrs
    | some s => { rlrs with last_packets_received_expected := expected_spec s })

/-- The sample `data` with the contributions of the pairs `ms` added, each
field in its own width. -/
def accumulate_spec (data : GetRtpSessionsInfo)
    (ms : List (KmsRlRemoteSession × RTPSourceStats)) : GetRtpSessionsInfo :=
  { count := (data.count + ms.length) % 2 ^ 32
    bitrate := (data.bitrate + (ms.map (fun x => x.2.bitrate.getD 0)).sum) % 2 ^ 64
    fraction_lost_accumulative :=
      (data.fraction_lost_accumulative +
        (ms.map (fun x => x.2.sent_rb_fractionlost.getD 0 * expected_interval_spec x)).sum) %
          2 ^ 32
    packets_received_expected_interval_accumulative :=
      (data.packets_received_expected_interval_accumulative +
        (ms.map expected_interval_spec).sum) % 2 ^ 64
    octets_received :=
      (data.octets_received + (ms.map (fun x => x.2.octets_received.getD 0)).sum) % 2 ^ 64
    packets_received :=
      (data.packets_received + (ms.map (fun x => x.2.packets_received.getD 0)).sum) % 2 ^ 64 }

/-- An estimator that tracks the sources 3333 and 1111 of session 1. -/
def estimatorOneOfTwo : KmsRembLocal :=
  kms_remb_local_add_remote_session
    (kms_remb_local_add_remote_session (kms_remb_local_create 500 1 0 0) 1 3333) 1 1111

/-- The base of the growth step: the larger of the estimate and `max_br`, the
latter already raised to the measured bitrate (32-bit). -/
def growth_base_spec (self : KmsRembLocal) (info : RecvInfo) : Nat :=
  max self.remb (max self.max_br info.bitrate % 2 ^ 32)

/-- The candidate of the exponential step: the `gfloat` product of the base,
read as a `gint`, and the `gfloat` sum `1 + factor`, converted to `gint` (as a
32-bit pattern); `none` when one of the three operations is undefined. -/
def exponential_candidate_spec (remb_base : Nat) (factor : F32) : Option Nat :=
  (F32.add (F32.ofInt 1) factor).bind (fun f =>
    (F32.mul (F32.ofInt (toSigned32 remb_base)) f).bind F32.toInt32)

/-- The estimator after a growth step with the candidate `candidate`, before
the cap: the candidate is clamped to twice `max_br` (32-bit) and the estimate
is raised to it. -/
def growth_spec (self : KmsRembLocal) (info : RecvInfo) (candidate : Nat) : KmsRembLocal :=
  { self with
    fraction_lost_record := 0
    max_br := max self.max_br info.bitrate % 2 ^ 32
    avg_br := update_avg_br self info.bitrate
    remb := max self.remb (min candidate (max self.max_br info.bitrate % 2 ^ 32 * 2 % 2 ^ 32)) }

/-! # Theorems -/

/-! ## Remote relay: theorems -/

/-- The event `send_remb_event` pushes is the one the specification expects;
only the pad and the bounds of the relay matter. -/
theorem send_remb_event_spec (r rm : KmsRembRemote) (v ssrc0 : Nat) (rest : List Nat)
    (h1 : r.pad_event = rm.pad_event) (h2 : r.min_bw = rm.min_bw) (h3 : r.max_bw = rm.max_bw) :
    send_remb_event r v ssrc0 = forwarded_spec rm v (ssrc0 :: rest) := by
  unfold send_remb_event forwarded_spec event_bitrate_spec wrap32
  rw [h1, h2, h3]

/-- The three cases of `kms_remb_remote_update` on a packet with a target. -/
theorem remote_update_cons (rm : KmsRembRemote) (bitrate ssrc0 : Nat) (rest : List Nat) :
    kms_remb_remote_update rm ⟨bitrate, ssrc0 :: rest⟩ =
      if rm.probed = false then
        if bitrate < rm.remb_on_connect ∧ rm.remb ≤ bitrate then
          { rm := { rm with remb := bitrate }, br_send := some rm.remb_on_connect,
            events := forwarded_spec rm rm.remb_on_connect (ssrc0 :: rest) }
        else
          { rm := { rm with probed := true, remb := bitrate }, br_send := some bitrate,
            events := forwarded_spec rm bitrate (ssrc0 :: rest) }
      else
        { rm := { rm with remb := bitrate }, br_send := some bitrate,
          events := forwarded_spec rm bitrate (ssrc0 :: rest) } := by
  unfold kms_remb_remote_update
  simp only [ge_iff_le]
  by_cases hp : rm.probed = false
  · by_cases h : bitrate < rm.remb_on_connect ∧ rm.remb ≤ bitrate
    · rw [if_pos hp, if_pos h, if_pos hp, if_pos h]
      simp only
      rfl
    · rw [if_pos hp, if_neg h, if_pos hp, if_neg h]
      simp only
      rfl
  · rw [if_neg hp, if_neg hp]
    simp only
    rfl

/-- Without bounds the expected event carries the forwarded value itself and
the first target. -/
theorem forwarded_spec_unbounded (rm : KmsRembRemote) (v : Nat) (ssrcs : List Nat)
    (hs : ssrcs ≠ []) (hpad : rm.pad_event = true) (hmin : rm.min_bw = 0)
    (hmax : rm.max_bw = 0) : forwarded_spec rm v ssrcs = [⟨v, ssrcs.head hs⟩] := by
  cases ssrcs with
  | nil => exact absurd rfl hs
  | cons ssrc0 rest => simp [forwarded_spec, event_bitrate_spec, hpad, hmin, hmax]

/-- C1: while the relay is unprobed, a packet with at least one target whose
bitrate is below `remb_on_connect` and not lower than the held estimate is
forwarded as `remb_on_connect`: the single event pushed on the output pad
carries the ceiling, clamped to the configured bounds (the ceiling itself
when no bound is set), and the first target; the packet bitrate becomes the
held estimate, the relay stays unprobed and nothing else changes.  Any other
packet makes the relay probed and is forwarded, in the same way, at its raw
bitrate.  On a created relay (ceiling 300000) the bitrate 100000 pushes the
event 300000, stores 100000 and stays unprobed, and a following 350000 pushes
the event 350000 and makes the relay probed. -/
theorem remote_update_bootstrap (rm : KmsRembRemote) (pkt : KmsRTCPPSFBAFBREMBPacket)
    (hs : pkt.ssrcs ≠ []) (hp : rm.probed = false) :
    (pkt.bitrate < rm.remb_on_connect ∧ rm.remb ≤ pkt.bitrate →
      (kms_remb_remote_update rm pkt).br_send = some rm.remb_on_connect ∧
      (kms_remb_remote_update rm pkt).rm.remb = pkt.bitrate ∧
      (kms_remb_remote_update rm pkt).rm.probed = false ∧
      (kms_remb_remote_update rm pkt).rm = { rm with remb := pkt.bitrate } ∧
      (kms_remb_remote_update rm pkt).events =
        forwarded_spec rm rm.remb_on_connect pkt.ssrcs ∧
      (rm.pad_event = true → rm.min_bw = 0 → rm.max_bw = 0 →
        (kms_remb_remote_update rm pkt).events =
          [⟨rm.remb_on_connect, pkt.ssrcs.head hs⟩])) ∧
    (¬ (pkt.bitrate < rm.remb_on_connect ∧ rm.remb ≤ pkt.bitrate) →
      (kms_remb_remote_update rm pkt).rm.probed = true ∧
      (kms_remb_remote_update rm pkt).br_send = some pkt.bitrate ∧
      (kms_remb_remote_update rm pkt).rm = { rm with probed := true, remb := pkt.bitrate } ∧
      (kms_remb_remote_update rm pkt).events = forwarded_spec rm pkt.bitrate pkt.ssrcs ∧
      (rm.pad_event = true → rm.min_bw = 0 → rm.max_bw = 0 →
        (kms_remb_remote_update rm pkt).events = [⟨pkt.bitrate, pkt.ssrcs.head hs⟩])) ∧
    (relayFresh.remb_on_connect = 300000 ∧
      (kms_remb_remote_update relayFresh ⟨100000, [7]⟩).br_send = some 300000 ∧
      (kms_remb_remote_update relayFresh ⟨100000, [7]⟩).rm.remb = 100000 ∧
      (kms_remb_remote_update relayFresh ⟨100000, [7]⟩).rm.probed = false ∧
      (kms_remb_remote_update (kms_remb_remote_update relayFresh ⟨100000, [7]⟩).rm
        ⟨350000, [7]⟩).br_send = some 350000 ∧
      (kms_remb_remote_update (kms_remb_remote_update relayFresh ⟨100000, [7]⟩).rm
        ⟨350000, [7]⟩).rm.probed = true ∧
      (kms_remb_remote_update relayFresh ⟨100000, [7]⟩).events = [⟨300000, 7⟩] ∧
      (kms_remb_remote_update (kms_remb_remote_update relayFresh ⟨100000, [7]⟩).rm
        ⟨350000, [7]⟩).events = [⟨350000, 7⟩] ∧
      (kms_remb_remote_update relayMinAboveMax ⟨100000, [7, 8]⟩).events = [⟨100000, 7⟩] ∧
      (kms_remb_remote_update relayBounded ⟨100000, [7, 8]⟩).events = [⟨300000, 7⟩]) := by
  obtain ⟨bitrate, ssrcs⟩ := pkt
  cases ssrcs with
  | nil => exact absurd rfl hs
  | cons ssrc0 rest =>
    refine ⟨?_, ?_, by decide⟩
    · intro h
      simp only at h
      rw [remote_update_cons, if_pos hp, if_pos h]
      refine ⟨rfl, rfl, hp, rfl, rfl, ?_⟩
      intro hpad hmin hmax
      exact forwarded_spec_unbounded rm _ _ hs hpad hmin hmax
    · intro h
      simp only at h
      rw [remote_update_cons, if_pos hp, if_neg h]
      refine ⟨rfl, rfl, rfl, rfl, ?_⟩
      intro hpad hmin hmax
      exact forwarded_spec_unbounded rm _ _ hs hpad hmin hmax

/-- The bootstrap step at the first packet of a created relay. -/
theorem remote_update_bootstrap_witness :
    (kms_remb_remote_update relayFresh ⟨100000, [7]⟩).br_send = some 300000 ∧
    (kms_remb_remote_update relayFresh ⟨100000, [7]⟩).rm.remb = 100000 ∧
    (kms_remb_remote_update relayFresh ⟨100000, [7]⟩).rm.probed = false ∧
    (kms_remb_remote_update relayFresh ⟨100000, [7]⟩).events = [⟨300000, 7⟩] := by
  have h := (remote_update_bootstrap relayFresh ⟨100000, [7]⟩ (by decide) (by decide)).1
    (by decide)
  exact ⟨h.1, h.2.1, h.2.2.1, h.2.2.2.2.2 (by decide) (by decide) (by decide)⟩

/-- The value `send_remb_event` emits for `bitrate`, when the pad is set. -/
theorem send_remb_event_eq (rm : KmsRembRemote) (bitrate ssrc : Nat) (hpad : rm.pad_event = true) :
    send_remb_event rm bitrate ssrc =
      [⟨(if rm.max_bw > 0 then
          min (if rm.min_bw > 0 then max bitrate (wrap32 (rm.min_bw * 1000)) else bitrate)
            (wrap32 (rm.max_bw * 1000))
        else if rm.min_bw > 0 then max bitrate (wrap32 (rm.min_bw * 1000)) else bitrate), ssrc⟩] := by
  simp [send_remb_event, hpad]

/-- C5, as stated, fails: with `min_bw = 500` and `max_bw = 100` both bounds
are set, and the bitrate 200000 is emitted as 100000, which is below
`min_bw * 1000`. -/
theorem send_remb_event_below_min :
    relayMinAboveMax.min_bw > 0 ∧ relayMinAboveMax.max_bw > 0 ∧
    send_remb_event relayMinAboveMax 200000 7 = [⟨100000, 7⟩] ∧
    ¬ (relayMinAboveMax.min_bw * 1000 ≤ 100000 ∧ 100000 ≤ relayMinAboveMax.max_bw * 1000) := by
  decide

/-- C5 (amended): when `0 < min_bw ≤ max_bw` and `max_bw * 1000` fits in 32
bits, every bitrate is emitted inside `[min_bw * 1000, max_bw * 1000]`, a
value inside the range is emitted unchanged and a value above is emitted as
`max_bw * 1000`; for any bounds, emitting the emitted value again changes
nothing, the emitted value does not exceed a max bound that is set, and a
bound equal to 0 imposes no limit. -/
theorem send_remb_event_clamp (rm : KmsRembRemote) (b ssrc : Nat) (hpad : rm.pad_event = true) :
    (0 < rm.min_bw → rm.min_bw ≤ rm.max_bw → rm.max_bw * 1000 < 2 ^ 32 →
      ∃ v, send_remb_event rm b ssrc = [⟨v, ssrc⟩] ∧
        rm.min_bw * 1000 ≤ v ∧ v ≤ rm.max_bw * 1000 ∧
        (rm.min_bw * 1000 ≤ b → b ≤ rm.max_bw * 1000 → v = b) ∧
        (rm.max_bw * 1000 < b → v = rm.max_bw * 1000)) ∧
    (∀ v, send_remb_event rm b ssrc = [⟨v, ssrc⟩] → send_remb_event rm v ssrc = [⟨v, ssrc⟩]) ∧
    (rm.max_bw > 0 → ∀ v, send_remb_event rm b ssrc = [⟨v, ssrc⟩] →
      v ≤ wrap32 (rm.max_bw * 1000)) ∧
    (rm.min_bw = 0 → rm.max_bw = 0 → send_remb_event rm b ssrc = [⟨b, ssrc⟩]) ∧
    (rm.min_bw = 0 → ∀ v, send_remb_event rm b ssrc = [⟨v, ssrc⟩] → v ≤ b) ∧
    (rm.max_bw = 0 → ∀ v, send_remb_event rm b ssrc = [⟨v, ssrc⟩] → b ≤ v) := by
  refine ⟨?_, ?_, ?_, ?_, ?_, ?_⟩
  · intro hmin hle hfit
    have hmax : 0 < rm.max_bw := lt_of_lt_of_le hmin hle
    have h1 : wrap32 (rm.max_bw * 1000) = rm.max_bw * 1000 := Nat.mod_eq_of_lt hfit
    have h2 : wrap32 (rm.min_bw * 1000) = rm.min_bw * 1000 :=
      Nat.mod_eq_of_lt (by omega)
    refine ⟨_, send_remb_event_eq rm b ssrc hpad, ?_⟩
    simp only [gt_iff_lt, hmin, hmax, if_true, h1, h2]
    omega
  · intro v hv
    rw [send_remb_event_eq rm b ssrc hpad] at hv
    rw [send_remb_event_eq rm v ssrc hpad]
    simp only [List.cons.injEq, RembEvent.mk.injEq, and_true] at hv ⊢
    subst hv
    split_ifs <;> omega
  · intro hmax v hv
    rw [send_remb_event_eq rm b ssrc hpad] at hv
    simp only [List.cons.injEq, RembEvent.mk.injEq, and_true, hmax, if_true] at hv
    subst hv
    exact min_le_right _ _
  · intro h1 h2
    simp [send_remb_event, hpad, h1, h2]
  · intro h1 v hv
    rw [send_remb_event_eq rm b ssrc hpad] at hv
    simp only [List.cons.injEq, RembEvent.mk.injEq, and_true, h1, gt_iff_lt, lt_self_iff_false,
      if_false] at hv
    subst hv
    split_ifs <;> omega
  · intro h1 v hv
    rw [send_remb_event_eq rm b ssrc hpad] at hv
    simp only [List.cons.injEq, RembEvent.mk.injEq, and_true, h1, gt_iff_lt, lt_self_iff_false,
      if_false] at hv
    subst hv
    split_ifs <;> omega

/-- The clamp on a relay with bounds 100 and 500 kbps: 700000 is emitted as
500000. -/
theorem send_remb_event_clamp_witness :
    ∃ v, send_remb_event relayBounded 700000 7 = [⟨v, 7⟩] ∧
      relayBounded.min_bw * 1000 ≤ v ∧ v ≤ relayBounded.max_bw * 1000 ∧
      (relayBounded.min_bw * 1000 ≤ 700000 → 700000 ≤ relayBounded.max_bw * 1000 → v = 700000) ∧
      (relayBounded.max_bw * 1000 < 700000 → v = relayBounded.max_bw * 1000) :=
  (send_remb_event_clamp relayBounded 700000 7 (by decide)).1 (by decide) (by decide) (by decide)

/-- Recording a bitrate for no target leaves the relay as it is. -/
theorem update_target_ssrcs_stats_nil (rm : KmsRembRemote) (bitrate : Nat) :
    kms_remb_remote_update_target_ssrcs_stats rm ⟨bitrate, []⟩ = rm := rfl

/-- Recording target statistics changes the stats table only. -/
theorem update_target_ssrcs_stats_fields (pkt : KmsRTCPPSFBAFBREMBPacket) (rm : KmsRembRemote) :
    (kms_remb_remote_update_target_ssrcs_stats rm pkt).remb = rm.remb ∧
    (kms_remb_remote_update_target_ssrcs_stats rm pkt).probed = rm.probed ∧
    (kms_remb_remote_update_target_ssrcs_stats rm pkt).remb_on_connect = rm.remb_on_connect := by
  obtain ⟨bitrate, ssrcs⟩ := pkt
  unfold kms_remb_remote_update_target_ssrcs_stats
  simp only
  induction ssrcs generalizing rm with
  | nil => simp
  | cons a l ih =>
    simp only [List.foldl_cons]
    have h := ih { rm with base := kms_remb_base_update_stats rm.base a bitrate }
    simpa using h

/-- C6: a control packet naming no target leaves the relay (probed flag, held
estimate, bootstrap ceiling, stats table and every other field) unchanged and
pushes no event, both in `kms_remb_remote_update` and in the whole REMB
processing; a packet naming two or more targets is processed (its bitrate
becomes the held estimate) and every event pushed for it carries the first
target, exactly one event being pushed when the output pad is set. -/
theorem remote_rejects_empty_packet (rm : KmsRembRemote) (bitrate ssrc0 ssrc1 : Nat)
    (rest : List Nat) :
    kms_remb_remote_update rm ⟨bitrate, []⟩ = { rm := rm, br_send := none, events := [] } ∧
    process_psfb_afb rm ⟨bitrate, []⟩ = (rm, []) ∧
    (process_psfb_afb rm ⟨bitrate, ssrc0 :: ssrc1 :: rest⟩).1.remb = bitrate ∧
    (∀ ev ∈ (process_psfb_afb rm ⟨bitrate, ssrc0 :: ssrc1 :: rest⟩).2, ev.ssrc = ssrc0) ∧
    (rm.pad_event = true →
      ∃ v, (process_psfb_afb rm ⟨bitrate, ssrc0 :: ssrc1 :: rest⟩).2 = [⟨v, ssrc0⟩]) := by
  refine ⟨rfl, rfl, ?_, ?_, ?_⟩
  · simp only [process_psfb_afb]
    rw [(update_target_ssrcs_stats_fields _ _).1]
    simp [kms_remb_remote_update]
  · intro ev hev
    simp only [process_psfb_afb, kms_remb_remote_update, send_remb_event] at hev
    split_ifs at hev <;> simp_all
  · intro hpad
    simp only [process_psfb_afb, kms_remb_remote_update]
    split_ifs <;> simp [send_remb_event, hpad]

/-- A packet with two targets on a created relay pushes one event, for the
first target. -/
theorem remote_rejects_empty_packet_witness :
    ∃ v, (process_psfb_afb relayFresh ⟨100000, [7, 8]⟩).2 = [⟨v, 7⟩] :=
  (remote_rejects_empty_packet relayFresh 100000 7 8 []).2.2.2.2 (by decide)

/-- C9, as stated, fails: the held estimate of a created relay is 0, not the
bootstrap ceiling. -/
theorem remote_create_estimate_not_ceiling :
    (kms_remb_remote_create 1 7 0 0 true).remb = 0 ∧
    (kms_remb_remote_create 1 7 0 0 true).remb ≠
      (kms_remb_remote_create 1 7 0 0 true).remb_on_connect := by
  decide

/-- C9 (amended): a relay returned by `kms_remb_remote_create` is unprobed, its
bootstrap ceiling is 300000 bps and its held estimate is 0. -/
theorem remote_create_initial (rtpsession local_ssrc min_bw max_bw : Nat) (pad : Bool) :
    (kms_remb_remote_create rtpsession local_ssrc min_bw max_bw pad).probed = false ∧
    (kms_remb_remote_create rtpsession local_ssrc min_bw max_bw pad).remb_on_connect = 300000 ∧
    (kms_remb_remote_create rtpsession local_ssrc min_bw max_bw pad).remb = 0 :=
  ⟨rfl, rfl, rfl⟩

/-! ## Local estimator: statistics lemmas -/

theorem sub64_lt (a b : Nat) : sub64 a b < 2 ^ 64 := Nat.mod_lt _ (by norm_num)

theorem sub64_eq_zero {a b : Nat} (ha : a < 2 ^ 64) (hb : b < 2 ^ 64) (h : sub64 a b = 0) :
    a = b := by
  unfold sub64 wrap64 at h
  rw [Nat.mod_eq_of_lt ha, Nat.mod_eq_of_lt hb] at h
  omega

/-- A session none of whose sources matches is skipped. -/
theorem sessions_info_loop_skip (self : KmsRlRemoteSession) (data : GetRtpSessionsInfo)
    (arr : List RTPSource) (h : ∀ rtpsource ∈ arr, rtpsource.ssrc ≠ self.ssrc) :
    sessions_info_loop self data arr = (self, data) := by
  induction arr with
  | nil => rfl
  | cons a l ih =>
    have ha : a.ssrc ≠ self.ssrc := h a (List.mem_cons_self _ _)
    simp only [sessions_info_loop, ha, ne_eq, not_false_eq_true, if_true]
    exact ih (fun r hr => h r (List.mem_cons_of_mem _ hr))

/-- When no tracked source matches, the sessions and the sample are left as
they are. -/
theorem remote_sessions_foreach_skip (sources : Nat → Option (List RTPSource))
    (sessions : List KmsRlRemoteSession) (data : GetRtpSessionsInfo)
    (h : ∀ rlrs ∈ sessions, ∀ arr, sources rlrs.rtpsess = some arr →
      ∀ rtpsource ∈ arr, rtpsource.ssrc ≠ rlrs.ssrc) :
    remote_sessions_foreach sources sessions data = (sessions, data) := by
  induction sessions generalizing data with
  | nil => rfl
  | cons s l ih =>
    have hs : kms_rl_remote_session_get_sessions_info s (sources s.rtpsess) data = (s, data) := by
      unfold kms_rl_remote_session_get_sessions_info
      cases hsrc : sources s.rtpsess with
      | none => rfl
      | some arr => exact sessions_info_loop_skip s data arr (h s (List.mem_cons_self _ _) arr hsrc)
    simp only [remote_sessions_foreach, hs]
    rw [ih data (fun r hr => h r (List.mem_cons_of_mem _ hr))]

/-- A session leaves its own counter as it is when the expected-packet
interval it adds to an empty sample is zero. -/
theorem sessions_info_loop_zero_interval (self : KmsRlRemoteSession) (arr : List RTPSource)
    (hlast : self.last_packets_received_expected < 2 ^ 64)
    (h : (sessions_info_loop self GetRtpSessionsInfo.zero arr).2.packets_received_expected_interval_accumulative = 0) :
    (sessions_info_loop self GetRtpSessionsInfo.zero arr).1 = self := by
  induction arr with
  | nil => rfl
  | cons a l ih =>
    by_cases ha : a.ssrc ≠ self.ssrc
    · simp only [sessions_info_loop, ha, ne_eq, not_false_eq_true, if_true] at h ⊢
      exact ih h
    · simp only [sessions_info_loop, ha, if_false, sessions_info_match, GetRtpSessionsInfo.zero,
        Nat.zero_add] at h ⊢
      have h1 : wrap64 (sub64 (wrap64 ((a.stats.packets_received.getD 0) +
          ofInt64 (a.stats.packets_lost.getD 0))) self.last_packets_received_expected) =
          sub64 (wrap64 ((a.stats.packets_received.getD 0) +
          ofInt64 (a.stats.packets_lost.getD 0))) self.last_packets_received_expected :=
        Nat.mod_eq_of_lt (sub64_lt _ _)
      rw [h1] at h
      have h2 : wrap64 ((a.stats.packets_received.getD 0) +
          ofInt64 (a.stats.packets_lost.getD 0)) = self.last_packets_received_expected :=
        sub64_eq_zero (Nat.mod_lt _ (by norm_num)) hlast h
      rw [h2]

/-- The sessions produced by the aggregation keep their session and SSRC. -/
theorem remote_sessions_foreach_ids (sources : Nat → Option (List RTPSource))
    (sessions : List KmsRlRemoteSession) (data : GetRtpSessionsInfo) :
    (remote_sessions_foreach sources sessions data).1.map (fun r => (r.rtpsess, r.ssrc)) =
      sessions.map (fun r => (r.rtpsess, r.ssrc)) := by
  induction sessions generalizing data with
  | nil => rfl
  | cons s l ih =>
    have hs : ∀ arr d, ((sessions_info_loop s d arr).1.rtpsess, (sessions_info_loop s d arr).1.ssrc) =
        (s.rtpsess, s.ssrc) := by
      intro arr d
      induction arr with
      | nil => rfl
      | cons a l2 ih2 =>
        by_cases ha : a.ssrc ≠ s.ssrc
        · simp only [sessions_info_loop, ha, ne_eq, not_false_eq_true, if_true]
          exact ih2
        · simp [sessions_info_loop, ha, sessions_info_match]
    simp only [remote_sessions_foreach, List.map_cons, ih]
    congr 1
    unfold kms_rl_remote_session_get_sessions_info
    cases sources s.rtpsess with
    | none => rfl
    | some arr => exact hs arr data

/-- Replacing the tracked sources by themselves changes nothing. -/
theorem with_remote_sessions_self (self : KmsRembLocal) :
    { self with remote_sessions := self.remote_sessions } = self := rfl

/-- When no tracked source matches, sampling fails and changes nothing. -/
theorem recv_info_no_match (self : KmsRembLocal) (env : TickEnv) (h : NoSourceMatches self env) :
    kms_remb_local_get_video_recv_info self env = (self, none) := by
  unfold kms_remb_local_get_video_recv_info
  split_ifs with h1
  · rfl
  · rw [remote_sessions_foreach_skip env.arr self.remote_sessions _
      (fun rlrs hr arr harr rtpsource hm => h rlrs hr rtpsource (by rw [harr]; exact hm))]
    simp [GetRtpSessionsInfo.zero]

/-- When the accumulated expected-packet interval is zero, sampling fails and
changes at most the tracked sources. -/
theorem recv_info_zero_interval (self : KmsRembLocal) (env : TickEnv)
    (h : (sample self env).packets_received_expected_interval_accumulative = 0) :
    ∃ sessions,
      kms_remb_local_get_video_recv_info self env =
        ({ self with remote_sessions := sessions }, none) ∧
      sessions.map (fun r => (r.rtpsess, r.ssrc)) =
        self.remote_sessions.map (fun r => (r.rtpsess, r.ssrc)) ∧
      (self.remote_sessions.length ≤ 1 →
        (∀ rlrs ∈ self.remote_sessions, rlrs.last_packets_received_expected < 2 ^ 64) →
        sessions = self.remote_sessions) := by
  unfold sample at h
  unfold kms_remb_local_get_video_recv_info
  by_cases h1 : self.base.rtpsess = none
  · exact ⟨self.remote_sessions, by simp [h1], rfl, fun _ _ => rfl⟩
  · refine ⟨(remote_sessions_foreach env.arr self.remote_sessions GetRtpSessionsInfo.zero).1,
      ?_, remote_sessions_foreach_ids _ _ _, ?_⟩
    · simp only [h1, if_false, h, if_true]
      split_ifs <;> rfl
    · intro hlen hwf
      match hs : self.remote_sessions with
      | [] => rfl
      | [s] =>
        rw [hs] at h hwf
        have hlast := hwf s (List.mem_singleton_self s)
        simp only [remote_sessions_foreach] at h ⊢
        unfold kms_rl_remote_session_get_sessions_info at h ⊢
        cases hsrc : env.arr s.rtpsess with
        | none => rfl
        | some arr =>
          rw [hsrc] at h
          simp only at h ⊢
          rw [sessions_info_loop_zero_interval s arr hlast h]
      | _ :: _ :: _ => rw [hs] at hlen; simp at hlen

/-- C7 (amended): a tick skipped because the previous send is less than
`REMB_MAX_INTERVAL` old, or aborted because no tracked source matched, leaves
the whole estimator (stats table included) unchanged, returns FALSE and
leaves no packet.  A tick aborted because the accumulated expected-packet
interval is zero returns FALSE, leaves no packet and changes no field other
than the previous-expected counters of the tracked sources; these are
unchanged too when at most one source is tracked. -/
theorem sending_rtcp_no_data (REMB_MAX_INTERVAL : Nat) (self : KmsRembLocal) (env : TickEnv) :
    (self.last_sent_time ≠ 0 ∧
        sub64 env.time_send self.last_sent_time < wrap64 (REMB_MAX_INTERVAL * GST_MSECOND) →
      kms_remb_local_on_sending_rtcp REMB_MAX_INTERVAL self env =
        some { self := self, ret := false, remb_packet := none }) ∧
    (NoSourceMatches self env →
      kms_remb_local_on_sending_rtcp REMB_MAX_INTERVAL self env =
        some { self := self, ret := false, remb_packet := none }) ∧
    ((sample self env).packets_received_expected_interval_accumulative = 0 →
      ∃ sessions,
        kms_remb_local_on_sending_rtcp REMB_MAX_INTERVAL self env =
          some { self := { self with remote_sessions := sessions }, ret := false,
                 remb_packet := none } ∧
        sessions.map (fun r => (r.rtpsess, r.ssrc)) =
          self.remote_sessions.map (fun r => (r.rtpsess, r.ssrc)) ∧
        (self.remote_sessions.length ≤ 1 →
          (∀ rlrs ∈ self.remote_sessions, rlrs.last_packets_received_expected < 2 ^ 64) →
          sessions = self.remote_sessions)) := by
  refine ⟨?_, ?_, ?_⟩
  · intro h
    unfold kms_remb_local_on_sending_rtcp
    simp only [h, ne_eq, not_false_eq_true, and_self, if_true]
  · intro h
    unfold kms_remb_local_on_sending_rtcp kms_remb_local_update
    rw [recv_info_no_match self env h]
    simp only
    split_ifs <;> rfl
  · intro h
    obtain ⟨sessions, h1, h2, h3⟩ := recv_info_zero_interval self env h
    by_cases hskip : (self.last_sent_time ≠ 0 ∧
        sub64 env.time_send self.last_sent_time < wrap64 (REMB_MAX_INTERVAL * GST_MSECOND)) ∨
        env.can_map = false ∨ env.can_add_packet = false
    · refine ⟨self.remote_sessions, ?_, rfl, fun _ _ => rfl⟩
      unfold kms_remb_local_on_sending_rtcp
      rcases hskip with hs | hs | hs
      · simp only [hs, ne_eq, not_false_eq_true, and_self, if_true]
      · simp only [hs, if_true]
        split_ifs <;> rfl
      · simp only [hs, if_true]
        split_ifs <;> rfl
    · refine ⟨sessions, ?_, h2, h3⟩
      simp only [not_or] at hskip
      unfold kms_remb_local_on_sending_rtcp kms_remb_local_update
      rw [h1]
      simp only [hskip.1, hskip.2.1, hskip.2.2, if_false]
      simp

/-- C7, as stated, fails: with two tracked sources whose expected-packet
intervals cancel (from 10 to 15 and from 10 to 5 packets) both sources match,
the accumulated interval is zero and the tick is aborted, yet the
previous-expected counters of both sources have changed. -/
theorem sending_rtcp_zero_interval_changes_counters :
    (sample estimatorTwoProbed (envTwo 2000000000 15 5)).count = 2 ∧
    (sample estimatorTwoProbed (envTwo 2000000000 15 5)).packets_received_expected_interval_accumulative = 0 ∧
    estimatorTwoProbed.remote_sessions.map (fun r => r.last_packets_received_expected) = [10, 10] ∧
    (kms_remb_local_on_sending_rtcp 200 estimatorTwoProbed (envTwo 2000000000 15 5)).map
      (fun r => (r.ret, r.self.remote_sessions.map (fun s => s.last_packets_received_expected))) =
        some (false, [15, 5]) ∧
    (kms_remb_local_on_sending_rtcp 200 estimatorTwoProbed (envTwo 2000000000 15 5)).map
      (fun r => r.self) ≠ some estimatorTwoProbed := by
  decide

/-- A tick that samples the same counters again is aborted and changes
nothing. -/
theorem sending_rtcp_no_data_witness :
    ∃ sessions,
      kms_remb_local_on_sending_rtcp 200 estimatorProbed envFirst =
        some { self := { estimatorProbed with remote_sessions := sessions }, ret := false,
               remb_packet := none } ∧
      sessions.map (fun r => (r.rtpsess, r.ssrc)) =
        estimatorProbed.remote_sessions.map (fun r => (r.rtpsess, r.ssrc)) ∧
      (estimatorProbed.remote_sessions.length ≤ 1 →
        (∀ rlrs ∈ estimatorProbed.remote_sessions,
          rlrs.last_packets_received_expected < 2 ^ 64) →
        sessions = estimatorProbed.remote_sessions) :=
  (sending_rtcp_no_data 200 estimatorProbed envFirst).2.2 (by decide)

/-! ## Local estimator: measured bitrate -/

/-- C10, as stated, fails: one second after the previous sample, with an octet
counter one below the previous one, the octet delta is `2 ^ 64 - 1` and the
measured bitrate is `2 ^ 64 - 1`, not the quotient `d * 8 * 10 ^ 9 / e`. -/
theorem measured_bitrate_saturates :
    estimatorProbed.last_time ≠ 0 ∧
    sub64 envOctetsBack.time_sample estimatorProbed.last_time = 1000000000 ∧
    sub64 (sample estimatorProbed envOctetsBack).octets_received
      estimatorProbed.last_octets_received = 2 ^ 64 - 1 ∧
    (kms_remb_local_get_video_recv_info estimatorProbed envOctetsBack).2.map
      (fun info => info.bitrate) = some (2 ^ 64 - 1) ∧
    (2 ^ 64 - 1) * 8 * 10 ^ 9 / 1000000000 ≠ 2 ^ 64 - 1 := by
  decide

/-- C10 (amended): whenever a source matched and the expected-packet interval
is not zero, the sampling succeeds; on a tick after the first sampled one
(`last_time != 0`) with elapsed nanoseconds `e > 0` and octet delta `d` the
measured bitrate is `d * 8 * 10 ^ 9 / e` (truncated) when that quotient is
below `2 ^ 64` and `2 ^ 64 - 1` otherwise; on the first sampled tick it is the
reported bitrate sum.  An octet delta of 125000 over `10 ^ 9` ns gives
1000000. -/
theorem measured_bitrate (self : KmsRembLocal) (env : TickEnv)
    (hsess : self.base.rtpsess ≠ none) (hcount : (sample self env).count ≠ 0)
    (hint : (sample self env).packets_received_expected_interval_accumulative ≠ 0) :
    ∃ s1 info, kms_remb_local_get_video_recv_info self env = (s1, some info) ∧
      (self.last_time ≠ 0 → 0 < sub64 env.time_sample self.last_time →
        (sub64 (sample self env).octets_received self.last_octets_received * 8 * 10 ^ 9 /
            sub64 env.time_sample self.last_time < 2 ^ 64 →
          info.bitrate =
            sub64 (sample self env).octets_received self.last_octets_received * 8 * 10 ^ 9 /
              sub64 env.time_sample self.last_time) ∧
        (2 ^ 64 ≤ sub64 (sample self env).octets_received self.last_octets_received * 8 * 10 ^ 9 /
            sub64 env.time_sample self.last_time →
          info.bitrate = 2 ^ 64 - 1)) ∧
      (self.last_time = 0 → info.bitrate = (sample self env).bitrate) ∧
      gst_util_uint64_scale 125000 (8 * GST_SECOND) 1000000000 = 1000000 := by
  unfold sample at hcount hint ⊢
  unfold kms_remb_local_get_video_recv_info
  simp only [hsess, if_false, hcount, hint]
  refine ⟨_, _, rfl, ?_, ?_, by decide⟩
  · intro hlt he
    have he0 : sub64 env.time_sample self.last_time ≠ 0 := by omega
    have hmul : ∀ d : Nat, d * (8 * GST_SECOND) = d * 8 * 10 ^ 9 := by
      intro d
      simp only [GST_SECOND]
      ring
    simp only [hlt, ne_eq, not_false_eq_true, if_true, gst_util_uint64_scale, he0, if_false, hmul]
    constructor
    · intro h
      rw [if_pos h]
    · intro h
      rw [if_neg (by omega)]
  · intro h0
    simp [h0]

/-- The measured bitrate of a second sample, one second after the first, with
125000 more octets: 1000000 bps. -/
theorem measured_bitrate_witness :
    (kms_remb_local_get_video_recv_info estimatorProbed envMegabit).2.map
      (fun info => info.bitrate) = some 1000000 ∧
    ∃ s1 info, kms_remb_local_get_video_recv_info estimatorProbed envMegabit = (s1, some info) ∧
      (estimatorProbed.last_time ≠ 0 →
        0 < sub64 envMegabit.time_sample estimatorProbed.last_time →
        (sub64 (sample estimatorProbed envMegabit).octets_received
              estimatorProbed.last_octets_received * 8 * 10 ^ 9 /
            sub64 envMegabit.time_sample estimatorProbed.last_time < 2 ^ 64 →
          info.bitrate =
            sub64 (sample estimatorProbed envMegabit).octets_received
                estimatorProbed.last_octets_received * 8 * 10 ^ 9 /
              sub64 envMegabit.time_sample estimatorProbed.last_time) ∧
        (2 ^ 64 ≤ sub64 (sample estimatorProbed envMegabit).octets_received
              estimatorProbed.last_octets_received * 8 * 10 ^ 9 /
            sub64 envMegabit.time_sample estimatorProbed.last_time →
          info.bitrate = 2 ^ 64 - 1)) ∧
      (estimatorProbed.last_time = 0 →
        info.bitrate = (sample estimatorProbed envMegabit).bitrate) ∧
      gst_util_uint64_scale 125000 (8 * GST_SECOND) 1000000000 = 1000000 :=
  ⟨by decide, measured_bitrate estimatorProbed envMegabit (by decide) (by decide) (by decide)⟩

/-! ## Local estimator: update frame -/

/-- Sampling changes only the tracked sources and the last-sample fields. -/
theorem recv_info_frame (self : KmsRembLocal) (env : TickEnv) :
    ∃ sessions t o p,
      (kms_remb_local_get_video_recv_info self env).1 =
        { self with remote_sessions := sessions, last_time := t, last_octets_received := o,
                    last_packets_received := p } := by
  unfold kms_remb_local_get_video_recv_info
  simp only
  split_ifs <;> exact ⟨_, _, _, _, rfl⟩

/-- The growth branch changes the estimate only and never lowers it. -/
theorem update_growth_spec (self s : KmsRembLocal) (h : update_growth self = some s) :
    ∃ remb, s = { self with remb := remb } ∧ self.remb ≤ remb := by
  unfold update_growth at h
  split at h
  · simp at h
  · simp only [Option.some.injEq] at h
    exact ⟨_, h.symm, le_max_left _ _⟩

/-- The loss branch changes the estimate, the threshold, the lineal factor and
the three records only. -/
theorem update_losses_frame (self s : KmsRembLocal) (h : update_losses self = some s) :
    ∃ remb threshold lineal_factor record max_br avg_br,
      s = { self with remb := remb, threshold := threshold, lineal_factor := lineal_factor,
                      fraction_lost_record := record, max_br := max_br, avg_br := avg_br } := by
  unfold update_losses at h
  simp only at h
  split at h
  · simp at h
  · split at h
    · simp at h
    · split_ifs at h
      · simp only [Option.some.injEq] at h
        exact ⟨_, _, _, _, _, _, h.symm⟩
      · split at h
        · simp at h
        · simp only [Option.some.injEq] at h
          exact ⟨_, _, _, _, _, _, h.symm⟩

/-- After the cap the estimate is within `max_bw * 1000` when a cap is set. -/
theorem update_max_bw_le (self : KmsRembLocal) (h : (update_max_bw self).max_bw > 0) :
    (update_max_bw self).remb ≤ wrap32 ((update_max_bw self).max_bw * 1000) := by
  unfold update_max_bw at h ⊢
  split_ifs at h ⊢ with h1
  · exact min_le_right _ _
  · exact absurd h h1

/-- The cap changes the estimate only. -/
theorem update_max_bw_frame (self : KmsRembLocal) :
    update_max_bw self = { self with remb := (update_max_bw self).remb } := by
  unfold update_max_bw
  split_ifs <;> rfl

/-- One estimation step changes the estimate, the threshold, the lineal factor
and the three records only. -/
theorem update_estimate_frame (self s : KmsRembLocal) (info : RecvInfo)
    (h : update_estimate self info = some s) :
    ∃ remb threshold lineal_factor record max_br avg_br,
      s = { self with remb := remb, threshold := threshold, lineal_factor := lineal_factor,
                      fraction_lost_record := record, max_br := max_br, avg_br := avg_br } := by
  unfold update_estimate at h
  split at h
  · simp at h
  · simp only at h
    split at h
    · simp at h
    · rename_i s1 h2
      simp only [Option.some.injEq] at h
      rw [update_max_bw_frame] at h
      split_ifs at h2
      · obtain ⟨remb, h4, -⟩ := update_growth_spec _ _ h2
        subst h4
        exact ⟨_, _, _, _, _, _, h.symm⟩
      · obtain ⟨remb, threshold, lf, rec2, mb, ab, h4⟩ := update_losses_frame _ _ h2
        subst h4
        exact ⟨_, _, _, _, _, _, h.symm⟩

/-- The shape of a successful update: sampling succeeds, the estimator is
probed with a nonzero bitrate if it was not, and the estimation step is
applied. -/
theorem local_update_true (self s : KmsRembLocal) (env : TickEnv)
    (h : kms_remb_local_update self env = some (s, true)) :
    ∃ s1 info, kms_remb_local_get_video_recv_info self env = (s1, some info) ∧
      ¬ (s1.probed = false ∧ info.bitrate = 0) ∧
      update_estimate (probe s1 info.bitrate) info = some s := by
  unfold kms_remb_local_update at h
  split at h
  · simp at h
  · rename_i s1 info heq
    refine ⟨s1, info, heq, ?_⟩
    split_ifs at h with h1
    · simp at h
    · refine ⟨h1, ?_⟩
      split at h
      · simp at h
      · rename_i s2 h2
        simp only [Option.some.injEq, Prod.mk.injEq, and_true] at h
        rw [← h]
        exact h2

/-- After a successful update the estimate is within `max_bw * 1000` when a cap
is set. -/
theorem local_update_capped (self s : KmsRembLocal) (env : TickEnv)
    (h : kms_remb_local_update self env = some (s, true)) (hmax : s.max_bw > 0) :
    s.remb ≤ wrap32 (s.max_bw * 1000) := by
  obtain ⟨s1, info, -, -, h3⟩ := local_update_true self s env h
  unfold update_estimate at h3
  split at h3
  · simp at h3
  · simp only at h3
    split at h3
    · simp at h3
    · simp only [Option.some.injEq] at h3
      subst h3
      exact update_max_bw_le _ hmax

/-- An update leaves the bounds, the manager, the stats table, the send
records and the parameters as they are. -/
theorem local_update_config (self s : KmsRembLocal) (env : TickEnv) (b : Bool)
    (h : kms_remb_local_update self env = some (s, b)) :
    s.min_bw = self.min_bw ∧ s.max_bw = self.max_bw ∧ s.event_manager = self.event_manager ∧
    s.base = self.base ∧ s.remb_sent = self.remb_sent ∧ s.last_sent_time = self.last_sent_time ∧
    s.packets_recv_interval_top = self.packets_recv_interval_top ∧
    s.decrement_factor = self.decrement_factor ∧ s.up_losses = self.up_losses := by
  obtain ⟨sessions, t, o, p, hf⟩ := recv_info_frame self env
  unfold kms_remb_local_update at h
  split at h
  · rename_i s1 heq
    rw [heq] at hf
    simp only at hf
    simp only [Option.some.injEq, Prod.mk.injEq] at h
    rw [← h.1, hf]
    simp
  · rename_i s1 info heq
    rw [heq] at hf
    simp only at hf
    split_ifs at h
    · simp only [Option.some.injEq, Prod.mk.injEq] at h
      rw [← h.1, hf]
      simp
    · split at h
      · simp at h
      · rename_i s2 h2
        simp only [Option.some.injEq, Prod.mk.injEq] at h
        obtain ⟨remb, threshold, lf, rec2, mb, ab, h4⟩ := update_estimate_frame _ _ _ h2
        rw [← h.1, h4, hf]
        unfold probe
        split_ifs <;> simp

/-! ## Local estimator: the value sent -/

/-- The packet of a tick carries `new_bitrate` of the updated estimator, whose
estimate, bounds and manager the handler does not touch after the update. -/
theorem sending_rtcp_packet (REMB_MAX_INTERVAL : Nat) (self : KmsRembLocal) (env : TickEnv)
    (r : SendingRtcp) (pkt : KmsRTCPPSFBAFBREMBPacket)
    (h : kms_remb_local_on_sending_rtcp REMB_MAX_INTERVAL self env = some r)
    (hp : r.remb_packet = some pkt) :
    ∃ s, kms_remb_local_update self env = some (s, true) ∧ pkt.bitrate = new_bitrate s env ∧
      r.self.remb = s.remb ∧ r.self.min_bw = s.min_bw ∧ r.self.max_bw = s.max_bw ∧
      r.self.event_manager = s.event_manager := by
  unfold kms_remb_local_on_sending_rtcp at h
  simp only at h
  split_ifs at h
  · simp only [Option.some.injEq] at h
    subst h
    simp at hp
  · simp only [Option.some.injEq] at h
    subst h
    simp at hp
  · simp only [Option.some.injEq] at h
    subst h
    simp at hp
  · split at h
    · simp at h
    · simp only [Option.some.injEq] at h
      subst h
      simp at hp
    · rename_i s hs
      refine ⟨s, hs, ?_⟩
      simp only [Option.some.injEq] at h
      subst h
      unfold sending_rtcp_emit at hp ⊢
      simp only at hp ⊢
      split_ifs at hp
      simp only [Option.some.injEq] at hp
      subst hp
      simp

/-- C4, as stated, fails: on an estimator created with `min_bw = 500` and
`max_bw = 100` the first tick caps the estimate at 100000 and sends 500000,
while the value described (max bound applied after the min bound) is 100000
whatever the estimate. -/
theorem sending_rtcp_min_bound_wins :
    (kms_remb_local_on_sending_rtcp 200 estimatorMinAboveMax envFirst).map
      (fun r => (r.self.remb, r.remb_packet)) = some (100000, some ⟨500000, [1111]⟩) ∧
    manager_limit estimatorMinAboveMax envFirst = none ∧
    ∀ remb, sent_value_spec remb none estimatorMinAboveMax.min_bw estimatorMinAboveMax.max_bw =
      100000 := by
  refine ⟨by decide, by decide, ?_⟩
  intro remb
  have h1 : estimatorMinAboveMax.min_bw = 500 := by decide
  have h2 : estimatorMinAboveMax.max_bw = 100 := by decide
  simp only [sent_value_spec, h1, h2, REMB_MIN, gt_iff_lt, Nat.ofNat_pos, if_true]
  omega

/-- C4 (amended): for every tick that produces a packet, the estimate left by
the update is already within `max_bw * 1000` when a max bound is configured,
and the packet bitrate is obtained from it by clamping it down to the manager
limit when one is present and positive, then raising it to `min_bw * 1000`
(modulo `2 ^ 32`) when a min bound is configured, then raising it to
`REMB_MIN`; it is never below 30000, and it is the value of the specification
when the products fit in 32 bits and either no max bound is set or
`min_bw ≤ max_bw`. -/
theorem sending_rtcp_bitrate (REMB_MAX_INTERVAL : Nat) (self : KmsRembLocal) (env : TickEnv)
    (r : SendingRtcp) (pkt : KmsRTCPPSFBAFBREMBPacket)
    (h : kms_remb_local_on_sending_rtcp REMB_MAX_INTERVAL self env = some r)
    (hp : r.remb_packet = some pkt) :
    (r.self.max_bw > 0 → r.self.remb ≤ wrap32 (r.self.max_bw * 1000)) ∧
    pkt.bitrate =
      max (max
        (match manager_limit r.self env with
          | some remb_local_max =>
            if remb_local_max > 0 then min r.self.remb remb_local_max else r.self.remb
          | none => r.self.remb)
        (if r.self.min_bw > 0 then wrap32 (r.self.min_bw * 1000) else 0)) REMB_MIN ∧
    30000 ≤ pkt.bitrate ∧
    r.self.min_bw = self.min_bw ∧ r.self.max_bw = self.max_bw ∧
    (r.self.max_bw = 0 ∨ r.self.min_bw ≤ r.self.max_bw →
      r.self.min_bw * 1000 < 2 ^ 32 → r.self.max_bw * 1000 < 2 ^ 32 →
      pkt.bitrate =
        sent_value_spec r.self.remb (manager_limit r.self env) r.self.min_bw r.self.max_bw) := by
  obtain ⟨s, hs, hb, h1, h2, h3, h4⟩ := sending_rtcp_packet REMB_MAX_INTERVAL self env r pkt h hp
  have hcap : r.self.max_bw > 0 → r.self.remb ≤ wrap32 (r.self.max_bw * 1000) := by
    intro hm
    rw [h1, h3]
    exact local_update_capped self s env hs (by rw [← h3]; exact hm)
  have hcfg := local_update_config self s env true hs
  have hval : pkt.bitrate =
      max (max
        (match manager_limit r.self env with
          | some remb_local_max =>
            if remb_local_max > 0 then min r.self.remb remb_local_max else r.self.remb
          | none => r.self.remb)
        (if r.self.min_bw > 0 then wrap32 (r.self.min_bw * 1000) else 0)) REMB_MIN := by
    rw [hb]
    unfold new_bitrate manager_limit
    rw [h1, h2, h4]
    cases s.event_manager <;> simp only [Bool.false_eq_true, if_false, if_true] <;>
      split_ifs <;> simp
  refine ⟨hcap, hval, ?_, ?_, ?_, ?_⟩
  · rw [hval]
    exact le_max_right _ _
  · rw [h2, hcfg.1]
  · rw [h3, hcfg.2.1]
  · intro hor hmin hmax
    rw [hval]
    unfold sent_value_spec
    rw [show wrap32 (r.self.min_bw * 1000) = r.self.min_bw * 1000 from Nat.mod_eq_of_lt hmin]
    have hcap2 : r.self.max_bw > 0 → r.self.remb ≤ r.self.max_bw * 1000 := by
      intro hm
      have := hcap hm
      rwa [show wrap32 (r.self.max_bw * 1000) = r.self.max_bw * 1000 from
        Nat.mod_eq_of_lt hmax] at this
    have key : ∀ x mn mx : Nat, ∀ m : Option Nat, (mx > 0 → x ≤ mx * 1000) →
        (mx = 0 ∨ mn ≤ mx) →
        max (max (match m with
            | some remb_local_max => if remb_local_max > 0 then min x remb_local_max else x
            | none => x) (if mn > 0 then mn * 1000 else 0)) REMB_MIN =
          sent_value_spec x m mn mx := by
      intro x mn mx m hx hle
      unfold sent_value_spec
      cases m with
      | none =>
        simp only [REMB_MIN]
        split_ifs <;> omega
      | some l =>
        simp only [REMB_MIN]
        split_ifs <;> omega
    exact key _ _ _ _ hcap2 hor

/-- The first tick of the running example sends 104000. -/
theorem sending_rtcp_bitrate_witness :
    ∃ r pkt, kms_remb_local_on_sending_rtcp 200 estimatorFresh envFirst = some r ∧
      r.remb_packet = some pkt ∧ pkt.bitrate = 104000 ∧ 30000 ≤ pkt.bitrate := by
  have hsome : (kms_remb_local_on_sending_rtcp 200 estimatorFresh envFirst).isSome = true := by
    decide
  obtain ⟨r, hr⟩ := Option.isSome_iff_exists.mp hsome
  have h2 : (kms_remb_local_on_sending_rtcp 200 estimatorFresh envFirst).map
      (fun r => r.remb_packet) = some (some ⟨104000, [1111]⟩) := by decide
  rw [hr] at h2
  have hp : r.remb_packet = some ⟨104000, [1111]⟩ := by simpa using h2
  exact ⟨r, ⟨104000, [1111]⟩, hr, hp, rfl,
    (sending_rtcp_bitrate 200 estimatorFresh envFirst r ⟨104000, [1111]⟩ hr hp).2.2.1⟩

/-! ## Local estimator: the configured window -/

/-- The window stored by `kms_remb_local_set_params`: the supplied value when
it is positive, 1 when it is not, the previous window when none is supplied. -/
theorem set_params_window (rl : KmsRembLocal) (params : LocalParams) :
    (kms_remb_local_set_params rl params).packets_recv_interval_top =
      match params.packets_recv_interval_top with
      | some v => if v ≤ 0 then 1 else v
      | none => rl.packets_recv_interval_top := by
  obtain ⟨top, ef, lfm, lfg, df, tf, ul⟩ := params
  unfold kms_remb_local_set_params
  cases top <;> cases ef <;> cases lfm <;> cases lfg <;> cases df <;> cases tf <;> cases ul <;> rfl

/-- After creation and any sequence of `kms_remb_local_set_params` calls the
configured window is at least 1. -/
theorem set_params_window_pos (RTCP_MIN_INTERVAL : Int) (rtpsession min_bw max_bw : Nat)
    (ps : List LocalParams) :
    1 ≤ (ps.foldl kms_remb_local_set_params
      (kms_remb_local_create RTCP_MIN_INTERVAL rtpsession min_bw max_bw)).packets_recv_interval_top := by
  have key : ∀ (ps : List LocalParams) (rl : KmsRembLocal), 1 ≤ rl.packets_recv_interval_top →
      1 ≤ (ps.foldl kms_remb_local_set_params rl).packets_recv_interval_top := by
    intro ps
    induction ps with
    | nil => intro rl h; exact h
    | cons p l ih =>
      intro rl h
      simp only [List.foldl_cons]
      apply ih
      rw [set_params_window]
      cases p.packets_recv_interval_top with
      | none => exact h
      | some v =>
        simp only
        split_ifs <;> omega
  exact key ps _ (by simp [kms_remb_local_create, DEFAULT_REMB_PACKETS_RECV_INTERVAL_TOP])

/-- C8: the window of the created estimator is 100 and any window stored by
`kms_remb_local_set_params` is at least 1, yet on a first sample of `2 ^ 32`
packets the divisor `packets_rcv_interval_top`, the 64-bit maximum of window
and packet count stored in a 32-bit variable, is zero and the update divides
by zero. -/
theorem smoothing_divisor_zero :
    estimatorFresh.packets_recv_interval_top = 100 ∧
    (kms_remb_local_get_video_recv_info estimatorFresh envManyPackets).2.map
      (fun info => info.packets_rcv_interval) = some (2 ^ 32) ∧
    max (ofInt64 estimatorFresh.packets_recv_interval_top) (2 ^ 32) = 2 ^ 32 ∧
    packets_rcv_interval_top estimatorFresh (2 ^ 32) = 0 ∧
    update_fraction_lost_record estimatorFresh 0 (2 ^ 32) = none ∧
    kms_remb_local_update estimatorFresh envManyPackets = none := by
  decide

/-! ## Local estimator: loss-free samples -/

/-- A source without fractional loss adds nothing to the loss accumulator. -/
theorem sessions_info_loop_zero_loss (self : KmsRlRemoteSession) (data : GetRtpSessionsInfo)
    (arr : List RTPSource) (hd : data.fraction_lost_accumulative = 0)
    (h : ∀ rtpsource ∈ arr, rtpsource.stats.sent_rb_fractionlost.getD 0 = 0) :
    (sessions_info_loop self data arr).2.fraction_lost_accumulative = 0 := by
  induction arr with
  | nil => exact hd
  | cons a l ih =>
    by_cases ha : a.ssrc ≠ self.ssrc
    · simp only [sessions_info_loop, ha, ne_eq, not_false_eq_true, if_true]
      exact ih (fun r hr => h r (List.mem_cons_of_mem _ hr))
    · have h0 := h a (List.mem_cons_self _ _)
      simp only [sessions_info_loop, ha, if_false, sessions_info_match, hd, h0, Nat.zero_mul,
        Nat.zero_add]
      rfl

/-- A successful lookup returns an entry of the list. -/
theorem lookup_mem (l : List (Nat × List RTPSource)) (k : Nat) (v : List RTPSource)
    (h : l.lookup k = some v) : (k, v) ∈ l := by
  induction l with
  | nil => simp at h
  | cons a t ih =>
    obtain ⟨k2, v2⟩ := a
    rw [List.lookup_cons] at h
    by_cases hk : k == k2
    · simp only [hk, Option.some.injEq] at h
      have hk2 : k = k2 := by simpa using hk
      subst hk2
      subst h
      exact List.mem_cons_self _ _
    · simp only [hk] at h
      exact List.mem_cons_of_mem _ (ih h)

/-- Loss-free sources leave the loss accumulator of the sample at zero. -/
theorem remote_sessions_foreach_zero_loss (env : TickEnv) (hz : ZeroLoss env)
    (sessions : List KmsRlRemoteSession) (data : GetRtpSessionsInfo)
    (hd : data.fraction_lost_accumulative = 0) :
    (remote_sessions_foreach env.arr sessions data).2.fraction_lost_accumulative = 0 := by
  induction sessions generalizing data with
  | nil => exact hd
  | cons s l ih =>
    simp only [remote_sessions_foreach]
    apply ih
    unfold kms_rl_remote_session_get_sessions_info
    cases hsrc : env.arr s.rtpsess with
    | none => exact hd
    | some arr =>
      exact sessions_info_loop_zero_loss s data arr hd
        (hz (s.rtpsess, arr) (lookup_mem env.sources s.rtpsess arr hsrc))

/-- A loss-free sample has a zero normalized loss. -/
theorem recv_info_zero_loss (self s1 : KmsRembLocal) (env : TickEnv) (info : RecvInfo)
    (hz : ZeroLoss env) (h : kms_remb_local_get_video_recv_info self env = (s1, some info)) :
    info.fraction_lost = 0 := by
  have h0 := remote_sessions_foreach_zero_loss env hz self.remote_sessions
    GetRtpSessionsInfo.zero rfl
  unfold kms_remb_local_get_video_recv_info at h
  simp only at h
  split_ifs at h
  all_goals first
    | (simp only [Prod.mk.injEq, Option.some.injEq] at h
       rw [← h.2]
       simp only [h0, Nat.zero_div]
       rfl)
    | (simp at h)

/-- With a zero record and a zero loss the smoothed record stays zero. -/
theorem update_fraction_lost_record_zero (self : KmsRembLocal) (p record : Nat)
    (h0 : self.fraction_lost_record = 0)
    (h : update_fraction_lost_record self 0 p = some record) : record = 0 := by
  unfold update_fraction_lost_record at h
  simp only [h0, Nat.zero_mul, Nat.zero_add] at h
  split_ifs at h
  simp only [Option.some.injEq] at h
  rw [← h]
  simp [wrap64]

/-- The invariant of loss-free runs: the record is zero and, once probed, the
estimate is within the configured cap. -/
theorem zero_loss_step (s s' : KmsRembLocal) (env : TickEnv) (b : Bool)
    (hrec : s.fraction_lost_record = 0)
    (hcap : s.probed = true → s.max_bw > 0 → s.remb ≤ wrap32 (s.max_bw * 1000))
    (hz : ZeroLoss env) (h : kms_remb_local_update s env = some (s', b)) :
    s'.fraction_lost_record = 0 ∧
    (s'.probed = true → s'.max_bw > 0 → s'.remb ≤ wrap32 (s'.max_bw * 1000)) ∧
    (s.probed = true → s.remb ≤ s'.remb) := by
  obtain ⟨sessions, t, o, p, hf⟩ := recv_info_frame s env
  unfold kms_remb_local_update at h
  split at h
  · rename_i s1 heq
    rw [heq] at hf
    simp only at hf
    simp only [Option.some.injEq, Prod.mk.injEq] at h
    rw [← h.1, hf]
    exact ⟨hrec, hcap, fun _ => le_refl _⟩
  · rename_i s1 info heq
    have hfl := recv_info_zero_loss s s1 env info hz heq
    rw [heq] at hf
    simp only at hf
    split_ifs at h
    · simp only [Option.some.injEq, Prod.mk.injEq] at h
      rw [← h.1, hf]
      exact ⟨hrec, hcap, fun _ => le_refl _⟩
    · split at h
      · simp at h
      · rename_i s2 h2
        simp only [Option.some.injEq, Prod.mk.injEq] at h
        rw [← h.1]
        have hprec : (probe s1 info.bitrate).fraction_lost_record = 0 := by
          rw [hf]
          unfold probe
          split_ifs <;> exact hrec
        unfold update_estimate at h2
        rw [hfl] at h2
        split at h2
        · simp at h2
        · rename_i record hr
          have hr0 := update_fraction_lost_record_zero _ _ _ hprec hr
          subst hr0
          simp only [if_true] at h2
          split at h2
          · simp at h2
          · rename_i s3 h3
            simp only [Option.some.injEq] at h2
            obtain ⟨remb, h4, h5⟩ := update_growth_spec _ _ h3
            simp only at h5
            refine ⟨?_, ?_, ?_⟩
            · rw [← h2, update_max_bw_frame, h4]
            · intro _ hm
              rw [← h2] at hm ⊢
              exact update_max_bw_le s3 hm
            · intro hp
              have hp1 : s1.probed = true := by rw [hf]; exact hp
              have hpr : probe s1 info.bitrate = s1 := by
                unfold probe
                simp [hp1]
              rw [hpr] at h4 h5
              have h6 : s.remb ≤ remb := by
                have : s1.remb = s.remb := by rw [hf]
                rw [← this]
                exact h5
              rw [← h2]
              unfold update_max_bw
              have hmb : s3.max_bw = s.max_bw := by rw [h4, hf]
              have hrm : s3.remb = remb := by rw [h4]
              split_ifs with hm
              · have := hcap hp (by rw [← hmb]; exact hm)
                simp only [hrm, hmb]
                exact le_min h6 this
              · rw [hrm]
                exact h6

/-- The invariant of loss-free runs holds after any number of updates. -/
theorem zero_loss_run (pre : List TickEnv) (s0 s : KmsRembLocal)
    (hrec : s0.fraction_lost_record = 0)
    (hcap : s0.probed = true → s0.max_bw > 0 → s0.remb ≤ wrap32 (s0.max_bw * 1000))
    (hz : ∀ e ∈ pre, ZeroLoss e) (hrun : run_updates s0 pre = some s) :
    s.fraction_lost_record = 0 ∧
    (s.probed = true → s.max_bw > 0 → s.remb ≤ wrap32 (s.max_bw * 1000)) := by
  induction pre generalizing s0 with
  | nil =>
    simp only [run_updates, Option.some.injEq] at hrun
    subst hrun
    exact ⟨hrec, hcap⟩
  | cons e l ih =>
    simp only [run_updates] at hrun
    split at hrun
    · simp at hrun
    · rename_i r hr
      obtain ⟨s1, b⟩ := r
      have hstep := zero_loss_step s0 s1 e b hrec hcap (hz e (List.mem_cons_self _ _)) hr
      exact ih s1 hstep.1 hstep.2.1 (fun e2 he2 => hz e2 (List.mem_cons_of_mem _ he2)) hrun

/-- C2, as stated, fails: the first tick of a created estimator, with a
loss-free sample reporting 100000 bps, succeeds and lowers the estimate from
2000000 to 104000. -/
theorem first_tick_lowers_estimate :
    estimatorFresh.remb = 2000000 ∧ estimatorFresh.probed = false ∧
    (kms_remb_local_get_video_recv_info estimatorFresh envFirst).2 =
      some { bitrate := 100000, fraction_lost := 0, packets_rcv_interval := 10 } ∧
    (kms_remb_local_update estimatorFresh envFirst).map (fun r => (r.2, r.1.remb)) =
      some (true, 104000) := by
  decide

/-- C2 (amended): for every sequence of loss-free samples fed to
`kms_remb_local_update`, starting from an unprobed estimator with a zero loss
record (such as a created one), every successful tick of the estimator once
it is probed leaves the estimate greater than or equal to its value before
that tick; the tick that probes the estimator replaces the initial estimate
by a value derived from the measured bitrate, which may be lower. -/
theorem zero_loss_monotone (s0 : KmsRembLocal) (pre : List TickEnv) (env : TickEnv)
    (s s' : KmsRembLocal)
    (hprobed0 : s0.probed = false) (hrec : s0.fraction_lost_record = 0)
    (hz : ∀ e ∈ pre, ZeroLoss e) (hze : ZeroLoss env)
    (hrun : run_updates s0 pre = some s) (hp : s.probed = true)
    (hup : kms_remb_local_update s env = some (s', true)) :
    s.remb ≤ s'.remb := by
  have hinv := zero_loss_run pre s0 s hrec (fun h => by rw [hprobed0] at h; exact absurd h (by decide))
    hz hrun
  exact (zero_loss_step s s' env true hinv.1 hinv.2 hze hup).2.2 hp

/-- The running example: the second loss-free tick raises the estimate from
104000 to 208000. -/
theorem zero_loss_monotone_witness :
    estimatorProbed.remb = 104000 ∧ estimatorSteady.remb = 208000 ∧
    estimatorProbed.remb ≤ estimatorSteady.remb := by
  refine ⟨by decide, by decide, ?_⟩
  exact zero_loss_monotone estimatorFresh [envFirst] envSteady estimatorProbed estimatorSteady
    (by decide) (by decide)
    (by
      intro e he
      simp only [List.mem_singleton] at he
      subst he
      decide)
    (by decide) (by decide) (by decide) (by decide)

/-! ## Rounding: upper bounds -/

/-- The bit length never overshoots: `2 ^ (length - 1) ≤ n`. -/
theorem pow_bitLenAux_le (fuel n : Nat) (hn : n ≠ 0) : 2 ^ bitLenAux fuel n ≤ 2 * n := by
  induction fuel generalizing n with
  | zero =>
    simp only [bitLenAux, pow_zero]
    omega
  | succ k ih =>
    simp only [bitLenAux, hn, if_false]
    rw [pow_succ]
    by_cases h2 : n / 2 = 0
    · have h0 : bitLenAux k (n / 2) = 0 := by
        rw [h2]
        cases k <;> simp [bitLenAux]
      rw [h0]
      omega
    · have := ih (n / 2) h2
      omega

/-- The bit length is large enough: `n < 2 ^ length` for `n < 2 ^ fuel`. -/
theorem lt_pow_bitLenAux (fuel n : Nat) (hn : n < 2 ^ fuel) : n < 2 ^ bitLenAux fuel n := by
  induction fuel generalizing n with
  | zero =>
    simp only [pow_zero, Nat.lt_one_iff] at hn
    subst hn
    simp [bitLenAux]
  | succ k ih =>
    by_cases h0 : n = 0
    · subst h0
      simp [bitLenAux]
    · simp only [bitLenAux, h0, if_false]
      rw [pow_succ] at hn ⊢
      have := ih (n / 2) (by omega)
      omega

/-- The exponent computed for `a / d` is not above the quotient. -/
theorem fracExp_le (a d : Nat) (ha : 0 < a) (hd : 0 < d) (hd2 : d < 2 ^ 512) :
    (2 : ℚ) ^ fracExp a d ≤ (a : ℚ) / d := by
  have hdq : (0 : ℚ) < d := by exact_mod_cast hd
  have hla : (2 : ℚ) ^ bitLen a ≤ 2 * a := by
    exact_mod_cast pow_bitLenAux_le 512 a (by omega)
  have hld : (d : ℚ) ≤ 2 ^ bitLen d := by
    exact_mod_cast (lt_pow_bitLenAux 512 d hd2).le
  have hlow : (2 : ℚ) ^ ((bitLen a : ℤ) - (bitLen d : ℤ) - 1) ≤ (a : ℚ) / d := by
    clear hd2
    rw [zpow_sub₀ (by norm_num : (2 : ℚ) ≠ 0), zpow_sub₀ (by norm_num : (2 : ℚ) ≠ 0),
      zpow_natCast, zpow_natCast, zpow_one]
    have haq : (0 : ℚ) ≤ a := by positivity
    calc (2 : ℚ) ^ bitLen a / 2 ^ bitLen d / 2 = (2 : ℚ) ^ bitLen a / 2 / 2 ^ bitLen d := by ring
      _ ≤ (a : ℚ) / 2 ^ bitLen d := by
        apply div_le_div_of_nonneg_right _ (by positivity)
        linarith
      _ ≤ (a : ℚ) / d := div_le_div_of_nonneg_left haq hdq hld
  unfold fracExp
  simp only
  by_cases h1 : 0 ≤ (bitLen a : ℤ) - (bitLen d : ℤ)
  · simp only [h1, if_true]
    split_ifs with h2
    · obtain ⟨n, hn⟩ : ∃ n : ℕ, (bitLen a : ℤ) - (bitLen d : ℤ) = (n : ℤ) :=
        ⟨((bitLen a : ℤ) - (bitLen d : ℤ)).toNat, by omega⟩
      rw [hn] at h2 ⊢
      simp only [Int.toNat_ofNat] at h2
      rw [zpow_natCast, le_div_iff₀ hdq]
      have : ((d * 2 ^ n : ℕ) : ℚ) ≤ a := by exact_mod_cast h2
      push_cast at this
      linarith
    · exact hlow
  · simp only [h1, if_false]
    split_ifs with h3
    · obtain ⟨n, hn⟩ : ∃ n : ℕ, (bitLen a : ℤ) - (bitLen d : ℤ) = -(n : ℤ) :=
        ⟨(-((bitLen a : ℤ) - (bitLen d : ℤ))).toNat, by omega⟩
      rw [hn] at h3 ⊢
      simp only [neg_neg, Int.toNat_ofNat] at h3
      rw [zpow_neg, zpow_natCast, le_div_iff₀ hdq]
      have h4 : ((d : ℕ) : ℚ) ≤ ((a * 2 ^ n : ℕ) : ℚ) := by exact_mod_cast h3
      push_cast at h4
      have hp : (0 : ℚ) < 2 ^ n := by positivity
      rw [inv_mul_le_iff₀ hp]
      linarith
    · exact hlow

/-- The rounded quotient, in integers: twice the result times the divisor is
at most twice the dividend plus the divisor. -/
theorem roundQuot_nat (a d : Nat) (q : Int) (hd : 0 < d) :
    (q < 0 → 2 * roundQuot a d q * d ≤ 2 * (a * 2 ^ (-q).toNat) + d) ∧
    (0 ≤ q → 2 * roundQuot a d q * (d * 2 ^ q.toNat) ≤ 2 * a + d * 2 ^ q.toNat) := by
  have key : ∀ num den : Nat, 0 < den →
      2 * (if den < 2 * (num % den) ∨ (2 * (num % den) = den ∧ num / den % 2 = 1)
        then num / den + 1 else num / den) * den ≤ 2 * num + den := by
    intro num den hden
    have h1 := Nat.div_add_mod num den
    generalize num / den = k at h1 ⊢
    generalize num % den = r at h1 ⊢
    subst h1
    split_ifs with h
    · rcases h with h | h
      · ring_nf
        omega
      · ring_nf
        omega
    · ring_nf
      omega
  unfold roundQuot
  simp only
  constructor
  · intro hq
    simp only [hq, if_true]
    exact key _ _ hd
  · intro hq
    have hq2 : ¬ q < 0 := by omega
    simp only [hq2, if_false]
    exact key _ _ (by positivity)

/-- The rounded quotient is at most half a unit above the exact one. -/
theorem roundQuot_le (a d : Nat) (q : Int) (hd : 0 < d) :
    (roundQuot a d q : ℚ) * (2 : ℚ) ^ q ≤ (a : ℚ) / d + (2 : ℚ) ^ q / 2 := by
  have hdq : (0 : ℚ) < d := by exact_mod_cast hd
  have hnat := roundQuot_nat a d q hd
  generalize roundQuot a d q = K at hnat ⊢
  by_cases hq : q < 0
  · obtain ⟨n, hn⟩ : ∃ n : ℕ, q = -(n : ℤ) := ⟨(-q).toNat, by omega⟩
    subst hn
    have h := hnat.1 hq
    simp only [neg_neg, Int.toNat_ofNat] at h
    have hc : ((2 * K * d : ℕ) : ℚ) ≤ ((2 * (a * 2 ^ n) + d : ℕ) : ℚ) := by exact_mod_cast h
    push_cast at hc
    rw [zpow_neg, zpow_natCast]
    have hp : (0 : ℚ) < 2 ^ n := by positivity
    rw [← sub_nonneg]
    have : (a : ℚ) / d + (2 ^ n)⁻¹ / 2 - K * (2 ^ n)⁻¹ =
        (2 * (a * 2 ^ n) + d - 2 * K * d) / (2 * d * 2 ^ n) := by
      field_simp
      ring
    rw [this]
    apply div_nonneg _ (by positivity)
    linarith
  · obtain ⟨n, hn⟩ : ∃ n : ℕ, q = (n : ℤ) := ⟨q.toNat, by omega⟩
    subst hn
    have h := hnat.2 (by omega)
    simp only [Int.toNat_ofNat] at h
    have hc : ((2 * K * (d * 2 ^ n) : ℕ) : ℚ) ≤ ((2 * a + d * 2 ^ n : ℕ) : ℚ) := by
      exact_mod_cast h
    push_cast at hc
    rw [zpow_natCast]
    have hp : (0 : ℚ) < 2 ^ n := by positivity
    rw [← sub_nonneg]
    have : (a : ℚ) / d + 2 ^ n / 2 - K * 2 ^ n =
        (2 * a + d * 2 ^ n - 2 * K * (d * 2 ^ n)) / (2 * d) := by
      field_simp
      ring
    rw [this]
    apply div_nonneg _ (by positivity)
    linarith

/-- The value `roundFrac` returns is at most the exact quotient enlarged by
the relative error `2 ^ (-24)` and the absolute error `2 ^ (-150)`; its
exponent is at least -149 and its sign is the one asked for. -/
theorem roundFrac_le (neg : Bool) (a d : Nat) (f : F32) (h : roundFrac neg a d = some f)
    (hd2 : d < 2 ^ 512) :
    (f.m.natAbs : ℚ) * (2 : ℚ) ^ f.e ≤ (a : ℚ) / d * (1 + 1 / 2 ^ 24) + 1 / 2 ^ 150 ∧
    -149 ≤ f.e ∧ (neg = false → 0 ≤ f.m) := by
  unfold roundFrac at h
  by_cases hd0 : d = 0
  · simp [hd0] at h
  by_cases ha0 : a = 0
  · simp only [hd0, ha0, if_false, if_true, Option.some.injEq] at h
    subst h
    clear hd2
    simp only [Int.natAbs_zero, Nat.cast_zero, zero_mul]
    refine ⟨by positivity, by norm_num, fun _ => le_refl _⟩
  · simp only [hd0, ha0, if_false] at h
    by_cases hov : 104 < max (fracExp a d - 23) (-149) ∨
        (max (fracExp a d - 23) (-149) = 104 ∧ 2 ^ 24 ≤ roundQuot a d (max (fracExp a d - 23) (-149)))
    · rw [if_pos hov] at h
      simp at h
    rw [if_neg hov] at h
    simp only [Option.some.injEq] at h
    have hd : 0 < d := Nat.pos_of_ne_zero hd0
    have ha : 0 < a := Nat.pos_of_ne_zero ha0
    have hdq : (0 : ℚ) < d := by exact_mod_cast hd
    have hq := roundQuot_le a d (max (fracExp a d - 23) (-149)) hd
    have he := fracExp_le a d ha hd hd2
    clear hd2
    have hnat : f.m.natAbs = roundQuot a d (max (fracExp a d - 23) (-149)) := by
      rw [← h]
      cases neg <;> simp
    have hfe : f.e = max (fracExp a d - 23) (-149) := by rw [← h]
    refine ⟨?_, ?_, ?_⟩
    · rw [hnat, hfe]
      refine le_trans hq ?_
      have hhalf : (2 : ℚ) ^ (max (fracExp a d - 23) (-149)) / 2 ≤
          (a : ℚ) / d * (1 / 2 ^ 24) + 1 / 2 ^ 150 := by
        rcases max_cases (fracExp a d - 23) (-149) with ⟨h1, -⟩ | ⟨h1, -⟩
        · rw [h1, zpow_sub₀ (by norm_num : (2 : ℚ) ≠ 0)]
          have h23 : (2 : ℚ) ^ (23 : ℤ) = 2 ^ 23 := by norm_cast
          rw [h23]
          have : (2 : ℚ) ^ fracExp a d / 2 ^ 23 / 2 ≤ (a : ℚ) / d * (1 / 2 ^ 24) := by
            have h2 : (2 : ℚ) ^ fracExp a d / 2 ^ 23 / 2 = (2 : ℚ) ^ fracExp a d * (1 / 2 ^ 24) := by
              ring
            rw [h2]
            exact mul_le_mul_of_nonneg_right he (by positivity)
          linarith [show (0 : ℚ) ≤ 1 / 2 ^ 150 by positivity]
        · rw [h1]
          have h149 : (2 : ℚ) ^ (-149 : ℤ) / 2 = 1 / 2 ^ 150 := by
            rw [zpow_neg]
            norm_num
          rw [h149]
          have : (0 : ℚ) ≤ (a : ℚ) / d * (1 / 2 ^ 24) := by positivity
          linarith
      linarith
    · rw [hfe]
      exact le_max_right _ _
    · intro hn
      rw [← h, hn]
      simp

/-- Rounding a non-negative dyadic number: the result is non-negative and at
most the number enlarged by the two rounding errors. -/
theorem roundDyadic_le (m e : Int) (f : F32) (h : roundDyadic m e = some f) (hm : 0 ≤ m)
    (he : -512 < e) :
    0 ≤ f.m ∧ -149 ≤ f.e ∧
    f.toRat ≤ (m : ℚ) * (2 : ℚ) ^ e * (1 + 1 / 2 ^ 24) + 1 / 2 ^ 150 := by
  have hneg : decide (m < 0) = false := by simp [hm]
  obtain ⟨k, hk⟩ : ∃ k : ℕ, m = (k : ℤ) := ⟨m.toNat, by omega⟩
  subst hk
  unfold roundDyadic at h
  rw [hneg] at h
  simp only [Int.natAbs_ofNat] at h
  have hval : ∀ a j : ℕ, j < 512 → roundFrac false a (2 ^ j) = some f →
      (a : ℚ) / ((2 ^ j : ℕ) : ℚ) = (k : ℚ) * (2 : ℚ) ^ e →
      0 ≤ f.m ∧ -149 ≤ f.e ∧
      f.toRat ≤ (k : ℚ) * (2 : ℚ) ^ e * (1 + 1 / 2 ^ 24) + 1 / 2 ^ 150 := by
    intro a j hj hr hq
    have hlt : 2 ^ j < 2 ^ 512 := by
      gcongr
      norm_num
    obtain ⟨h1, h2, h3⟩ := roundFrac_le false a (2 ^ j) f hr hlt
    have hpos := h3 rfl
    refine ⟨hpos, h2, ?_⟩
    unfold F32.toRat
    have hcast : (f.m.natAbs : ℚ) = (f.m : ℚ) := by
      rw [Nat.cast_natAbs, abs_of_nonneg hpos]
    rw [← hcast, ← hq]
    exact h1
  split_ifs at h with h0
  · obtain ⟨n, hn⟩ : ∃ n : ℕ, e = (n : ℤ) := ⟨e.toNat, by omega⟩
    subst hn
    simp only [Int.toNat_ofNat] at h
    apply hval _ 0 (by norm_num) h
    push_cast
    rw [zpow_natCast]
    simp
  · obtain ⟨n, hn⟩ : ∃ n : ℕ, e = -(n : ℤ) := ⟨(-e).toNat, by omega⟩
    subst hn
    simp only [neg_neg, Int.toNat_ofNat] at h
    have hn512 : n < 512 := by omega
    apply hval _ n hn512 h
    push_cast
    rw [zpow_neg, zpow_natCast]
    rfl

/-- The conversion of a natural number to `gfloat` is non-negative and at
most the number enlarged by the two rounding errors. -/
theorem ofInt_le (n : Nat) :
    0 ≤ (F32.ofInt n).m ∧ -149 ≤ (F32.ofInt n).e ∧
    (F32.ofInt n).toRat ≤ (n : ℚ) * (1 + 1 / 2 ^ 24) + 1 / 2 ^ 150 := by
  unfold F32.ofInt
  cases h : roundDyadic (n : ℤ) 0 with
  | none =>
    simp only [Option.getD_none, F32.toRat, Int.cast_zero, zero_mul]
    refine ⟨le_refl _, by norm_num, by positivity⟩
  | some f =>
    simp only [Option.getD_some]
    have := roundDyadic_le n 0 f h (by positivity) (by norm_num)
    simpa using this

/-- Truncation of a non-negative `gfloat` is non-negative and does not exceed
it. -/
theorem trunc_le (f : F32) (hm : 0 ≤ f.m) : 0 ≤ f.trunc ∧ (f.trunc : ℚ) ≤ f.toRat := by
  obtain ⟨m, e⟩ := f
  simp only at hm
  obtain ⟨k, hk⟩ : ∃ k : ℕ, m = (k : ℤ) := ⟨m.toNat, by omega⟩
  subst hk
  unfold F32.trunc F32.toRat
  simp only [Int.natAbs_ofNat]
  split_ifs with h0
  · obtain ⟨n, hn⟩ : ∃ n : ℕ, e = (n : ℤ) := ⟨e.toNat, by omega⟩
    subst hn
    simp only [Int.toNat_ofNat]
    refine ⟨by positivity, ?_⟩
    push_cast
    rw [zpow_natCast]
  · obtain ⟨n, hn⟩ : ∃ n : ℕ, e = -(n : ℤ) := ⟨(-e).toNat, by omega⟩
    subst hn
    simp only [neg_neg, Int.toNat_ofNat]
    refine ⟨by positivity, ?_⟩
    rw [zpow_neg, zpow_natCast]
    have hdiv : ((k / 2 ^ n : ℕ) : ℚ) ≤ (k : ℚ) / ((2 ^ n : ℕ) : ℚ) := Nat.cast_div_le
    push_cast at hdiv
    rw [Int.cast_natCast, Int.cast_natCast, ← div_eq_mul_inv]
    exact hdiv

/-- One accepted packet on an unprobed relay: the relay stays unprobed exactly
when the bitrate is below the ceiling and not below the held estimate; the
ceiling is kept and the bitrate becomes the held estimate. -/
theorem remote_update_unprobed (rm : KmsRembRemote) (pkt : KmsRTCPPSFBAFBREMBPacket)
    (hs : pkt.ssrcs ≠ []) (hp : rm.probed = false) :
    ((kms_remb_remote_update rm pkt).rm.probed = false ↔
      (rm.remb ≤ pkt.bitrate ∧ pkt.bitrate < rm.remb_on_connect)) ∧
    (kms_remb_remote_update rm pkt).rm.remb = pkt.bitrate ∧
    (kms_remb_remote_update rm pkt).rm.remb_on_connect = rm.remb_on_connect := by
  obtain ⟨bitrate, ssrcs⟩ := pkt
  cases ssrcs with
  | nil => exact absurd rfl hs
  | cons ssrc0 rest =>
    by_cases h : bitrate < rm.remb_on_connect ∧ rm.remb ≤ bitrate
    · simp [kms_remb_remote_update, hp, h]
    · simp only [kms_remb_remote_update, hp, ge_iff_le]
      rw [if_neg h]
      simp only [if_true, Bool.true_eq_false, false_iff, and_self, and_true]
      tauto

/-- One packet on a probed relay: the relay stays probed, and an accepted
packet is forwarded at its raw bitrate. -/
theorem remote_update_probed (rm : KmsRembRemote) (pkt : KmsRTCPPSFBAFBREMBPacket)
    (hp : rm.probed = true) :
    (kms_remb_remote_update rm pkt).rm.probed = true ∧
    (pkt.ssrcs ≠ [] → (kms_remb_remote_update rm pkt).br_send = some pkt.bitrate) := by
  obtain ⟨bitrate, ssrcs⟩ := pkt
  cases ssrcs with
  | nil => exact ⟨hp, fun h => absurd rfl h⟩
  | cons ssrc0 rest => simp [kms_remb_remote_update, hp]

/-- A probed relay stays probed whatever packets follow. -/
theorem run_remote_probed (pkts : List KmsRTCPPSFBAFBREMBPacket) (rm : KmsRembRemote)
    (hp : rm.probed = true) : (run_remote rm pkts).probed = true := by
  induction pkts generalizing rm with
  | nil => exact hp
  | cons pkt rest ih => exact ih _ (remote_update_probed rm pkt hp).1

/-- Running over a concatenation is running over the parts in turn. -/
theorem run_remote_append (pre post : List KmsRTCPPSFBAFBREMBPacket) (rm : KmsRembRemote) :
    run_remote rm (pre ++ post) = run_remote (run_remote rm pre) post := by
  induction pre generalizing rm with
  | nil => rfl
  | cons pkt rest ih => exact ih _

/-- An unprobed relay holding the estimate `rm.remb` is still unprobed after a
sequence of accepted packets exactly when the bitrates, preceded by the held
estimate, never decrease and all stay below the ceiling. -/
theorem run_remote_unprobed (pkts : List KmsRTCPPSFBAFBREMBPacket) (rm : KmsRembRemote)
    (hp : rm.probed = false) (hacc : ∀ pkt ∈ pkts, pkt.ssrcs ≠ []) :
    (run_remote rm pkts).probed = false ↔
      (List.Chain (fun a b => a ≤ b) rm.remb (pkts.map (fun pkt => pkt.bitrate)) ∧
        ∀ b ∈ pkts.map (fun pkt => pkt.bitrate), b < rm.remb_on_connect) := by
  induction pkts generalizing rm with
  | nil => simp [run_remote, hp]
  | cons pkt rest ih =>
    have hs := hacc pkt (List.mem_cons_self _ _)
    have hrest : ∀ q ∈ rest, q.ssrcs ≠ [] := fun q hq => hacc q (List.mem_cons_of_mem _ hq)
    obtain ⟨h1, h2, h3⟩ := remote_update_unprobed rm pkt hs hp
    simp only [run_remote, List.map_cons, List.chain_cons, List.mem_cons, forall_eq_or_imp]
    by_cases hu : (kms_remb_remote_update rm pkt).rm.probed = false
    · rw [ih _ hu hrest, h2, h3]
      have := h1.mp hu
      tauto
    · have hpr : (kms_remb_remote_update rm pkt).rm.probed = true := by
        simpa using hu
      have hrun := run_remote_probed rest _ hpr
      rw [hrun]
      have hn : ¬ (rm.remb ≤ pkt.bitrate ∧ pkt.bitrate < rm.remb_on_connect) :=
        fun h => hu (h1.mpr h)
      simp only [Bool.true_eq_false, false_iff]
      tauto

/-- For a non-decreasing sequence, all elements are below a bound exactly when
the last one is. -/
theorem chain_all_lt_iff (bs : List Nat) (r c : Nat) (hc : List.Chain (fun a b => a ≤ b) r bs) :
    (∀ b ∈ bs, b < c) ↔ ∀ b ∈ bs.getLast?, b < c := by
  induction bs generalizing r with
  | nil => simp
  | cons a t ih =>
    rw [List.chain_cons] at hc
    cases t with
    | nil => simp
    | cons a2 t2 =>
      have hc2 := hc.2
      rw [List.getLast?_cons_cons]
      rw [← ih a hc2]
      rw [List.chain_cons] at hc2
      constructor
      · intro h b hb
        exact h b (List.mem_cons_of_mem _ hb)
      · intro h b hb
        rcases List.mem_cons.mp hb with h1 | h1
        · subst h1
          exact lt_of_le_of_lt hc2.1 (h a2 (List.mem_cons_self _ _))
        · exact h b h1

/-- No event is expected for a packet without a target. -/
theorem forwarded_spec_nil (rm : KmsRembRemote) (v : Nat) : forwarded_spec rm v [] = [] := by
  unfold forwarded_spec
  split_ifs <;> rfl

/-- One packet leaves the pad, the bounds and the ceiling of the relay as they
are. -/
theorem remote_update_frame (rm : KmsRembRemote) (pkt : KmsRTCPPSFBAFBREMBPacket) :
    (kms_remb_remote_update rm pkt).rm.pad_event = rm.pad_event ∧
    (kms_remb_remote_update rm pkt).rm.min_bw = rm.min_bw ∧
    (kms_remb_remote_update rm pkt).rm.max_bw = rm.max_bw ∧
    (kms_remb_remote_update rm pkt).rm.remb_on_connect = rm.remb_on_connect := by
  obtain ⟨bitrate, ssrcs⟩ := pkt
  cases ssrcs with
  | nil => exact ⟨rfl, rfl, rfl, rfl⟩
  | cons ssrc0 rest =>
    rw [remote_update_cons]
    split_ifs <;> exact ⟨rfl, rfl, rfl, rfl⟩

/-- A run of packets leaves the pad, the bounds and the ceiling of the relay as
they are. -/
theorem run_remote_frame (pkts : List KmsRTCPPSFBAFBREMBPacket) (rm : KmsRembRemote) :
    (run_remote rm pkts).pad_event = rm.pad_event ∧
    (run_remote rm pkts).min_bw = rm.min_bw ∧
    (run_remote rm pkts).max_bw = rm.max_bw ∧
    (run_remote rm pkts).remb_on_connect = rm.remb_on_connect := by
  induction pkts generalizing rm with
  | nil => exact ⟨rfl, rfl, rfl, rfl⟩
  | cons pkt rest ih =>
    obtain ⟨h1, h2, h3, h4⟩ := ih (kms_remb_remote_update rm pkt).rm
    obtain ⟨g1, g2, g3, g4⟩ := remote_update_frame rm pkt
    exact ⟨h1.trans g1, h2.trans g2, h3.trans g3, h4.trans g4⟩

/-- The expected events depend on the pad and the bounds of the relay only. -/
theorem forwarded_spec_congr (r rm : KmsRembRemote) (v : Nat) (ssrcs : List Nat)
    (h1 : r.pad_event = rm.pad_event) (h2 : r.min_bw = rm.min_bw) (h3 : r.max_bw = rm.max_bw) :
    forwarded_spec r v ssrcs = forwarded_spec rm v ssrcs := by
  unfold forwarded_spec
  rw [h1, h2, h3]

/-- The events of one packet on a probed relay: the raw bitrate, clamped. -/
theorem remote_update_probed_events (rm : KmsRembRemote) (pkt : KmsRTCPPSFBAFBREMBPacket)
    (hp : rm.probed = true) :
    (kms_remb_remote_update rm pkt).events = forwarded_spec rm pkt.bitrate pkt.ssrcs ∧
    (pkt.ssrcs ≠ [] → (kms_remb_remote_update rm pkt).rm = { rm with remb := pkt.bitrate }) := by
  obtain ⟨bitrate, ssrcs⟩ := pkt
  cases ssrcs with
  | nil => exact ⟨(forwarded_spec_nil rm bitrate).symm, fun h => absurd rfl h⟩
  | cons ssrc0 rest =>
    rw [remote_update_cons, if_neg (by simp [hp])]
    exact ⟨rfl, fun _ => rfl⟩

/-- The events of a run of packets on a probed relay: every packet is
forwarded at its raw bitrate, clamped to the bounds. -/
theorem run_remote_events_probed (post : List KmsRTCPPSFBAFBREMBPacket) (rm : KmsRembRemote)
    (hp : rm.probed = true) :
    run_remote_events rm post =
      post.flatMap (fun pkt => forwarded_spec rm pkt.bitrate pkt.ssrcs) := by
  induction post generalizing rm with
  | nil => rfl
  | cons pkt rest ih =>
    unfold run_remote_events
    rw [List.flatMap_cons, (remote_update_probed_events rm pkt hp).1,
      ih _ (remote_update_probed rm pkt hp).1]
    obtain ⟨g1, g2, g3, -⟩ := remote_update_frame rm pkt
    congr 1
    apply List.flatMap_congr
    intro p _
    exact forwarded_spec_congr _ rm _ _ g1 g2 g3

/-- The events of a run of accepted packets that leaves the relay unprobed:
every packet is forwarded as the ceiling, clamped to the bounds. -/
theorem run_remote_events_unprobed (pkts : List KmsRTCPPSFBAFBREMBPacket) (rm : KmsRembRemote)
    (hp : rm.probed = false) (hacc : ∀ pkt ∈ pkts, pkt.ssrcs ≠ [])
    (hend : (run_remote rm pkts).probed = false) :
    run_remote_events rm pkts =
      pkts.flatMap (fun pkt => forwarded_spec rm rm.remb_on_connect pkt.ssrcs) := by
  induction pkts generalizing rm with
  | nil => rfl
  | cons pkt rest ih =>
    have hs := hacc pkt (List.mem_cons_self _ _)
    have hstep : (kms_remb_remote_update rm pkt).rm.probed = false := by
      by_contra hne
      have ht : (kms_remb_remote_update rm pkt).rm.probed = true := by simpa using hne
      have := run_remote_probed rest _ ht
      unfold run_remote at hend
      rw [this] at hend
      cases hend
    obtain ⟨g1, g2, g3, g4⟩ := remote_update_frame rm pkt
    have hev : (kms_remb_remote_update rm pkt).events =
        forwarded_spec rm rm.remb_on_connect pkt.ssrcs := by
      obtain ⟨bitrate, ssrcs⟩ := pkt
      cases ssrcs with
      | nil => exact absurd rfl hs
      | cons ssrc0 rest2 =>
        rw [remote_update_cons, if_pos hp] at hstep ⊢
        by_cases h : bitrate < rm.remb_on_connect ∧ rm.remb ≤ bitrate
        · rw [if_pos h]
        · rw [if_neg h] at hstep
          cases hstep
    unfold run_remote_events
    unfold run_remote at hend
    rw [List.flatMap_cons, hev, ih _ hstep (fun p hp2 => hacc p (List.mem_cons_of_mem _ hp2)) hend,
      g4]
    congr 1
    apply List.flatMap_congr
    intro p _
    exact forwarded_spec_congr _ rm _ _ g1 g2 g3

/-- Without a max bound the expected event is not below the forwarded value. -/
theorem forwarded_spec_ge (rm : KmsRembRemote) (v : Nat) (ssrcs : List Nat)
    (hmax : rm.max_bw = 0) : ∀ e ∈ forwarded_spec rm v ssrcs, v ≤ e.bitrate := by
  intro e he
  have hb : v ≤ event_bitrate_spec rm.min_bw rm.max_bw v := by
    unfold event_bitrate_spec
    rw [hmax]
    simp only [lt_self_iff_false, if_false]
    split_ifs
    · exact le_max_left _ _
    · exact le_refl _
  unfold forwarded_spec at he
  by_cases hpad : rm.pad_event = false
  · rw [if_pos hpad] at he
    cases he
  · rw [if_neg hpad] at he
    cases ssrcs with
    | nil => cases he
    | cons ssrc0 rest =>
      simp only [List.mem_singleton] at he
      rw [he]
      exact hb

/-- C14: starting from an unprobed relay that holds the estimate 0 (a created
relay, whatever its bootstrap ceiling), after any sequence of accepted control
packets the relay is still unprobed if and only if the bitrates never
decrease and the last one is below the ceiling, and then every packet has
been forwarded as the ceiling; a probed relay stays probed, also over any
further packets, and forwards every accepted packet at its raw bitrate: the
events pushed carry the raw bitrates, clamped to the bounds, and the first
targets; and after every accepted packet the held estimate is the raw bitrate
of the packet and the value forwarded before clamping, which the event pushed
carries after clamping, is not below it.  The pad, the bounds and the ceiling
never change. -/
theorem remote_probing_history (rm0 : KmsRembRemote) (pkts : List KmsRTCPPSFBAFBREMBPacket)
    (hp0 : rm0.probed = false) (hr0 : rm0.remb = 0)
    (hacc : ∀ pkt ∈ pkts, pkt.ssrcs ≠ []) :
    ((run_remote rm0 pkts).probed = false ↔
      (List.Chain' (fun a b => a ≤ b) (pkts.map (fun pkt => pkt.bitrate)) ∧
        ∀ b ∈ (pkts.map (fun pkt => pkt.bitrate)).getLast?, b < rm0.remb_on_connect)) ∧
    (∀ (rm : KmsRembRemote) (pkt : KmsRTCPPSFBAFBREMBPacket), rm.probed = true →
      (kms_remb_remote_update rm pkt).rm.probed = true ∧
      (pkt.ssrcs ≠ [] → (kms_remb_remote_update rm pkt).br_send = some pkt.bitrate) ∧
      (kms_remb_remote_update rm pkt).events = forwarded_spec rm pkt.bitrate pkt.ssrcs ∧
      (pkt.ssrcs ≠ [] → (kms_remb_remote_update rm pkt).rm = { rm with remb := pkt.bitrate })) ∧
    (∀ post : List KmsRTCPPSFBAFBREMBPacket, (run_remote rm0 pkts).probed = true →
      (run_remote rm0 (pkts ++ post)).probed = true ∧
      run_remote_events (run_remote rm0 pkts) post =
        post.flatMap (fun pkt => forwarded_spec rm0 pkt.bitrate pkt.ssrcs)) ∧
    (∀ (rm : KmsRembRemote) (pkt : KmsRTCPPSFBAFBREMBPacket), pkt.ssrcs ≠ [] →
      (kms_remb_remote_update rm pkt).rm.remb = pkt.bitrate ∧
      ∃ v, (kms_remb_remote_update rm pkt).br_send = some v ∧ pkt.bitrate ≤ v ∧
        (kms_remb_remote_update rm pkt).events = forwarded_spec rm v pkt.ssrcs ∧
        (rm.max_bw = 0 → ∀ e ∈ (kms_remb_remote_update rm pkt).events,
          pkt.bitrate ≤ e.bitrate)) ∧
    ((run_remote rm0 pkts).probed = false →
      run_remote_events rm0 pkts =
        pkts.flatMap (fun pkt => forwarded_spec rm0 rm0.remb_on_connect pkt.ssrcs)) ∧
    ((run_remote rm0 pkts).pad_event = rm0.pad_event ∧
      (run_remote rm0 pkts).min_bw = rm0.min_bw ∧
      (run_remote rm0 pkts).max_bw = rm0.max_bw ∧
      (run_remote rm0 pkts).remb_on_connect = rm0.remb_on_connect) := by
  refine ⟨?_, ?_, ?_, ?_, ?_, run_remote_frame pkts rm0⟩
  · rw [run_remote_unprobed pkts rm0 hp0 hacc, hr0]
    have hchain : List.Chain (fun a b => a ≤ b) 0 (pkts.map (fun pkt => pkt.bitrate)) ↔
        List.Chain' (fun a b => a ≤ b) (pkts.map (fun pkt => pkt.bitrate)) := by
      cases pkts.map (fun pkt => pkt.bitrate) with
      | nil => simp
      | cons a t => simp [List.chain_cons, List.Chain']
    constructor
    · intro h
      exact ⟨hchain.mp h.1, (chain_all_lt_iff _ 0 _ h.1).mp h.2⟩
    · intro h
      exact ⟨hchain.mpr h.1, (chain_all_lt_iff _ 0 _ (hchain.mpr h.1)).mpr h.2⟩
  · intro rm pkt h
    exact ⟨(remote_update_probed rm pkt h).1, (remote_update_probed rm pkt h).2,
      (remote_update_probed_events rm pkt h).1, (remote_update_probed_events rm pkt h).2⟩
  · intro post h
    refine ⟨?_, ?_⟩
    · rw [run_remote_append]
      exact run_remote_probed post _ h
    · rw [run_remote_events_probed post _ h]
      obtain ⟨g1, g2, g3, -⟩ := run_remote_frame pkts rm0
      apply List.flatMap_congr
      intro p _
      exact forwarded_spec_congr _ rm0 _ _ g1 g2 g3
  · intro rm pkt hs
    obtain ⟨bitrate, ssrcs⟩ := pkt
    cases ssrcs with
    | nil => exact absurd rfl hs
    | cons ssrc0 rest =>
      rw [remote_update_cons]
      by_cases hpr : rm.probed = false
      · by_cases h : bitrate < rm.remb_on_connect ∧ rm.remb ≤ bitrate
        · rw [if_pos hpr, if_pos h]
          exact ⟨rfl, rm.remb_on_connect, rfl, h.1.le, rfl, fun hmax e he =>
            le_trans h.1.le (forwarded_spec_ge rm rm.remb_on_connect (ssrc0 :: rest) hmax e he)⟩
        · rw [if_pos hpr, if_neg h]
          exact ⟨rfl, bitrate, rfl, le_refl _, rfl, fun hmax e he =>
            forwarded_spec_ge rm bitrate (ssrc0 :: rest) hmax e he⟩
      · rw [if_neg hpr]
        exact ⟨rfl, bitrate, rfl, le_refl _, rfl, fun hmax e he =>
          forwarded_spec_ge rm bitrate (ssrc0 :: rest) hmax e he⟩
  · intro h
    exact run_remote_events_unprobed pkts rm0 hp0 hacc h

/-- The relay of the running example stays unprobed over 100000, 100000,
250000, pushing the ceiling 300000 three times, and is probed once 200000
follows, which it pushes unchanged. -/
theorem remote_probing_history_witness :
    (run_remote relayFresh [⟨100000, [7]⟩, ⟨100000, [7]⟩, ⟨250000, [7]⟩]).probed = false ∧
    (run_remote relayFresh
      [⟨100000, [7]⟩, ⟨100000, [7]⟩, ⟨250000, [7]⟩, ⟨200000, [7]⟩]).probed = true ∧
    run_remote_events relayFresh
      [⟨100000, [7]⟩, ⟨100000, [7]⟩, ⟨250000, [7]⟩, ⟨200000, [7]⟩] =
        [⟨300000, 7⟩, ⟨300000, 7⟩, ⟨300000, 7⟩, ⟨200000, 7⟩] := by
  refine ⟨?_, ?_, by decide⟩
  · exact (remote_probing_history relayFresh [⟨100000, [7]⟩, ⟨100000, [7]⟩, ⟨250000, [7]⟩]
      (by decide) (by decide) (by decide)).1.mpr
      (by simp [List.Chain', relayFresh, kms_remb_remote_create, DEFAULT_REMB_ON_CONNECT])
  · have h := (remote_probing_history relayFresh
      [⟨100000, [7]⟩, ⟨100000, [7]⟩, ⟨250000, [7]⟩, ⟨200000, [7]⟩]
      (by decide) (by decide) (by decide)).1
    have hn : ¬ (List.Chain' (fun a b => a ≤ b)
        ([⟨100000, [7]⟩, ⟨100000, [7]⟩, ⟨250000, [7]⟩, ⟨200000, [7]⟩].map
          (fun pkt : KmsRTCPPSFBAFBREMBPacket => pkt.bitrate)) ∧
        ∀ b ∈ ([⟨100000, [7]⟩, ⟨100000, [7]⟩, ⟨250000, [7]⟩, ⟨200000, [7]⟩].map
          (fun pkt : KmsRTCPPSFBAFBREMBPacket => pkt.bitrate)).getLast?,
          b < relayFresh.remb_on_connect) := by
      simp [List.Chain']
    have hne : (run_remote relayFresh
      [⟨100000, [7]⟩, ⟨100000, [7]⟩, ⟨250000, [7]⟩, ⟨200000, [7]⟩]).probed ≠ false :=
      fun hf => hn (h.mp hf)
    simpa using hne

/-! ## Local estimator: smoothing of the loss record -/

/-- The smoothing does not overflow when the old record and the tick loss are
below `2 ^ 32` and the window is a `gint`. -/
theorem smoothing_no_overflow (r f p : Nat) (w : Int) (hw2 : w < 2 ^ 31) (hp : p < 2 ^ 32)
    (hr : r < 2 ^ 32) (hf : f < 2 ^ 32) :
    r * (max w.toNat p - p) + f * p < 2 ^ 64 := by
  have hW : max w.toNat p < 2 ^ 32 := by
    have : w.toNat < 2 ^ 32 := by omega
    exact max_lt this hp
  have hpW : p ≤ max w.toNat p := le_max_right _ _
  generalize max w.toNat p = W at hW hpW
  have h1 : r * (W - p) ≤ (2 ^ 32 - 1) * (W - p) := Nat.mul_le_mul_right _ (by omega)
  have h2 : f * p ≤ (2 ^ 32 - 1) * p := Nat.mul_le_mul_right _ (by omega)
  have h3 : (2 ^ 32 - 1) * (W - p) + (2 ^ 32 - 1) * p = (2 ^ 32 - 1) * W := by
    rw [← Nat.mul_add, Nat.sub_add_cancel hpW]
  have h4 : (2 ^ 32 - 1) * W ≤ (2 ^ 32 - 1) * (2 ^ 32 - 1) := Nat.mul_le_mul_left _ (by omega)
  norm_num at h1 h2 h3 h4 ⊢
  omega

/-- C13: the code departs from the stated smoothing when a sample counts more
than `2 ^ 32` packets, because `MAX (window, p)` is stored in the `guint`
`packets_rcv_interval_top` (line 296; the truncation that makes the divisor 0
at `p = 2 ^ 32`).  A created estimator (record 0, window 100, trigger 12)
whose first sample has `p = 2 ^ 32 + 1` packets and the tick loss 1 divides by
1 instead of `p`: the record computed is `2 ^ 32 + 1` where the stated value
is 1 (`p ≥ w`), and the estimate is halved, 100000 to 50000, as for severe
losses.  After a first tick that left the record 5, a loss-free tick with
`p = 2 ^ 32 + 1` computes `2 ^ 64 - 5 * 2 ^ 32` where the stated value is 0,
and halves the estimate again. -/
theorem smoothing_window_truncated :
    estimatorFresh.fraction_lost_record = 0 ∧ estimatorFresh.packets_recv_interval_top = 100 ∧
    estimatorFresh.up_losses = 12 ∧
    (kms_remb_local_get_video_recv_info estimatorFresh envDuplicates).2 =
      some { bitrate := 100000, fraction_lost := 1, packets_rcv_interval := 4294967297 } ∧
    packets_rcv_interval_top estimatorFresh 4294967297 = 1 ∧
    update_fraction_lost_record estimatorFresh 1 4294967297 = some 4294967297 ∧
    (0 * (max 100 4294967297 - 4294967297) + 1 * 4294967297) / max 100 4294967297 = 1 ∧
    (kms_remb_local_update estimatorFresh envDuplicates).map
      (fun r => (r.2, r.1.remb, r.1.fraction_lost_record, r.1.max_br, r.1.avg_br)) =
        some (true, 50000, 0, 0, 0) ∧
    (kms_remb_local_get_video_recv_info estimatorFresh envSlightLoss).2 =
      some { bitrate := 100000, fraction_lost := 5, packets_rcv_interval := 1000 } ∧
    estimatorSlightLoss.probed = true ∧ estimatorSlightLoss.remb = 100000 ∧
    estimatorSlightLoss.fraction_lost_record = 5 ∧
    estimatorSlightLoss.packets_recv_interval_top = 100 ∧
    (kms_remb_local_get_video_recv_info estimatorSlightLoss envPacketJump).2 =
      some { bitrate := 200000, fraction_lost := 0, packets_rcv_interval := 4294967297 } ∧
    update_fraction_lost_record estimatorSlightLoss 0 4294967297 = some (2 ^ 64 - 5 * 2 ^ 32) ∧
    (5 * (max 100 4294967297 - 4294967297) + 0 * 4294967297) / max 100 4294967297 = 0 ∧
    (kms_remb_local_update estimatorSlightLoss envPacketJump).map
      (fun r => (r.2, r.1.remb, r.1.fraction_lost_record, r.1.max_br, r.1.avg_br)) =
        some (true, 56250, 0, 0, 0) := by
  decide

/-- Below `2 ^ 32` packets the smoothing is the stated one: for every old
record `r`, tick loss `f`, packet count `p < 2 ^ 32` and window `w` with
`1 ≤ w < 2 ^ 31`, with `W = max w p`, when `r * (W - p) + f * p` is below
`2 ^ 64` the new record is defined and equals that sum divided by `W`
(truncated); it lies between the smaller and the larger of `r` and `f`,
equals `f` whenever `p ≥ w`, and equals `r` whenever `p = 0`. -/
theorem loss_record_smoothing (self : KmsRembLocal) (f p : Nat)
    (hw : 1 ≤ self.packets_recv_interval_top) (hw2 : self.packets_recv_interval_top < 2 ^ 31)
    (hp : p < 2 ^ 32)
    (hov : self.fraction_lost_record * (max self.packets_recv_interval_top.toNat p - p) +
      f * p < 2 ^ 64) :
    update_fraction_lost_record self f p =
      some ((self.fraction_lost_record * (max self.packets_recv_interval_top.toNat p - p) +
        f * p) / max self.packets_recv_interval_top.toNat p) ∧
    (∀ v, update_fraction_lost_record self f p = some v →
      min self.fraction_lost_record f ≤ v ∧ v ≤ max self.fraction_lost_record f) ∧
    (self.packets_recv_interval_top.toNat ≤ p → update_fraction_lost_record self f p = some f) ∧
    (p = 0 → update_fraction_lost_record self f p = some self.fraction_lost_record) := by
  have hwn : ofInt64 self.packets_recv_interval_top = self.packets_recv_interval_top.toNat := by
    unfold ofInt64
    rw [Int.emod_eq_of_lt (by omega) (by omega)]
  have hwpos : 1 ≤ self.packets_recv_interval_top.toNat := by omega
  have hwlt : self.packets_recv_interval_top.toNat < 2 ^ 32 := by omega
  have hW : max self.packets_recv_interval_top.toNat p < 2 ^ 32 := max_lt hwlt hp
  have hWpos : 0 < max self.packets_recv_interval_top.toNat p :=
    lt_of_lt_of_le hwpos (le_max_left _ _)
  have hpW : p ≤ max self.packets_recv_interval_top.toNat p := le_max_right _ _
  have htop : packets_rcv_interval_top self p = max self.packets_recv_interval_top.toNat p := by
    unfold packets_rcv_interval_top wrap32
    rw [hwn]
    exact Nat.mod_eq_of_lt hW
  have hsub : sub64 (max self.packets_recv_interval_top.toNat p) p =
      max self.packets_recv_interval_top.toNat p - p := by
    unfold sub64 wrap64
    rw [Nat.mod_eq_of_lt (show max self.packets_recv_interval_top.toNat p < 2 ^ 64 by omega),
      Nat.mod_eq_of_lt (show p < 2 ^ 64 by omega)]
    have h1 : max self.packets_recv_interval_top.toNat p + 2 ^ 64 - p =
        (max self.packets_recv_interval_top.toNat p - p) + 2 ^ 64 := by omega
    rw [h1, Nat.add_mod_right]
    exact Nat.mod_eq_of_lt (by omega)
  have hval : update_fraction_lost_record self f p =
      some ((self.fraction_lost_record * (max self.packets_recv_interval_top.toNat p - p) +
        f * p) / max self.packets_recv_interval_top.toNat p) := by
    unfold update_fraction_lost_record
    simp only [htop, hsub]
    rw [if_neg (by omega)]
    unfold wrap64
    rw [Nat.mod_eq_of_lt hov]
  have hbound : ∀ r W : Nat, p ≤ W → 0 < W →
      min r f ≤ (r * (W - p) + f * p) / W ∧ (r * (W - p) + f * p) / W ≤ max r f := by
    intro r W hpW hWpos
    have hsplit : (W - p) + p = W := Nat.sub_add_cancel hpW
    constructor
    · rw [Nat.le_div_iff_mul_le hWpos]
      calc min r f * W = min r f * (W - p) + min r f * p := by rw [← Nat.mul_add, hsplit]
        _ ≤ r * (W - p) + f * p :=
          Nat.add_le_add (Nat.mul_le_mul_right _ (min_le_left _ _))
            (Nat.mul_le_mul_right _ (min_le_right _ _))
    · apply Nat.div_le_of_le_mul
      calc r * (W - p) + f * p ≤ max r f * (W - p) + max r f * p :=
          Nat.add_le_add (Nat.mul_le_mul_right _ (le_max_left _ _))
            (Nat.mul_le_mul_right _ (le_max_right _ _))
        _ = W * max r f := by rw [← Nat.mul_add, hsplit, Nat.mul_comm]
  refine ⟨hval, ?_, ?_, ?_⟩
  · intro v hv
    rw [hval] at hv
    cases hv
    exact hbound _ _ hpW hWpos
  · intro hle
    rw [hval, max_eq_right hle, Nat.sub_self, Nat.mul_zero, Nat.zero_add,
      Nat.mul_div_cancel _ (by omega)]
  · intro h0
    subst h0
    rw [hval]
    simp only [Nat.zero_le, max_eq_left, Nat.sub_zero, Nat.mul_zero, Nat.add_zero]
    rw [Nat.mul_div_cancel _ (by omega)]

/-- The running example: the probed estimator (record 0, window 100) at a
tick with the loss 64 over 25 packets moves the record to 16. -/
theorem loss_record_smoothing_witness :
    update_fraction_lost_record estimatorProbed 64 25 = some 16 ∧
    (update_fraction_lost_record estimatorProbed 64 25 =
      some ((estimatorProbed.fraction_lost_record *
        (max estimatorProbed.packets_recv_interval_top.toNat 25 - 25) + 64 * 25) /
        max estimatorProbed.packets_recv_interval_top.toNat 25) ∧
    (∀ v, update_fraction_lost_record estimatorProbed 64 25 = some v →
      min estimatorProbed.fraction_lost_record 64 ≤ v ∧
        v ≤ max estimatorProbed.fraction_lost_record 64) ∧
    (estimatorProbed.packets_recv_interval_top.toNat ≤ 25 →
      update_fraction_lost_record estimatorProbed 64 25 = some 64) ∧
    (25 = 0 → update_fraction_lost_record estimatorProbed 64 25 =
      some estimatorProbed.fraction_lost_record)) :=
  ⟨by decide, loss_record_smoothing estimatorProbed 64 25 (by decide) (by decide) (by decide)
    (by decide)⟩

/-! ## Local estimator: aggregation of the statistics -/

theorem first_match_none (arr : Nat → Option (List RTPSource)) (rlrs : KmsRlRemoteSession)
    (data : GetRtpSessionsInfo) (h : first_match arr rlrs = none) :
    kms_rl_remote_session_get_sessions_info rlrs (arr rlrs.rtpsess) data = (rlrs, data) := by
  unfold first_match at h
  unfold kms_rl_remote_session_get_sessions_info
  cases ha : arr rlrs.rtpsess with
  | none => rfl
  | some sources =>
    rw [ha] at h
    simp only [Option.map_eq_none', List.find?_eq_none] at h
    simp only
    clear ha
    induction sources with
    | nil => rfl
    | cons src rest ih =>
      have h1 := h src (List.mem_cons_self _ _)
      simp only [beq_iff_eq] at h1
      unfold sessions_info_loop
      rw [if_pos h1]
      exact ih (fun x hx => h x (List.mem_cons_of_mem _ hx))

theorem first_match_some (arr : Nat → Option (List RTPSource)) (rlrs : KmsRlRemoteSession)
    (data : GetRtpSessionsInfo) (s : RTPSourceStats) (h : first_match arr rlrs = some s) :
    kms_rl_remote_session_get_sessions_info rlrs (arr rlrs.rtpsess) data =
      sessions_info_match rlrs data s := by
  unfold first_match at h
  unfold kms_rl_remote_session_get_sessions_info
  cases ha : arr rlrs.rtpsess with
  | none => rw [ha] at h; cases h
  | some sources =>
    rw [ha] at h
    simp only
    clear ha
    induction sources with
    | nil => simp at h
    | cons src rest ih =>
      unfold sessions_info_loop
      by_cases h1 : src.ssrc = rlrs.ssrc
      · rw [if_neg (not_not.mpr h1)]
        simp only [List.find?_cons, h1, beq_self_eq_true, Option.map_some', Option.some.injEq] at h
        rw [h]
      · rw [if_pos h1]
        apply ih
        simpa [List.find?_cons, h1] using h

theorem first_match_isSome (arr : Nat → Option (List RTPSource)) (rlrs : KmsRlRemoteSession) :
    (first_match arr rlrs).isSome = ssrc_occurs arr rlrs := by
  unfold first_match ssrc_occurs
  cases arr rlrs.rtpsess with
  | none => rfl
  | some sources =>
    simp only [Option.isSome_map']
    induction sources with
    | nil => rfl
    | cons src rest ih =>
      rw [List.find?_cons, List.any_cons]
      cases h : (src.ssrc == rlrs.ssrc) with
      | true => rfl
      | false => simpa using ih

theorem matched_length (arr : Nat → Option (List RTPSource)) (rs : List KmsRlRemoteSession) :
    (matched arr rs).length = rs.countP (ssrc_occurs arr) := by
  unfold matched
  induction rs with
  | nil => rfl
  | cons r rest ih =>
    have h := first_match_isSome arr r
    cases hf : first_match arr r with
    | none =>
      rw [hf] at h
      simp only [Option.isSome_none] at h
      rw [List.filterMap_cons_none (by rw [hf]; rfl), ih, List.countP_cons_of_neg]
      rw [← h]; simp
    | some s =>
      rw [hf] at h
      simp only [Option.isSome_some] at h
      rw [List.filterMap_cons_some (by rw [hf]; rfl), List.length_cons, ih,
        List.countP_cons_of_pos]
      exact h.symm

theorem sessions_info_match_accumulate (r : KmsRlRemoteSession) (data : GetRtpSessionsInfo)
    (s : RTPSourceStats) :
    sessions_info_match r (accumulate_spec data []) s =
      ({ r with last_packets_received_expected := expected_spec s },
       accumulate_spec
        { count := data.count + 1
          bitrate := data.bitrate + s.bitrate.getD 0
          fraction_lost_accumulative :=
            data.fraction_lost_accumulative +
              s.sent_rb_fractionlost.getD 0 * expected_interval_spec (r, s)
          packets_received_expected_interval_accumulative :=
            data.packets_received_expected_interval_accumulative + expected_interval_spec (r, s)
          octets_received := data.octets_received + s.octets_received.getD 0
          packets_received := data.packets_received + s.packets_received.getD 0 } []) := by
  unfold sessions_info_match accumulate_spec expected_interval_spec expected_spec
  simp only [List.length_nil, List.map_nil, List.sum_nil, Nat.add_zero, wrap32, wrap64,
    Nat.mod_add_mod]
  refine Prod.ext rfl ?_
  simp only [GetRtpSessionsInfo.mk.injEq, true_and, and_true]
  generalize s.sent_rb_fractionlost.getD 0 *
    sub64 ((s.packets_received.getD 0 + ofInt64 (s.packets_lost.getD 0)) % 2 ^ 64)
      r.last_packets_received_expected = x
  omega

theorem remote_sessions_foreach_accumulate (arr : Nat → Option (List RTPSource))
    (rs : List KmsRlRemoteSession) (data : GetRtpSessionsInfo) :
    remote_sessions_foreach arr rs (accumulate_spec data []) =
      (counters_spec arr rs, accumulate_spec data (matched arr rs)) := by
  induction rs generalizing data with
  | nil => rfl
  | cons r rest ih =>
    unfold remote_sessions_foreach
    cases hf : first_match arr r with
    | none =>
      simp only [first_match_none arr r _ hf, ih]
      unfold counters_spec matched
      rw [List.filterMap_cons_none (by rw [hf]; rfl), List.map_cons, hf]
    | some s =>
      simp only [first_match_some arr r _ s hf, sessions_info_match_accumulate, ih]
      unfold counters_spec matched
      rw [List.filterMap_cons_some (by rw [hf]; rfl), List.map_cons, hf]
      refine Prod.ext rfl ?_
      unfold accumulate_spec
      simp only [List.length_cons, List.map_cons, List.sum_cons, GetRtpSessionsInfo.mk.injEq]
      refine ⟨?_, ?_, ?_, ?_, ?_, ?_⟩ <;> congr 1 <;> omega

theorem remote_sessions_foreach_zero (arr : Nat → Option (List RTPSource))
    (rs : List KmsRlRemoteSession) :
    remote_sessions_foreach arr rs GetRtpSessionsInfo.zero =
      (counters_spec arr rs, accumulate_spec GetRtpSessionsInfo.zero (matched arr rs)) :=
  remote_sessions_foreach_accumulate arr rs GetRtpSessionsInfo.zero

theorem remote_sessions_foreach_count (arr : Nat → Option (List RTPSource))
    (rs : List KmsRlRemoteSession) :
    (remote_sessions_foreach arr rs GetRtpSessionsInfo.zero).2.count =
      rs.countP (ssrc_occurs arr) % 2 ^ 32 := by
  rw [remote_sessions_foreach_zero, ← matched_length]
  simp only [accumulate_spec, GetRtpSessionsInfo.zero, Nat.zero_add]

theorem sample_count (self : KmsRembLocal) (env : TickEnv) :
    (sample self env).count = self.remote_sessions.countP (ssrc_occurs env.arr) % 2 ^ 32 := by
  unfold sample
  exact remote_sessions_foreach_count env.arr self.remote_sessions

theorem recv_info_count_zero (self : KmsRembLocal) (env : TickEnv)
    (h : (sample self env).count = 0) : (kms_remb_local_get_video_recv_info self env).2 = none := by
  unfold sample at h
  unfold kms_remb_local_get_video_recv_info
  by_cases hs : self.base.rtpsess = none
  · rw [if_pos hs]
  · rw [if_neg hs]
    simp only [h, if_true]

/-- C11: for every list of tracked records, the aggregation started from the
zero sample gives the sums of the matching records, each taken once, with its
first matching source: the count is the number of records whose SSRC occurs
among the sources their session reports (the counter is a `guint`, so this
is the number modulo `2 ^ 32`, the number itself for every list with fewer
than `2 ^ 32` matching records), bitrate, octets, packets and expected
intervals are summed in 64 bits and the loss-weighted intervals in 32 bits,
and a matching record stores the expected count of its first matching
source.  A non-matching record leaves the sample and the record unchanged, a
matching record contributes through its first matching source only.  With
the records 3333 and 1111 of session 1, which reports 2222 and 1111, the
count is 1 with the statistics of 1111 only. -/
theorem sample_aggregation (arr : Nat → Option (List RTPSource))
    (rs : List KmsRlRemoteSession) :
    remote_sessions_foreach arr rs GetRtpSessionsInfo.zero =
      (counters_spec arr rs, accumulate_spec GetRtpSessionsInfo.zero (matched arr rs)) ∧
    (matched arr rs).length = rs.countP (ssrc_occurs arr) ∧
    (remote_sessions_foreach arr rs GetRtpSessionsInfo.zero).2.count =
      rs.countP (ssrc_occurs arr) % 2 ^ 32 ∧
    (rs.countP (ssrc_occurs arr) < 2 ^ 32 →
      (remote_sessions_foreach arr rs GetRtpSessionsInfo.zero).2.count =
        rs.countP (ssrc_occurs arr)) ∧
    (∀ rlrs data, ssrc_occurs arr rlrs = false →
      kms_rl_remote_session_get_sessions_info rlrs (arr rlrs.rtpsess) data = (rlrs, data)) ∧
    (∀ rlrs data, ssrc_occurs arr rlrs = true → ∃ s, first_match arr rlrs = some s ∧
      kms_rl_remote_session_get_sessions_info rlrs (arr rlrs.rtpsess) data =
        sessions_info_match rlrs data s) ∧
    estimatorOneOfTwo.remote_sessions.map (ssrc_occurs envFirst.arr) = [false, true] ∧
    sample estimatorOneOfTwo envFirst =
      { count := 1, bitrate := 100000, fraction_lost_accumulative := 0,
        packets_received_expected_interval_accumulative := 10,
        octets_received := 12500, packets_received := 10 } ∧
    (remote_sessions_foreach envFirst.arr estimatorOneOfTwo.remote_sessions
      GetRtpSessionsInfo.zero).1 = [⟨1, 3333, 0⟩, ⟨1, 1111, 10⟩] := by
  refine ⟨remote_sessions_foreach_zero arr rs, matched_length arr rs,
    remote_sessions_foreach_count arr rs, ?_, ?_, ?_, by decide, by decide, by decide⟩
  · intro h
    rw [remote_sessions_foreach_count, Nat.mod_eq_of_lt h]
  · intro rlrs data h
    apply first_match_none
    have h1 := first_match_isSome arr rlrs
    rw [h] at h1
    cases hf : first_match arr rlrs with
    | none => rfl
    | some s => rw [hf] at h1; cases h1
  · intro rlrs data h
    have h1 := first_match_isSome arr rlrs
    rw [h] at h1
    cases hf : first_match arr rlrs with
    | none => rw [hf] at h1; cases h1
    | some s => exact ⟨s, rfl, first_match_some arr rlrs data s hf⟩

/-- Two records, one matching: the count is 1, and the sample and the stored
counters are those of the matching source. -/
theorem sample_aggregation_witness :
    estimatorOneOfTwo.remote_sessions.countP (ssrc_occurs envFirst.arr) = 1 ∧
    (remote_sessions_foreach envFirst.arr estimatorOneOfTwo.remote_sessions
      GetRtpSessionsInfo.zero).2.count =
        estimatorOneOfTwo.remote_sessions.countP (ssrc_occurs envFirst.arr) ∧
    sample estimatorOneOfTwo envFirst =
      { count := 1, bitrate := 100000, fraction_lost_accumulative := 0,
        packets_received_expected_interval_accumulative := 10,
        octets_received := 12500, packets_received := 10 } :=
  ⟨by decide,
    (sample_aggregation envFirst.arr estimatorOneOfTwo.remote_sessions).2.2.2.1 (by decide),
    by decide⟩

/-! ## Rounding: definedness -/

/-- Rounding to `gfloat` is defined for quotients below `2 ^ 127`. -/
theorem roundFrac_some (neg : Bool) (a d : Nat) (hd : 0 < d) (hd2 : d < 2 ^ 512)
    (hlt : (a : ℚ) / d < 2 ^ 127) : ∃ f, roundFrac neg a d = some f := by
  unfold roundFrac
  rw [if_neg (by omega)]
  by_cases ha0 : a = 0
  · rw [if_pos ha0]
    exact ⟨_, rfl⟩
  rw [if_neg ha0]
  have he := fracExp_le a d (Nat.pos_of_ne_zero ha0) hd hd2
  clear hd2
  have h127 : (2 : ℚ) ^ fracExp a d < (2 : ℚ) ^ (127 : ℤ) := by
    have : ((2 : ℚ) ^ (127 : ℤ)) = 2 ^ 127 := by norm_cast
    rw [this]
    exact lt_of_le_of_lt he hlt
  have hfe : fracExp a d < 127 := (zpow_lt_zpow_iff_right₀ (by norm_num : (1 : ℚ) < 2)).mp h127
  have hq : max (fracExp a d - 23) (-149) < 104 := by omega
  simp only
  rw [if_neg (by omega)]
  exact ⟨_, rfl⟩

/-- Rounding a dyadic number to `gfloat` is defined below `2 ^ 127`. -/
theorem roundDyadic_some (m e : Int) (he : -512 < e)
    (hlt : (m.natAbs : ℚ) * (2 : ℚ) ^ e < 2 ^ 127) : ∃ f, roundDyadic m e = some f := by
  unfold roundDyadic
  split_ifs with h0
  · obtain ⟨n, hn⟩ : ∃ n : ℕ, e = (n : ℤ) := ⟨e.toNat, by omega⟩
    subst hn
    simp only [Int.toNat_ofNat]
    apply roundFrac_some _ _ _ (by norm_num) (by norm_num)
    rw [zpow_natCast] at hlt
    push_cast
    simpa using hlt
  · obtain ⟨n, hn⟩ : ∃ n : ℕ, e = -(n : ℤ) := ⟨(-e).toNat, by omega⟩
    subst hn
    simp only [neg_neg, Int.toNat_ofNat]
    have hn512 : n < 512 := by omega
    have hlt2 : 2 ^ n < 2 ^ 512 := by
      gcongr
      norm_num
    apply roundFrac_some _ _ _ (by positivity) hlt2
    rw [zpow_neg, zpow_natCast] at hlt
    push_cast
    exact hlt

/-! ## Rounding: lower bounds -/

/-- The rounded quotient, in integers: twice the dividend is at most twice
the result times the divisor plus the divisor. -/
theorem roundQuot_nat_ge (a d : Nat) (q : Int) (hd : 0 < d) :
    (q < 0 → 2 * (a * 2 ^ (-q).toNat) ≤ 2 * roundQuot a d q * d + d) ∧
    (0 ≤ q → 2 * a ≤ 2 * roundQuot a d q * (d * 2 ^ q.toNat) + d * 2 ^ q.toNat) := by
  have key : ∀ num den : Nat, 0 < den →
      2 * num ≤ 2 * (if den < 2 * (num % den) ∨ (2 * (num % den) = den ∧ num / den % 2 = 1)
        then num / den + 1 else num / den) * den + den := by
    intro num den hden
    have h1 := Nat.div_add_mod num den
    have h2 := Nat.mod_lt num hden
    generalize num / den = k at h1 ⊢
    generalize num % den = r at h1 h2 ⊢
    subst h1
    split_ifs with h
    · ring_nf
      omega
    · have h3 : 2 * r ≤ den := by omega
      ring_nf
      omega
  unfold roundQuot
  simp only
  constructor
  · intro hq
    simp only [hq, if_true]
    exact key _ _ hd
  · intro hq
    have hq2 : ¬ q < 0 := by omega
    simp only [hq2, if_false]
    exact key _ _ (by positivity)

/-- The rounded quotient is at most half a unit below the exact one. -/
theorem roundQuot_ge (a d : Nat) (q : Int) (hd : 0 < d) :
    (a : ℚ) / d - (2 : ℚ) ^ q / 2 ≤ (roundQuot a d q : ℚ) * (2 : ℚ) ^ q := by
  have hdq : (0 : ℚ) < d := by exact_mod_cast hd
  have hnat := roundQuot_nat_ge a d q hd
  generalize roundQuot a d q = K at hnat ⊢
  by_cases hq : q < 0
  · obtain ⟨n, hn⟩ : ∃ n : ℕ, q = -(n : ℤ) := ⟨(-q).toNat, by omega⟩
    subst hn
    have h := hnat.1 hq
    simp only [neg_neg, Int.toNat_ofNat] at h
    have hc : ((2 * (a * 2 ^ n) : ℕ) : ℚ) ≤ ((2 * K * d + d : ℕ) : ℚ) := by exact_mod_cast h
    push_cast at hc
    rw [zpow_neg, zpow_natCast]
    have hp : (0 : ℚ) < 2 ^ n := by positivity
    rw [← sub_nonneg]
    have : (K : ℚ) * (2 ^ n)⁻¹ - ((a : ℚ) / d - (2 ^ n)⁻¹ / 2) =
        (2 * K * d + d - 2 * (a * 2 ^ n)) / (2 * d * 2 ^ n) := by
      field_simp
      ring
    rw [this]
    apply div_nonneg _ (by positivity)
    linarith
  · obtain ⟨n, hn⟩ : ∃ n : ℕ, q = (n : ℤ) := ⟨q.toNat, by omega⟩
    subst hn
    have h := hnat.2 (by omega)
    simp only [Int.toNat_ofNat] at h
    have hc : ((2 * a : ℕ) : ℚ) ≤ ((2 * K * (d * 2 ^ n) + d * 2 ^ n : ℕ) : ℚ) := by
      exact_mod_cast h
    push_cast at hc
    rw [zpow_natCast]
    have hp : (0 : ℚ) < 2 ^ n := by positivity
    rw [← sub_nonneg]
    have : (K : ℚ) * 2 ^ n - ((a : ℚ) / d - 2 ^ n / 2) =
        (2 * K * (d * 2 ^ n) + d * 2 ^ n - 2 * a) / (2 * d) := by
      field_simp
      ring
    rw [this]
    apply div_nonneg _ (by positivity)
    linarith

/-- Half a unit in the last place of the rounding is at most the relative
error `2 ^ (-24)` of the quotient plus the absolute error `2 ^ (-150)`. -/
theorem half_unit_le (a d : Nat) (ha : 0 < a) (hd : 0 < d) (hd2 : d < 2 ^ 512) :
    (2 : ℚ) ^ (max (fracExp a d - 23) (-149)) / 2 ≤ (a : ℚ) / d * (1 / 2 ^ 24) + 1 / 2 ^ 150 := by
  have he := fracExp_le a d ha hd hd2
  clear hd2
  have hdq : (0 : ℚ) < d := by exact_mod_cast hd
  rcases max_cases (fracExp a d - 23) (-149) with ⟨h1, -⟩ | ⟨h1, -⟩
  · rw [h1, zpow_sub₀ (by norm_num : (2 : ℚ) ≠ 0)]
    have h23 : (2 : ℚ) ^ (23 : ℤ) = 2 ^ 23 := by norm_cast
    rw [h23]
    have : (2 : ℚ) ^ fracExp a d / 2 ^ 23 / 2 ≤ (a : ℚ) / d * (1 / 2 ^ 24) := by
      have h2 : (2 : ℚ) ^ fracExp a d / 2 ^ 23 / 2 = (2 : ℚ) ^ fracExp a d * (1 / 2 ^ 24) := by
        ring
      rw [h2]
      exact mul_le_mul_of_nonneg_right he (by positivity)
    linarith [show (0 : ℚ) ≤ 1 / 2 ^ 150 by positivity]
  · rw [h1]
    have h149 : (2 : ℚ) ^ (-149 : ℤ) / 2 = 1 / 2 ^ 150 := by
      rw [zpow_neg]
      norm_num
    rw [h149]
    have : (0 : ℚ) ≤ (a : ℚ) / d * (1 / 2 ^ 24) := by positivity
    linarith

/-- The value `roundFrac` returns is at least the exact quotient reduced by
the relative error `2 ^ (-24)` and the absolute error `2 ^ (-150)`. -/
theorem roundFrac_ge (neg : Bool) (a d : Nat) (f : F32) (h : roundFrac neg a d = some f)
    (hd2 : d < 2 ^ 512) :
    (a : ℚ) / d * (1 - 1 / 2 ^ 24) - 1 / 2 ^ 150 ≤ (f.m.natAbs : ℚ) * (2 : ℚ) ^ f.e := by
  unfold roundFrac at h
  by_cases hd0 : d = 0
  · simp [hd0] at h
  by_cases ha0 : a = 0
  · simp only [hd0, ha0, if_false, if_true, Option.some.injEq] at h
    subst h
    clear hd2
    subst ha0
    simp only [Int.natAbs_zero, Nat.cast_zero, zero_mul, zero_div]
    have : (0 : ℚ) ≤ 1 / 2 ^ 150 := by positivity
    linarith
  · simp only [hd0, ha0, if_false] at h
    by_cases hov : 104 < max (fracExp a d - 23) (-149) ∨
        (max (fracExp a d - 23) (-149) = 104 ∧ 2 ^ 24 ≤ roundQuot a d (max (fracExp a d - 23) (-149)))
    · rw [if_pos hov] at h
      simp at h
    rw [if_neg hov] at h
    simp only [Option.some.injEq] at h
    have hd : 0 < d := Nat.pos_of_ne_zero hd0
    have ha : 0 < a := Nat.pos_of_ne_zero ha0
    have hq := roundQuot_ge a d (max (fracExp a d - 23) (-149)) hd
    have hhalf := half_unit_le a d ha hd hd2
    clear hd2
    have hnat : f.m.natAbs = roundQuot a d (max (fracExp a d - 23) (-149)) := by
      rw [← h]
      cases neg <;> simp
    have hfe : f.e = max (fracExp a d - 23) (-149) := by rw [← h]
    rw [hnat, hfe]
    refine le_trans ?_ hq
    linarith

/-- Rounding a non-negative dyadic number: the result is at least the number
reduced by the two rounding errors. -/
theorem roundDyadic_ge (m e : Int) (f : F32) (h : roundDyadic m e = some f) (hm : 0 ≤ m)
    (he : -512 < e) :
    (m : ℚ) * (2 : ℚ) ^ e * (1 - 1 / 2 ^ 24) - 1 / 2 ^ 150 ≤ f.toRat := by
  have hneg : decide (m < 0) = false := by simp [hm]
  obtain ⟨k, hk⟩ : ∃ k : ℕ, m = (k : ℤ) := ⟨m.toNat, by omega⟩
  subst hk
  unfold roundDyadic at h
  rw [hneg] at h
  simp only [Int.natAbs_ofNat] at h
  have hval : ∀ a j : ℕ, j < 512 → roundFrac false a (2 ^ j) = some f →
      (a : ℚ) / ((2 ^ j : ℕ) : ℚ) = (k : ℚ) * (2 : ℚ) ^ e →
      (k : ℚ) * (2 : ℚ) ^ e * (1 - 1 / 2 ^ 24) - 1 / 2 ^ 150 ≤ f.toRat := by
    intro a j hj hr hq
    have hlt : 2 ^ j < 2 ^ 512 := by
      gcongr
      norm_num
    have h1 := roundFrac_ge false a (2 ^ j) f hr hlt
    have hpos := (roundFrac_le false a (2 ^ j) f hr hlt).2.2 rfl
    unfold F32.toRat
    have hcast : (f.m.natAbs : ℚ) = (f.m : ℚ) := by
      rw [Nat.cast_natAbs, abs_of_nonneg hpos]
    rw [← hcast, ← hq]
    exact h1
  split_ifs at h with h0
  · obtain ⟨n, hn⟩ : ∃ n : ℕ, e = (n : ℤ) := ⟨e.toNat, by omega⟩
    subst hn
    simp only [Int.toNat_ofNat] at h
    have := hval _ 0 (by norm_num) h (by
      push_cast
      rw [zpow_natCast]
      simp)
    simpa using this
  · obtain ⟨n, hn⟩ : ∃ n : ℕ, e = -(n : ℤ) := ⟨(-e).toNat, by omega⟩
    subst hn
    simp only [neg_neg, Int.toNat_ofNat] at h
    have hn512 : n < 512 := by omega
    have := hval _ n hn512 h (by
      push_cast
      rw [zpow_neg, zpow_natCast]
      rfl)
    simpa using this

/-- The conversion of a natural number below `2 ^ 64` to `gfloat` is at least
the number reduced by the two rounding errors. -/
theorem ofInt_ge (n : Nat) (hn : n < 2 ^ 64) :
    (n : ℚ) * (1 - 1 / 2 ^ 24) - 1 / 2 ^ 150 ≤ (F32.ofInt n).toRat := by
  unfold F32.ofInt
  obtain ⟨f, hf⟩ := roundDyadic_some (n : ℤ) 0 (by norm_num) (by
    simp only [Int.natAbs_ofNat, zpow_zero, mul_one]
    have h1 : (n : ℚ) < 2 ^ 64 := by exact_mod_cast hn
    have h2 : (2 : ℚ) ^ 64 < 2 ^ 127 := by norm_num
    linarith)
  rw [hf]
  simp only [Option.getD_some]
  have := roundDyadic_ge n 0 f hf (by positivity) (by norm_num)
  simpa using this

/-- The integral part of a non-negative `gfloat` is less than one below it. -/
theorem trunc_gt (f : F32) (hm : 0 ≤ f.m) : f.toRat < (f.trunc : ℚ) + 1 := by
  obtain ⟨m, e⟩ := f
  simp only at hm
  obtain ⟨k, hk⟩ : ∃ k : ℕ, m = (k : ℤ) := ⟨m.toNat, by omega⟩
  subst hk
  unfold F32.trunc F32.toRat
  simp only [Int.natAbs_ofNat]
  split_ifs with h0
  · obtain ⟨n, hn⟩ : ∃ n : ℕ, e = (n : ℤ) := ⟨e.toNat, by omega⟩
    subst hn
    simp only [Int.toNat_ofNat]
    push_cast
    rw [zpow_natCast]
    linarith
  · obtain ⟨n, hn⟩ : ∃ n : ℕ, e = -(n : ℤ) := ⟨(-e).toNat, by omega⟩
    subst hn
    simp only [neg_neg, Int.toNat_ofNat]
    rw [zpow_neg, zpow_natCast]
    have hp : (0 : ℚ) < 2 ^ n := by positivity
    have hlt : k < (k / 2 ^ n + 1) * 2 ^ n := by
      have := Nat.lt_div_mul_add (a := k) (b := 2 ^ n) (by positivity)
      rw [Nat.add_mul, Nat.one_mul]
      exact this
    have hq : ((k : ℕ) : ℚ) < (((k / 2 ^ n + 1) * 2 ^ n : ℕ) : ℚ) := by exact_mod_cast hlt
    push_cast at hq
    rw [Int.cast_natCast, Int.cast_natCast, ← div_eq_mul_inv, div_lt_iff₀ hp]
    exact hq

/-! ## Local estimator: the growth step -/

theorem growth_candidate_eq (self : KmsRembLocal) :
    growth_candidate self =
      if max self.remb self.max_br < self.threshold then
        exponential_candidate_spec (max self.remb self.max_br) self.exponential_factor
      else some ((max self.remb self.max_br + self.lineal_factor) % 2 ^ 32) := by
  unfold growth_candidate exponential_candidate_spec scale_f32 wrap32
  simp only
  split_ifs
  · cases F32.add (F32.ofInt 1) self.exponential_factor with
    | none => rfl
    | some f =>
      simp only [Option.some_bind]
      cases F32.mul (F32.ofInt (toSigned32 (max self.remb self.max_br))) f with
      | none => rfl
      | some r => rfl
  · rfl

theorem update_estimate_growth (self : KmsRembLocal) (info : RecvInfo)
    (hrec : update_fraction_lost_record self info.fraction_lost info.packets_rcv_interval =
      some 0) :
    update_estimate self info =
      (if growth_base_spec self info < self.threshold then
        exponential_candidate_spec (growth_base_spec self info) self.exponential_factor
      else some ((growth_base_spec self info + self.lineal_factor) % 2 ^ 32)).map (fun c =>
        update_max_bw (growth_spec self info c)) := by
  unfold update_estimate
  rw [hrec]
  simp only [if_true]
  unfold update_growth
  rw [growth_candidate_eq]
  simp only [wrap32, growth_base_spec, REMB_MAX_FACTOR_INPUT_BR]
  split_ifs
  · cases exponential_candidate_spec (max self.remb (max self.max_br info.bitrate % 2 ^ 32))
      self.exponential_factor with
    | none => rfl
    | some c => rfl
  · rfl

/-- The `gfloat` sum `1 + factor` is defined for a factor between 0 and 1
and is the exact sum up to the rounding errors. -/
theorem one_add_factor (factor : F32) (hm : 0 ≤ factor.m) (he : -149 ≤ factor.e)
    (hle : factor.toRat ≤ 1) :
    ∃ f, F32.add (F32.ofInt 1) factor = some f ∧ 0 ≤ f.m ∧ -149 ≤ f.e ∧
      f.toRat ≤ (1 + factor.toRat) * (1 + 1 / 2 ^ 24) + 1 / 2 ^ 150 ∧
      (1 + factor.toRat) * (1 - 1 / 2 ^ 24) - 1 / 2 ^ 150 ≤ f.toRat := by
  have h1 : F32.ofInt 1 = ⟨8388608, -23⟩ := by decide
  rw [h1]
  unfold F32.add
  simp only
  have hemin : -149 ≤ min (-23) factor.e := le_min (by norm_num) he
  have hemax : min (-23) factor.e ≤ -23 := min_le_left _ _
  have hefa : min (-23) factor.e ≤ factor.e := min_le_right _ _
  generalize min (-23) factor.e = e at hemin hemax hefa
  have h2 : (2 : ℚ) ≠ 0 := by norm_num
  have hval : (((8388608 * 2 ^ (-23 - e).toNat + factor.m * 2 ^ (factor.e - e).toNat : ℤ)) : ℚ) *
      (2 : ℚ) ^ e = 1 + factor.toRat := by
    unfold F32.toRat
    push_cast
    rw [add_mul, mul_assoc, mul_assoc, ← zpow_natCast, ← zpow_natCast, ← zpow_add₀ h2,
      ← zpow_add₀ h2, Int.toNat_of_nonneg (by omega), Int.toNat_of_nonneg (by omega)]
    have e1 : -23 - e + e = -23 := by ring
    have e2 : factor.e - e + e = factor.e := by ring
    rw [e1, e2]
    have e3 : (8388608 : ℚ) * 2 ^ (-23 : ℤ) = 1 := by
      rw [zpow_neg]
      norm_num
    rw [e3]
  have hnn : (0 : ℤ) ≤ 8388608 * 2 ^ (-23 - e).toNat + factor.m * 2 ^ (factor.e - e).toNat := by
    positivity
  generalize (8388608 : ℤ) * 2 ^ (-23 - e).toNat + factor.m * 2 ^ (factor.e - e).toNat = M
    at hval hnn
  have hcast : (M.natAbs : ℚ) = (M : ℚ) := by
    rw [Nat.cast_natAbs, abs_of_nonneg hnn]
  obtain ⟨f, hf⟩ := roundDyadic_some M e (by omega) (by
    rw [hcast, hval]
    have : (2 : ℚ) < 2 ^ 127 := by norm_num
    linarith)
  obtain ⟨h4, h5, h6⟩ := roundDyadic_le M e f hf hnn (by omega)
  have h7 := roundDyadic_ge M e f hf hnn (by omega)
  rw [hval] at h6 h7
  exact ⟨f, hf, h4, h5, h6, h7⟩

/-- The exponential candidate is defined, and a non-negative `gint`, for a
base below `2 ^ 29` and a factor between 0 and 1; it differs from the exact
product `remb_base * (1 + factor)` by at most the fraction `2 ^ (-22)` of the
product plus 2. -/
theorem exponential_candidate_bounds (remb_base : Nat) (factor : F32)
    (hb : remb_base < 2 ^ 29) (hm : 0 ≤ factor.m) (he : -149 ≤ factor.e)
    (hle : factor.toRat ≤ 1) :
    ∃ c, exponential_candidate_spec remb_base factor = some c ∧ c < 2 ^ 31 ∧
      (c : ℚ) ≤ (remb_base : ℚ) * (1 + factor.toRat) * (1 + 1 / 2 ^ 22) + 1 ∧
      (remb_base : ℚ) * (1 + factor.toRat) * (1 - 1 / 2 ^ 22) - 2 < (c : ℚ) := by
  obtain ⟨f, hf, hf1, hf2, hf3, hf4⟩ := one_add_factor factor hm he hle
  unfold exponential_candidate_spec
  rw [hf]
  simp only [Option.some_bind]
  have hs : toSigned32 remb_base = (remb_base : ℤ) := by
    unfold toSigned32
    rw [if_pos (by omega)]
  rw [hs]
  obtain ⟨hx1, hx2, hx3⟩ := ofInt_le remb_base
  have hx4 := ofInt_ge remb_base (by omega)
  generalize F32.ofInt (remb_base : ℤ) = x at hx1 hx2 hx3 hx4
  have hbq : (remb_base : ℚ) ≤ 2 ^ 29 := by exact_mod_cast hb.le
  have hb0 : (0 : ℚ) ≤ remb_base := by positivity
  have hfac0 : (0 : ℚ) ≤ factor.toRat := by
    unfold F32.toRat
    have : (0 : ℚ) ≤ (factor.m : ℚ) := by exact_mod_cast hm
    positivity
  have hx0 : (0 : ℚ) ≤ x.toRat := by
    unfold F32.toRat
    have : (0 : ℚ) ≤ (x.m : ℚ) := by exact_mod_cast hx1
    positivity
  have hf0 : (0 : ℚ) ≤ f.toRat := by
    unfold F32.toRat
    have : (0 : ℚ) ≤ (f.m : ℚ) := by exact_mod_cast hf1
    positivity
  have hmul : (((x.m * f.m : ℤ)) : ℚ) * (2 : ℚ) ^ (x.e + f.e) = x.toRat * f.toRat := by
    unfold F32.toRat
    rw [zpow_add₀ (by norm_num : (2 : ℚ) ≠ 0)]
    push_cast
    ring
  have hnn : (0 : ℤ) ≤ x.m * f.m := mul_nonneg hx1 hf1
  have hcast : ((x.m * f.m).natAbs : ℚ) = ((x.m * f.m : ℤ) : ℚ) := by
    rw [Nat.cast_natAbs, abs_of_nonneg hnn]
  have e1 : (1 : ℚ) / 2 ^ 24 = 1 / 16777216 := by norm_num
  have e2 : (0 : ℚ) < 1 / 2 ^ 150 := by positivity
  have e3 : (1 : ℚ) / 2 ^ 150 ≤ 1 / 2 ^ 100 := by
    apply one_div_le_one_div_of_le (by norm_num)
    norm_num
  have e4 : (1 : ℚ) / 2 ^ 22 = 1 / 4194304 := by norm_num
  have e5 : (1 : ℚ) / 2 ^ 100 = 1 / 1267650600228229401496703205376 := by norm_num
  rw [e1] at hx3 hx4 hf3 hf4
  rw [e5] at e3
  -- the product of the two rounded operands against the exact product
  obtain ⟨s, hsdef⟩ : ∃ s : ℚ, s = 1 + factor.toRat := ⟨_, rfl⟩
  obtain ⟨b, hbdef⟩ : ∃ b : ℚ, b = (remb_base : ℚ) := ⟨_, rfl⟩
  rw [← hsdef] at hf3 hf4
  rw [← hbdef] at hx3 hx4 hbq hb0
  have hs1 : 1 ≤ s := by rw [hsdef]; linarith
  have hs2 : s ≤ 2 := by rw [hsdef]; linarith
  have hprodu : x.toRat * f.toRat ≤
      (b * (1 + 1 / 16777216) + 1 / 2 ^ 150) * (s * (1 + 1 / 16777216) + 1 / 2 ^ 150) :=
    mul_le_mul hx3 hf3 hf0 (by linarith [mul_nonneg hb0 (show (0 : ℚ) ≤ 1 + 1 / 16777216 by norm_num)])
  have hprodl : (b * (1 - 1 / 16777216) - 1 / 2 ^ 150) * (s * (1 - 1 / 16777216) - 1 / 2 ^ 150) ≤
      x.toRat * f.toRat := by
    have hF : 0 ≤ s * (1 - 1 / 16777216) - 1 / 2 ^ 150 := by
      have : (1 : ℚ) * (1 - 1 / 16777216) ≤ s * (1 - 1 / 16777216) :=
        mul_le_mul_of_nonneg_right hs1 (by norm_num)
      linarith
    by_cases hX : 0 ≤ b * (1 - 1 / 16777216) - 1 / 2 ^ 150
    · exact mul_le_mul hx4 hf4 hF hx0
    · have h1 : (b * (1 - 1 / 16777216) - 1 / 2 ^ 150) * (s * (1 - 1 / 16777216) - 1 / 2 ^ 150) ≤ 0 :=
        mul_nonpos_of_nonpos_of_nonneg (by linarith) hF
      exact le_trans h1 (mul_nonneg hx0 hf0)
  generalize (1 : ℚ) / 2 ^ 150 = δ at hx3 hx4 hf3 hf4 e2 e3 hprodu hprodl
  have hbs : 0 ≤ b * s := mul_nonneg hb0 (by linarith)
  have hδb : δ * b ≤ 1 / 1267650600228229401496703205376 * 2 ^ 29 :=
    mul_le_mul e3 hbq hb0 (by norm_num)
  have hδb0 : 0 ≤ δ * b := mul_nonneg e2.le hb0
  have hδs : δ * s ≤ 1 / 1267650600228229401496703205376 * 2 :=
    mul_le_mul e3 hs2 (by linarith) (by norm_num)
  have hδs0 : 0 ≤ δ * s := mul_nonneg e2.le (by linarith)
  have hδδ : δ * δ ≤ 1 / 1267650600228229401496703205376 * 1 :=
    mul_le_mul e3 (by linarith) e2.le (by norm_num)
  have hδδ0 : 0 ≤ δ * δ := mul_nonneg e2.le e2.le
  have hprod : x.toRat * f.toRat ≤ 2 ^ 31 - 2 := by
    have hbsu : b * s ≤ 2 ^ 29 * 2 := mul_le_mul hbq hs2 (by linarith) (by norm_num)
    refine le_trans hprodu ?_
    ring_nf
    ring_nf at hδb hδs hδδ hbsu
    linarith
  unfold F32.mul
  obtain ⟨r, hr⟩ := roundDyadic_some (x.m * f.m) (x.e + f.e) (by omega) (by
    rw [hcast, hmul]
    have : ((2 : ℚ) ^ 31 - 2) < 2 ^ 127 := by norm_num
    linarith)
  rw [hr]
  simp only [Option.some_bind]
  obtain ⟨hr1, -, hr3⟩ := roundDyadic_le _ _ r hr hnn (by omega)
  have hr4 := roundDyadic_ge _ _ r hr hnn (by omega)
  rw [hmul, e1] at hr3 hr4
  obtain ⟨ht1, ht2⟩ := trunc_le r hr1
  have ht3 := trunc_gt r hr1
  have e6 : (1 : ℚ) / 2 ^ 150 ≤ 1 / 1267650600228229401496703205376 := by
    apply one_div_le_one_div_of_le (by norm_num)
    norm_num
  have e7 : (0 : ℚ) < 1 / 2 ^ 150 := by positivity
  generalize (1 : ℚ) / 2 ^ 150 = δ2 at hr3 hr4 e6 e7
  have hupper : (r.trunc : ℚ) ≤ b * s * (1 + 1 / 4194304) + 1 := by
    have h1 : x.toRat * f.toRat * (1 + 1 / 16777216) ≤
        (b * (1 + 1 / 16777216) + δ) * (s * (1 + 1 / 16777216) + δ) * (1 + 1 / 16777216) :=
      mul_le_mul_of_nonneg_right hprodu (by norm_num)
    ring_nf at h1 hδb hδs hδδ ⊢
    linarith
  have hlower : b * s * (1 - 1 / 4194304) - 2 < (r.trunc : ℚ) := by
    have h1 : (b * (1 - 1 / 16777216) - δ) * (s * (1 - 1 / 16777216) - δ) * (1 - 1 / 16777216) ≤
        x.toRat * f.toRat * (1 - 1 / 16777216) :=
      mul_le_mul_of_nonneg_right hprodl (by norm_num)
    ring_nf at h1 hδb hδs hδδ ⊢
    linarith
  have htq : (r.trunc : ℚ) < 2 ^ 31 := by
    have hbsu : b * s ≤ 2 ^ 29 * 2 := mul_le_mul hbq hs2 (by linarith) (by norm_num)
    have : b * s * (1 + 1 / 4194304) ≤ 2 ^ 29 * 2 * (1 + 1 / 4194304) :=
      mul_le_mul_of_nonneg_right hbsu (by norm_num)
    norm_num at this ⊢
    linarith
  have ht : r.trunc < 2 ^ 31 := by exact_mod_cast htq
  unfold F32.toInt32
  simp only
  rw [if_pos ⟨by omega, ht⟩]
  have hc : ofInt32 r.trunc = r.trunc.toNat := by
    unfold ofInt32
    rw [Int.emod_eq_of_lt ht1 (by omega)]
  have hcq : ((ofInt32 r.trunc : ℕ) : ℚ) = (r.trunc : ℚ) := by
    rw [hc]
    have : ((r.trunc.toNat : ℕ) : ℤ) = r.trunc := Int.toNat_of_nonneg ht1
    exact_mod_cast this
  refine ⟨_, rfl, ?_, ?_, ?_⟩
  · rw [hc]
    omega
  · rw [hcq, e4, ← hbdef, ← hsdef]
    exact hupper
  · rw [hcq, e4, ← hbdef, ← hsdef]
    exact hlower

theorem local_update_probed (self0 self : KmsRembLocal) (env : TickEnv) (info : RecvInfo)
    (h : kms_remb_local_get_video_recv_info self0 env = (self, some info))
    (hp : self.probed = true) :
    kms_remb_local_update self0 env = (update_estimate self info).map (fun s => (s, true)) := by
  unfold kms_remb_local_update
  rw [h]
  simp only
  rw [if_neg (by simp [hp])]
  have hprobe : probe self info.bitrate = self := by
    unfold probe
    rw [if_neg (by simp [hp])]
  rw [hprobe]
  cases update_estimate self info with
  | none => rfl
  | some s => rfl

theorem growth_spec_bound (self : KmsRembLocal) (info : RecvInfo) (c : Nat) :
    (growth_spec self info c).remb ≤ max self.remb (2 * (growth_spec self info c).max_br) := by
  unfold growth_spec
  simp only
  have h1 : max self.max_br info.bitrate % 2 ^ 32 * 2 % 2 ^ 32 ≤
      2 * (max self.max_br info.bitrate % 2 ^ 32) := by
    rw [Nat.mul_comm]
    exact Nat.mod_le _ _
  generalize max self.max_br info.bitrate % 2 ^ 32 * 2 % 2 ^ 32 = k at h1
  generalize max self.max_br info.bitrate % 2 ^ 32 = m at h1
  omega

/-- C12, as stated, fails.  On the probed estimator of the running example
(estimate 104000, `max_br` 100000, threshold 2000000, lineal factor 50, no
cap) a tick whose octet counter is one below the previous sample measures the
saturated bitrate `2 ^ 64 - 1`: `max_br` becomes `2 ^ 32 - 1`, the lineal
candidate wraps to 49 and the estimate stays 104000, where the stated rule
gives 4294967345.  In the exponential step the product is rounded to a
`gfloat`: with the stored factor 0.04 the base 100000 gives 104000 (one above
the truncated exact product) and the base 104000 gives 108159 (one below
104000 * 1.04). -/
theorem growth_candidate_wraps :
    estimatorProbed.probed = true ∧ estimatorProbed.remb = 104000 ∧
    estimatorProbed.max_br = 100000 ∧ estimatorProbed.threshold = 2000000 ∧
    estimatorProbed.lineal_factor = 50 ∧ estimatorProbed.max_bw = 0 ∧
    (kms_remb_local_get_video_recv_info estimatorProbed envOctetsBack).2 =
      some { bitrate := 2 ^ 64 - 1, fraction_lost := 0, packets_rcv_interval := 20 } ∧
    (kms_remb_local_update estimatorProbed envOctetsBack).map
      (fun r => (r.2, r.1.remb, r.1.max_br, r.1.fraction_lost_record)) =
        some (true, 104000, 4294967295, 0) ∧
    max 104000 (min (max 104000 4294967295 + 50) (2 * 4294967295)) = 4294967345 ∧
    estimatorFresh.exponential_factor = ⟨10737418, -28⟩ ∧
    growth_candidate (probe estimatorFresh 100000) = some 104000 ∧
    ⌊(100000 : ℚ) * (1 + estimatorFresh.exponential_factor.toRat)⌋ = 103999 ∧
    growth_candidate estimatorProbed = some 108159 ∧
    ⌊(104000 : ℚ) * (1 + 4 / 100)⌋ = 108160 := by
  refine ⟨by decide, by decide, by decide, by decide, by decide, by decide, by decide,
    by decide, by decide, by decide, by decide, ?_, by decide, ?_⟩
  · have h : estimatorFresh.exponential_factor = ⟨10737418, -28⟩ := by decide
    rw [h, Int.floor_eq_iff]
    norm_num [F32.toRat]
  · rw [Int.floor_eq_iff]
    norm_num

/-- C12 (amended): for every estimator state and sample whose updated loss
record is 0, with `max_br` raised to the measured bitrate (32-bit) and the
base the larger of the estimate and `max_br`: when the base is not below the
threshold the step is defined and the candidate is the base plus the lineal
factor modulo `2 ^ 32`; when the base is below the threshold the candidate is
the `gfloat` product of the base and `1 + exponential_factor` converted to
`gint`, and the step is defined exactly when that candidate is; for a base
below `2 ^ 29` and a factor between 0 and 1 it is defined and differs from
the exact product by at most the fraction `2 ^ (-22)` of the product plus 2.
The candidate is clamped to twice `max_br` modulo `2 ^ 32`, the estimate
before the cap is the larger of the old estimate and the clamped candidate,
hence at most the larger of the old estimate and twice `max_br`; the cap
changes the estimate only and does not raise it, and the threshold and the
lineal factor are unchanged.  This is the step `kms_remb_local_update` takes
on a probed estimator. -/
theorem growth_step (self : KmsRembLocal) (info : RecvInfo)
    (hrec : update_fraction_lost_record self info.fraction_lost info.packets_rcv_interval =
      some 0) :
    (self.threshold ≤ growth_base_spec self info →
      update_estimate self info = some (update_max_bw (growth_spec self info
        ((growth_base_spec self info + self.lineal_factor) % 2 ^ 32)))) ∧
    (growth_base_spec self info < self.threshold →
      update_estimate self info =
        (exponential_candidate_spec (growth_base_spec self info) self.exponential_factor).map
          (fun c => update_max_bw (growth_spec self info c))) ∧
    (growth_base_spec self info < 2 ^ 29 → 0 ≤ self.exponential_factor.m →
      -149 ≤ self.exponential_factor.e → self.exponential_factor.toRat ≤ 1 →
      ∃ c, exponential_candidate_spec (growth_base_spec self info) self.exponential_factor =
          some c ∧ c < 2 ^ 31 ∧
        (c : ℚ) ≤ (growth_base_spec self info : ℚ) * (1 + self.exponential_factor.toRat) *
          (1 + 1 / 2 ^ 22) + 1 ∧
        (growth_base_spec self info : ℚ) * (1 + self.exponential_factor.toRat) *
          (1 - 1 / 2 ^ 22) - 2 < (c : ℚ)) ∧
    (∀ c, (growth_spec self info c).max_br = max self.max_br info.bitrate % 2 ^ 32 ∧
      (growth_spec self info c).remb =
        max self.remb (min c ((growth_spec self info c).max_br * 2 % 2 ^ 32)) ∧
      (growth_spec self info c).remb ≤ max self.remb (2 * (growth_spec self info c).max_br) ∧
      update_max_bw (growth_spec self info c) =
        { growth_spec self info c with remb := (update_max_bw (growth_spec self info c)).remb } ∧
      (update_max_bw (growth_spec self info c)).remb ≤ (growth_spec self info c).remb ∧
      (update_max_bw (growth_spec self info c)).threshold = self.threshold ∧
      (update_max_bw (growth_spec self info c)).lineal_factor = self.lineal_factor) ∧
    (∀ self0 env, kms_remb_local_get_video_recv_info self0 env = (self, some info) →
      self.probed = true →
      kms_remb_local_update self0 env = (update_estimate self info).map (fun s => (s, true))) := by
  have hup := update_estimate_growth self info hrec
  refine ⟨?_, ?_, ?_, ?_, ?_⟩
  · intro h
    rw [hup, if_neg (by omega)]
    rfl
  · intro h
    rw [hup, if_pos h]
  · intro h1 h2 h3 h4
    exact exponential_candidate_bounds _ _ h1 h2 h3 h4
  · intro c
    refine ⟨rfl, rfl, growth_spec_bound self info c, update_max_bw_frame _, ?_, ?_, ?_⟩
    · unfold update_max_bw
      split_ifs
      · exact min_le_left _ _
      · exact le_refl _
    · unfold update_max_bw
      split_ifs <;> rfl
    · unfold update_max_bw
      split_ifs <;> rfl
  · intro self0 env h hp
    exact local_update_probed self0 self env info h hp

/-- The running example: the second tick (200000 bps measured over 20
packets, no loss) is below the threshold, its candidate is 208000 and the
estimate goes from 104000 to 208000. -/
theorem growth_step_witness :
    update_fraction_lost_record estimatorProbed 0 20 = some 0 ∧
    growth_base_spec estimatorProbed ⟨200000, 0, 20⟩ = 200000 ∧
    exponential_candidate_spec 200000 estimatorProbed.exponential_factor = some 208000 ∧
    update_estimate estimatorProbed ⟨200000, 0, 20⟩ =
      (exponential_candidate_spec (growth_base_spec estimatorProbed ⟨200000, 0, 20⟩)
        estimatorProbed.exponential_factor).map
          (fun c => update_max_bw (growth_spec estimatorProbed ⟨200000, 0, 20⟩ c)) ∧
    (update_estimate estimatorProbed ⟨200000, 0, 20⟩).map (fun s => s.remb) = some 208000 :=
  ⟨by decide, by decide, by decide,
    (growth_step estimatorProbed ⟨200000, 0, 20⟩ (by decide)).2.1 (by decide), by decide⟩

end KmsRemb
